import Mathlib

/-!
Verification of the AI-assisted PDF-to-HTML conversion pipeline
(`src/converter/ai_converter.py`, `src/routes.py`) against its
natural-language specification.

Strings are modelled as `List Char` (`Str`).  Python's `str.lower()` is
modelled by the ASCII case map `lowerChar` (Python applies the full Unicode
case map; every string the claims exercise is handled identically by both).
Python's `\s` class is modelled by the six ASCII whitespace characters.
Remote services (the generative-language model, the file-upload API, PDF
text extraction) are modelled as oracle values supplied to the pipeline
functions, as the spec treats them as opaque collaborators.
-/

namespace AiConv

/-- Strings as lists of characters. -/
abbrev Str := List Char

/-- Coerce a Lean string literal to the `List Char` model. -/
def strL (s : String) : Str := s.data

/-- ASCII lower-casing of one character, modelling `str.lower()`. -/
def lowerChar : Char → Char
  | 'A' => 'a' | 'B' => 'b' | 'C' => 'c' | 'D' => 'd' | 'E' => 'e' | 'F' => 'f'
  | 'G' => 'g' | 'H' => 'h' | 'I' => 'i' | 'J' => 'j' | 'K' => 'k' | 'L' => 'l'
  | 'M' => 'm' | 'N' => 'n' | 'O' => 'o' | 'P' => 'p' | 'Q' => 'q' | 'R' => 'r'
  | 'S' => 's' | 'T' => 't' | 'U' => 'u' | 'V' => 'v' | 'W' => 'w' | 'X' => 'x'
  | 'Y' => 'y' | 'Z' => 'z'
  | c => c

/-- Lower-casing of a whole string, modelling `str.lower()`. -/
def lowerStr (s : Str) : Str := s.map lowerChar

/-- The ASCII whitespace characters recognised by the regex class `\s`. -/
def isWs (c : Char) : Bool :=
  c = ' ' || c = '\t' || c = '\n' || c = '\r' || c = '\x0b' || c = '\x0c'

/-- Substring test, modelling Python's `needle in haystack`. -/
def isSub (n : Str) (h : Str) : Bool :=
  match h with
  | [] => n.isEmpty
  | _ :: t => n.isPrefixOf h || isSub n t

/-- Occurrence count of a needle: the number of positions where it starts.
For needles that cannot overlap themselves this equals Python's
non-overlapping `str.count`; the bridge to the faithful greedy count
`pyCount` is proved below. -/
def countOcc (n : Str) (h : Str) : Nat :=
  match h with
  | [] => 0
  | _ :: t => (if n.isPrefixOf h then 1 else 0) + countOcc n t

/-- Greedy scan behind `pyCount`: `skip` characters are still covered by the
previous match and cannot start a new one. -/
def pyCountAux (n : Str) (h : Str) (skip : Nat) : Nat :=
  match h, skip with
  | [], _ => 0
  | _ :: t, Nat.succ k => pyCountAux n t k
  | c :: t, 0 =>
      if n.isPrefixOf (c :: t) then 1 + pyCountAux n t (n.length - 1)
      else pyCountAux n t 0

/-- Python's `str.count`: non-overlapping occurrences, scanned left to
right (for a nonempty needle). -/
def pyCount (n : Str) (h : Str) : Nat := pyCountAux n h 0

/-- Split at the first occurrence of `n`: `some (a, b)` with `s = a ++ b`,
`n` a prefix of `b`, and no occurrence of `n` starting inside `a`.
Models `str.find` together with the slicing the code does at that index. -/
def splitFirstP (n : Str) (s : Str) : Option (Str × Str) :=
  match s with
  | [] => none
  | c :: t =>
      if n.isPrefixOf s then some ([], s)
      else (splitFirstP n t).map (fun p => (c :: p.1, p.2))

/-- Case-insensitive prefix test: `n` (already lower case) is a prefix of
`lowerStr s`. -/
def ciPrefix (n : Str) (s : Str) : Bool := n.isPrefixOf (lowerStr s)

/-- Split at the first case-insensitive occurrence of `n` (given lower
case): `some (a, m, b)` with `s = a ++ m ++ b` and `lowerStr m = n`.
Models `re.sub(..., count=1, flags=re.IGNORECASE)`'s match location. -/
def splitFirstCi (n : Str) (s : Str) : Option (Str × Str × Str) :=
  match s with
  | [] => none
  | c :: t =>
      if ciPrefix n s then some ([], s.take n.length, s.drop n.length)
      else (splitFirstCi n t).map (fun p => (c :: p.1, p.2.1, p.2.2))

/-! Basic facts about the string model. -/

theorem lowerChar_spec (c : Char) :
    lowerChar c = c ∨ (c ∈ strL "ABCDEFGHIJKLMNOPQRSTUVWXYZ" ∧
      lowerChar c ∈ strL "abcdefghijklmnopqrstuvwxyz") := by
  unfold lowerChar
  split <;> first
    | exact Or.inl rfl
    | exact Or.inr (by constructor <;> decide)

theorem lowerChar_fix {c : Char} (h : c ∉ strL "ABCDEFGHIJKLMNOPQRSTUVWXYZ") :
    lowerChar c = c := by
  rcases lowerChar_spec c with h1 | ⟨h1, _⟩
  · exact h1
  · exact absurd h1 h

theorem lowerChar_eq_nonletter {c k : Char}
    (hk : k ∉ strL "abcdefghijklmnopqrstuvwxyz")
    (h : lowerChar c = k) : c = k := by
  rcases lowerChar_spec c with h1 | ⟨_, h2⟩
  · rw [h1] at h; exact h
  · rw [h] at h2; exact absurd h2 hk

theorem lowerChar_idem (c : Char) : lowerChar (lowerChar c) = lowerChar c := by
  rcases lowerChar_spec c with h1 | ⟨_, h2⟩
  · rw [h1, h1]
  · apply lowerChar_fix
    intro hmem
    have : ∀ x ∈ strL "abcdefghijklmnopqrstuvwxyz",
        x ∉ strL "ABCDEFGHIJKLMNOPQRSTUVWXYZ" := by decide
    exact this _ h2 hmem

theorem lowerStr_append (a b : Str) :
    lowerStr (a ++ b) = lowerStr a ++ lowerStr b := List.map_append ..

theorem lowerStr_idem (s : Str) : lowerStr (lowerStr s) = lowerStr s := by
  unfold lowerStr
  rw [List.map_map]
  exact List.map_congr_left (fun c _ => lowerChar_idem c)

theorem isSub_iff_infix (n h : Str) : isSub n h = true ↔ n <:+: h := by
  induction h with
  | nil =>
      unfold isSub
      simp [List.isEmpty_iff, List.infix_nil]
  | cons c t ih =>
      unfold isSub
      rw [Bool.or_eq_true, List.isPrefixOf_iff_prefix, ih, List.infix_cons_iff]

theorem splitFirstP_eq {n s a b : Str} (h : splitFirstP n s = some (a, b)) :
    s = a ++ b ∧ n <+: b := by
  induction s generalizing a b with
  | nil => simp [splitFirstP] at h
  | cons c t ih =>
      rw [splitFirstP] at h
      split at h
      · simp only [Option.some.injEq, Prod.mk.injEq] at h
        obtain ⟨rfl, rfl⟩ := h
        refine ⟨rfl, List.isPrefixOf_iff_prefix.mp (by assumption)⟩
      · rw [Option.map_eq_some'] at h
        obtain ⟨⟨a', b'⟩, hrec, heq⟩ := h
        simp only [Prod.mk.injEq] at heq
        obtain ⟨rfl, rfl⟩ := heq
        obtain ⟨h1, h2⟩ := ih hrec
        exact ⟨by rw [h1]; rfl, h2⟩

/-! ## The chunker `_chunk_text`

`_chunk_text(text, max_chars)` splits on the paragraph separator
`"\n\n"` and greedily groups paragraphs into chunks.  `splitOnAux`
models Python's `str.split` for a nonempty separator; the `skip`
argument counts separator characters still to be consumed. -/

/-- Worker for `splitOnSep`; `skip` separator characters remain to be
dropped before piece-building resumes. -/
def splitOnAux (sep : Str) : Str → Nat → List Str
  | [], _ => [[]]
  | _ :: t, Nat.succ k => splitOnAux sep t k
  | c :: t, 0 =>
      if sep.isPrefixOf (c :: t) then [] :: splitOnAux sep t (sep.length - 1)
      else
        match splitOnAux sep t 0 with
        | [] => [[c]]
        | h :: r => (c :: h) :: r

/-- Python's `text.split(sep)` for a nonempty separator. -/
def splitOnSep (sep s : Str) : List Str := splitOnAux sep s 0

/-- `sep.join(pieces)`: concatenation with the separator re-inserted at
the boundaries. -/
def joinSep (sep : Str) : List Str → Str
  | [] => []
  | [x] => x
  | x :: r => x ++ sep ++ joinSep sep r

/-- The loop of `_chunk_text` (lines 38-50): greedy grouping of
paragraphs, flushing the current group when the next paragraph would
exceed `max_chars` and the group is nonempty. -/
def chunkLoop (maxChars : Nat) : List Str → List Str → Nat → List Str → List Str
  | [], cur, _, chunks => if cur = [] then chunks else chunks ++ [joinSep (strL "\n\n") cur]
  | p :: rest, cur, curLen, chunks =>
      if curLen + p.length > maxChars ∧ cur ≠ [] then
        chunkLoop maxChars rest [p] p.length (chunks ++ [joinSep (strL "\n\n") cur])
      else
        chunkLoop maxChars rest (cur ++ [p]) (curLen + p.length + 2) chunks

/-- `_chunk_text`: returns `[text]` when it fits, otherwise splits by
double newlines and regroups (the source's default `max_chars` is
10000). -/
def chunkText (text : Str) (maxChars : Nat) : List Str :=
  if text.length ≤ maxChars then [text]
  else chunkLoop maxChars (splitOnSep (strL "\n\n") text) [] 0 []

theorem splitOnAux_ne_nil (sep s : Str) (k : Nat) : splitOnAux sep s k ≠ [] := by
  induction s generalizing k with
  | nil => rw [splitOnAux]; exact List.cons_ne_nil _ _
  | cons c t ih =>
      match k with
      | Nat.succ k' => rw [splitOnAux]; exact ih k'
      | 0 =>
          rw [splitOnAux]
          split
          · exact List.cons_ne_nil _ _
          · split <;> exact List.cons_ne_nil _ _

theorem splitOnAux_skip (sep : Str) (s : Str) (k : Nat) :
    splitOnAux sep s k = splitOnAux sep (s.drop k) 0 := by
  induction s generalizing k with
  | nil => cases k <;> rfl
  | cons c t ih =>
      cases k with
      | zero => rfl
      | succ k' => rw [splitOnAux, List.drop_succ_cons, ih k']

theorem joinSep_append (sep : Str) (A B : List Str) (hA : A ≠ []) (hB : B ≠ []) :
    joinSep sep (A ++ B) = joinSep sep A ++ sep ++ joinSep sep B := by
  induction A with
  | nil => exact absurd rfl hA
  | cons x A' ih =>
      cases A' with
      | nil =>
          cases B with
          | nil => exact absurd rfl hB
          | cons y B' => simp [joinSep]
      | cons x' A'' =>
          have h1 : joinSep sep (x :: x' :: A'' ++ B)
              = x ++ sep ++ joinSep sep (x' :: A'' ++ B) := by
            rw [List.cons_append, List.cons_append]
            rfl
          rw [h1, ih (List.cons_ne_nil _ _)]
          simp [joinSep, List.append_assoc]

theorem joinSep_cons (sep x : Str) (P : List Str) (hP : P ≠ []) :
    joinSep sep (x :: P) = x ++ sep ++ joinSep sep P := by
  cases P with
  | nil => exact absurd rfl hP
  | cons y r => rfl

theorem joinSep_cons_head (sep h : Str) (c : Char) (r : List Str) :
    joinSep sep ((c :: h) :: r) = c :: joinSep sep (h :: r) := by
  cases r with
  | nil => rfl
  | cons y r' =>
      rw [joinSep_cons _ _ _ (List.cons_ne_nil _ _),
        joinSep_cons _ _ _ (List.cons_ne_nil _ _)]
      simp

theorem splitOn_roundtrip (sep s : Str) (hsep : sep ≠ []) :
    joinSep sep (splitOnSep sep s) = s := by
  generalize hn : s.length = len
  induction len using Nat.strong_induction_on generalizing s with
  | _ len ih =>
      match s with
      | [] => rfl
      | c :: t =>
          rw [splitOnSep, splitOnAux]
          split
          · next hpre =>
              have hp : sep <+: c :: t := List.isPrefixOf_iff_prefix.mp hpre
              obtain ⟨rest, hrest⟩ := hp
              have hlen : 1 ≤ sep.length := by
                cases sep with
                | nil => exact absurd rfl hsep
                | cons _ _ => exact Nat.succ_le_succ (Nat.zero_le _)
              have hdrop : t.drop (sep.length - 1) = rest := by
                have h2 : (sep ++ rest).drop sep.length = rest := List.drop_left _ _
                have h3 : (c :: t).drop sep.length = t.drop (sep.length - 1) := by
                  obtain ⟨m, hm⟩ : ∃ m, sep.length = m + 1 := ⟨sep.length - 1, by omega⟩
                  rw [hm, List.drop_succ_cons, Nat.add_sub_cancel]
                rw [← h3, ← hrest]
                exact h2
              rw [splitOnAux_skip, hdrop]
              have hrlen : rest.length < len := by
                rw [← hn, ← hrest, List.length_append]
                omega
              have hrec := ih rest.length hrlen rest rfl
              rw [splitOnSep] at hrec
              rw [joinSep_cons _ _ _ (splitOnAux_ne_nil _ _ _), hrec, ← hrest]
              simp
          · next hpre =>
              have hne := splitOnAux_ne_nil sep t 0
              match e : splitOnAux sep t 0 with
              | [] => exact absurd e hne
              | h :: r =>
                  have htlen : t.length < len := by
                    rw [← hn, List.length_cons]
                    omega
                  have hrec := ih t.length htlen t rfl
                  rw [splitOnSep, e] at hrec
                  rw [joinSep_cons_head, hrec]


theorem joinSep_middle (sep : Str) (X : List Str) (u v : Str) :
    joinSep sep (X ++ [u] ++ [v]) = joinSep sep (X ++ [u ++ sep ++ v]) := by
  induction X with
  | nil =>
      rw [List.nil_append, List.nil_append, List.singleton_append,
        joinSep_cons _ _ _ (List.cons_ne_nil _ _)]
      rfl
  | cons x X' ih =>
      rw [List.cons_append, List.cons_append, List.cons_append,
        joinSep_cons _ _ _ (by simp), joinSep_cons _ _ _ (by simp)]
      rw [List.append_assoc X' [u] [v]] at ih ⊢
      rw [ih]

theorem chunkLoop_join (maxChars : Nat) (paras : List Str) :
    ∀ (cur : List Str) (curLen : Nat) (chunks : List Str), cur ≠ [] →
    joinSep (strL "\n\n") (chunkLoop maxChars paras cur curLen chunks)
      = joinSep (strL "\n\n") (chunks ++ [joinSep (strL "\n\n") (cur ++ paras)]) := by
  induction paras with
  | nil =>
      intro cur curLen chunks hcur
      rw [chunkLoop, if_neg hcur, List.append_nil]
  | cons p rest ih =>
      intro cur curLen chunks hcur
      rw [chunkLoop]
      split
      · rw [ih [p] p.length _ (List.cons_ne_nil _ _)]
        rw [List.singleton_append]
        rw [joinSep_append _ cur (p :: rest) hcur (List.cons_ne_nil _ _),
          ← joinSep_middle]
      · rw [ih (cur ++ [p]) _ _ (by simp)]
        rw [List.append_assoc cur [p] rest, List.singleton_append]

/-- C10 (amended part): the chunks of `_chunk_text`, concatenated in order
with the paragraph separator re-inserted at chunk boundaries, reproduce
the ENTIRE input verbatim -- the function never truncates to
`max_chars`. -/
theorem chunkText_concat_eq_input (text : Str) (maxChars : Nat) :
    joinSep (strL "\n\n") (chunkText text maxChars) = text := by
  unfold chunkText
  split
  · rfl
  · have hne := splitOnAux_ne_nil (strL "\n\n") text 0
    rw [show splitOnSep (strL "\n\n") text = splitOnAux (strL "\n\n") text 0 from rfl]
    match e : splitOnAux (strL "\n\n") text 0 with
    | [] => exact absurd e hne
    | p :: rest =>
        rw [chunkLoop, if_neg (by simp), List.nil_append]
        rw [chunkLoop_join _ _ [p] _ [] (List.cons_ne_nil _ _)]
        rw [List.nil_append, List.singleton_append]
        have hround := splitOn_roundtrip (strL "\n\n") text (by decide)
        rw [splitOnSep, e] at hround
        rw [show joinSep (strL "\n\n") [joinSep (strL "\n\n") (p :: rest)]
            = joinSep (strL "\n\n") (p :: rest) from rfl]
        exact hround

/-- C10 (counterexample): for input `"aaa\n\nbbb"` with `max_chars = 4` the
concatenation of the chunks is the whole input, not the input truncated
to `max_chars`: `_chunk_text` never truncates. -/
theorem chunkText_truncation_counterexample :
    joinSep (strL "\n\n") (chunkText (strL "aaa\n\nbbb") 4)
      ≠ (strL "aaa\n\nbbb").take 4 := by decide

/-! ## The model selector `_build_model`

`_build_model` (lines 96-119) builds the deduplicated candidate list
(preferred, fallback, then fixed legacy identifiers, skipping empty
names) and probes each in order with a trivial request, committing to
the first success; `none` models raising `GeminiUnavailable`.  The
remote probe is modelled by the oracle `probe`. -/

/-- The fixed legacy model identifiers listed in `_build_model`. -/
def legacyModels : List Str :=
  [strL "gemini-pro", strL "gemini-2.0-flash",
   strL "gemini-1.5-flash", strL "gemini-1.5-pro"]

/-- One step of the candidate accumulation: `if name and name not in
candidates: candidates.append(name)`. -/
def addCandidate (acc : List Str) (name : Str) : List Str :=
  if name ≠ [] ∧ name ∉ acc then acc ++ [name] else acc

/-- The candidate list `_build_model` iterates over. -/
def buildCandidates (preferred fallback : Str) : List Str :=
  ([preferred, fallback] ++ legacyModels).foldl addCandidate []

/-- The probing loop: first candidate whose probe succeeds, together
with the list of candidates actually probed, in order. -/
def probeLoop (probe : Str → Bool) : List Str → Option Str × List Str
  | [] => (none, [])
  | c :: rest =>
      if probe c then (some c, [c])
      else ((probeLoop probe rest).1, c :: (probeLoop probe rest).2)

/-- `_build_model`: the chosen model (or `none` for `GeminiUnavailable`)
and the candidates probed. -/
def buildModel (preferred fallback : Str) (probe : Str → Bool) :
    Option Str × List Str :=
  probeLoop probe (buildCandidates preferred fallback)

theorem probeLoop_fst (probe : Str → Bool) (l : List Str) :
    (probeLoop probe l).1 = l.find? probe := by
  induction l with
  | nil => rfl
  | cons c rest ih =>
      rw [probeLoop, List.find?]
      by_cases h : probe c <;> simp [h, ih]

theorem probeLoop_snd (probe : Str → Bool) (l : List Str) :
    (probeLoop probe l).2
      = l.takeWhile (fun c => !probe c) ++ (l.find? probe).toList := by
  induction l with
  | nil => rfl
  | cons c rest ih =>
      rw [probeLoop, List.find?, List.takeWhile]
      by_cases h : probe c <;> simp [h, ih]

theorem foldl_addCandidate_mem (l : List Str) :
    ∀ (acc : List Str) (x : Str),
      x ∈ l.foldl addCandidate acc ↔ x ∈ acc ∨ (x ∈ l ∧ x ≠ []) := by
  induction l with
  | nil => intro acc x; simp
  | cons p rest ih =>
      intro acc x
      rw [List.foldl_cons, ih]
      unfold addCandidate
      by_cases hp : p = []
      · subst hp
        simp only [ne_eq, not_true_eq_false, false_and, if_false]
        constructor
        · rintro (h | h)
          · exact Or.inl h
          · exact Or.inr ⟨List.mem_cons_of_mem _ h.1, h.2⟩
        · rintro (h | ⟨h1, h2⟩)
          · exact Or.inl h
          · rcases List.mem_cons.mp h1 with rfl | h1
            · exact absurd rfl h2
            · exact Or.inr ⟨h1, h2⟩
      · by_cases hm : p ∈ acc
        · simp only [hp, hm, not_true_eq_false, and_false, if_false]
          constructor
          · rintro (h | h)
            · exact Or.inl h
            · exact Or.inr ⟨List.mem_cons_of_mem _ h.1, h.2⟩
          · rintro (h | ⟨h1, h2⟩)
            · exact Or.inl h
            · rcases List.mem_cons.mp h1 with rfl | h1
              · exact Or.inl hm
              · exact Or.inr ⟨h1, h2⟩
        · simp only [ne_eq, hp, hm, not_false_iff, and_true, if_true, if_pos]
          rw [List.mem_append, List.mem_singleton]
          constructor
          · rintro ((h | rfl) | h)
            · exact Or.inl h
            · exact Or.inr ⟨List.mem_cons_self _ _, hp⟩
            · exact Or.inr ⟨List.mem_cons_of_mem _ h.1, h.2⟩
          · rintro (h | ⟨h1, h2⟩)
            · exact Or.inl (Or.inl h)
            · rcases List.mem_cons.mp h1 with rfl | h1
              · exact Or.inl (Or.inr rfl)
              · exact Or.inr ⟨h1, h2⟩

theorem foldl_addCandidate_nodup (l : List Str) :
    ∀ (acc : List Str), acc.Nodup → (l.foldl addCandidate acc).Nodup := by
  induction l with
  | nil => intro acc h; exact h
  | cons p rest ih =>
      intro acc h
      rw [List.foldl_cons]
      apply ih
      unfold addCandidate
      split
      · next hc =>
          rw [List.nodup_append]
          exact ⟨h, List.nodup_singleton _, by
            intro x hx hx'
            rw [List.mem_singleton] at hx'
            exact hc.2 (hx' ▸ hx)⟩
      · exact h

theorem foldl_addCandidate_sublist (l : List Str) :
    ∀ (acc : List Str), ∃ extra,
      l.foldl addCandidate acc = acc ++ extra ∧ extra.Sublist l := by
  induction l with
  | nil => intro acc; exact ⟨[], by simp⟩
  | cons p rest ih =>
      intro acc
      rw [List.foldl_cons]
      by_cases hc : p ≠ [] ∧ p ∉ acc
      · rw [show addCandidate acc p = acc ++ [p] from by rw [addCandidate, if_pos hc]]
        obtain ⟨extra, h1, h2⟩ := ih (acc ++ [p])
        exact ⟨p :: extra, by rw [h1]; simp, List.Sublist.cons₂ _ h2⟩
      · rw [show addCandidate acc p = acc from by rw [addCandidate, if_neg hc]]
        obtain ⟨extra, h1, h2⟩ := ih acc
        exact ⟨extra, h1, List.Sublist.cons _ h2⟩

/-- C8: `_build_model` probes the candidates in priority order --
preferred, fallback, then the fixed legacy list, deduplicated with
first-occurrence order preserved and empty names skipped -- stops at the
first successful probe (the probed list is exactly the failing prefix
plus the winner), and fails (raises `GeminiUnavailable`, here `none`)
iff every candidate's probe fails. -/
theorem buildModel_selects_first_success (preferred fallback : Str)
    (probe : Str → Bool) :
    ((buildModel preferred fallback probe).1
        = (buildCandidates preferred fallback).find? probe)
    ∧ ((buildModel preferred fallback probe).2
        = (buildCandidates preferred fallback).takeWhile (fun c => !probe c)
          ++ ((buildCandidates preferred fallback).find? probe).toList)
    ∧ (buildCandidates preferred fallback).Nodup
    ∧ (buildCandidates preferred fallback).Sublist
        ([preferred, fallback] ++ legacyModels)
    ∧ (∀ x, x ∈ buildCandidates preferred fallback
        ↔ x ∈ [preferred, fallback] ++ legacyModels ∧ x ≠ [])
    ∧ ((buildModel preferred fallback probe).1 = none
        ↔ ∀ c ∈ buildCandidates preferred fallback, probe c = false) := by
  refine ⟨probeLoop_fst _ _, probeLoop_snd _ _, ?_, ?_, ?_, ?_⟩
  · exact foldl_addCandidate_nodup _ _ List.nodup_nil
  · obtain ⟨extra, h1, h2⟩ := foldl_addCandidate_sublist
      ([preferred, fallback] ++ legacyModels) []
    rw [buildCandidates, h1, List.nil_append]
    exact h2
  · intro x
    rw [buildCandidates, foldl_addCandidate_mem]
    simp
  · rw [buildModel, probeLoop_fst, List.find?_eq_none]
    constructor
    · intro h c hc
      have := h c hc
      simpa using this
    · intro h c hc
      simp [h c hc]

/-! ## The self-validator `_validate_with_ai`

`PyVal` models the Python values `json.loads` can produce.  `jsonLoads`
models Python's `json.loads` on the escape-free fragment of JSON (enough
for every value the claims exercise); it fails on trailing garbage, as
`json.loads` does.  The model call plus `_extract_text_from_response` is
the oracle `callResult`. -/

/-- Python values produced by `json.loads`. -/
inductive PyVal where
  | none : PyVal
  | bool (b : Bool) : PyVal
  | num (n : Int) : PyVal
  | str (s : Str) : PyVal
  | list (xs : List PyVal) : PyVal
  | dict (xs : List (Str × PyVal)) : PyVal

/-- Drop leading JSON whitespace. -/
def skipWs : Str → Str
  | [] => []
  | c :: t => if isWs c then skipWs t else c :: t

/-- A JSON string body up to the closing quote; escapes are outside the
modelled fragment. -/
def parseStrLit : Str → Option (Str × Str)
  | [] => Option.none
  | c :: t =>
      if c = '"' then some ([], t)
      else if c = '\\' then Option.none
      else (parseStrLit t).map (fun p => (c :: p.1, p.2))

/-- Leading decimal digits and the rest. -/
def takeDigits : Str → (List Char × Str)
  | [] => ([], [])
  | c :: t =>
      if c.isDigit then
        let p := takeDigits t
        (c :: p.1, p.2)
      else ([], c :: t)

/-- Digit list to `Nat`. -/
def digitsToNat (l : List Char) : Nat :=
  l.foldl (fun a c => a * 10 + (c.toNat - 48)) 0

/-- A JSON integer (optionally negative). -/
def parseNum (s : Str) : Option (PyVal × Str) :=
  match s with
  | '-' :: t =>
      match takeDigits t with
      | ([], _) => Option.none
      | (d, r) => some (.num (-(digitsToNat d : Int)), r)
  | _ =>
      match takeDigits s with
      | ([], _) => Option.none
      | (d, r) => some (.num (digitsToNat d : Int), r)

mutual

/-- A JSON value; `fu` is recursion fuel (the nesting depth is bounded
by the input length, so `length + 1` fuel always suffices). -/
def parseVal : Nat → Str → Option (PyVal × Str)
  | 0, _ => Option.none
  | Nat.succ fu, s =>
      let s' := skipWs s
      match s' with
      | [] => Option.none
      | c :: t =>
          if (strL "null").isPrefixOf s' then some (.none, s'.drop 4)
          else if (strL "true").isPrefixOf s' then some (.bool true, s'.drop 4)
          else if (strL "false").isPrefixOf s' then some (.bool false, s'.drop 5)
          else if c = '"' then (parseStrLit t).map (fun p => (.str p.1, p.2))
          else if c = '[' then
            match skipWs t with
            | ']' :: r => some (.list [], r)
            | _ => (parseItems fu t).map (fun p => (.list p.1, p.2))
          else if c = '{' then
            match skipWs t with
            | '}' :: r => some (.dict [], r)
            | _ => (parseMembers fu t).map (fun p => (.dict p.1, p.2))
          else parseNum s'

/-- Comma-separated JSON array items up to `]`. -/
def parseItems : Nat → Str → Option (List PyVal × Str)
  | 0, _ => Option.none
  | Nat.succ fu, s =>
      match parseVal fu s with
      | Option.none => Option.none
      | some (v, r) =>
          match skipWs r with
          | ',' :: r2 => (parseItems fu r2).map (fun p => (v :: p.1, p.2))
          | ']' :: r2 => some ([v], r2)
          | _ => Option.none

/-- Comma-separated JSON object members up to a closing brace. -/
def parseMembers : Nat → Str → Option (List (Str × PyVal) × Str)
  | 0, _ => Option.none
  | Nat.succ fu, s =>
      match skipWs s with
      | '"' :: t =>
          match parseStrLit t with
          | Option.none => Option.none
          | some (k, r) =>
              match skipWs r with
              | ':' :: r2 =>
                  match parseVal fu r2 with
                  | Option.none => Option.none
                  | some (v, r3) =>
                      match skipWs r3 with
                      | ',' :: r4 => (parseMembers fu r4).map (fun p => ((k, v) :: p.1, p.2))
                      | '\x7d' :: r4 => some ([(k, v)], r4)
                      | _ => Option.none
              | _ => Option.none
      | _ => Option.none

end

/-- `json.loads` on the modelled fragment: one value, no trailing
garbage. -/
def jsonLoads (s : Str) : Option PyVal :=
  match parseVal (s.length + 1) s with
  | some (v, rest) => if skipWs rest = [] then some v else Option.none
  | Option.none => Option.none

/-- The default optimistic verdict of `_validate_with_ai` (line 335). -/
def defaultVerdict : PyVal :=
  .dict [(strL "is_complete", .bool true),
         (strL "issues", .list []),
         (strL "missing_elements", .list []),
         (strL "truncated", .bool false),
         (strL "recommendation", .str (strL "keep"))]

/-- `_validate_with_ai` (lines 298-335).  The model call together with
`_extract_text_from_response` is the oracle `callResult` (`.error` for a
raised exception, `.ok` for the extracted text).  On a raised exception,
empty extracted text, or a `json.loads` failure the default verdict is
returned; otherwise the parsed JSON value is returned as-is -- the code
performs no verdict-schema check. -/
def validateWithAi (callResult : Except Str Str) : PyVal :=
  match callResult with
  | .error _ => defaultVerdict
  | .ok text =>
      if text = [] then defaultVerdict
      else
        match jsonLoads text with
        | some v => v
        | Option.none => defaultVerdict

/-- C5 (counterexample): the model response `"[]"` parses as JSON but is
not the verdict schema; `_validate_with_ai` returns the parsed empty
list unchanged instead of the default optimistic verdict. -/
theorem validateWithAi_schema_counterexample :
    validateWithAi (.ok (strL "[]")) = PyVal.list []
    ∧ validateWithAi (.ok (strL "[]")) ≠ defaultVerdict := by
  constructor
  · rfl
  · intro h
    exact PyVal.noConfusion (show PyVal.list [] = defaultVerdict from h)

/-- C5 (amended): `_validate_with_ai` never raises, and returns the
default optimistic verdict whenever the validation call raises, the
extracted text is empty, or the text is not parseable as JSON; a
response parsing to JSON of any other shape is returned unchanged (the
verdict schema itself is not checked, see the counterexample). -/
theorem validateWithAi_fail_open (r : Except Str Str)
    (h : (∃ e, r = .error e) ∨ r = .ok []
      ∨ (∃ t, r = .ok t ∧ jsonLoads t = Option.none)) :
    validateWithAi r = defaultVerdict := by
  rcases h with ⟨e, rfl⟩ | rfl | ⟨t, rfl, hp⟩
  · rfl
  · rfl
  · rw [validateWithAi]
    split
    · rfl
    · rw [hp]

/-- Witness for C5's amended theorem: a simulated transport error yields
the default optimistic verdict. -/
theorem validateWithAi_fail_open_witness :
    validateWithAi (.error (strL "transport error")) = defaultVerdict :=
  validateWithAi_fail_open _ (Or.inl ⟨_, rfl⟩)

/-! ## The web route `upload_file` (routes.py) and its AI call

`upload_file` (routes.py lines 34-144), in mode `gemini` with AI
enabled, evaluates nine keyword arguments (several read from
`current_app.config`) and calls `generate_ai_notes` with them, falling
back to `generate_smart_notes` on any exception.  The config keys are
the upper-case attributes of `Config` (config.py lines 11-61, including
`GEMINI_ENABLED` set in `__post_init__`); `GEMINI_MAX_CHARS` and
`GEMINI_MAX_CHUNK_WORDS` are not among them. -/

/-- Python exceptions distinguished by the route model. -/
inductive PyErr where
  | keyError (k : Str) : PyErr
  | typeError : PyErr
  | generic (m : Str) : PyErr
deriving DecidableEq

/-- The parameter names of `generate_ai_notes` (ai_converter.py lines
357-366); the signature has no defaults, so a successful call must bind
every one of them and nothing else. -/
def generateAiNotesParams : List Str :=
  [strL "pdf_path", strL "output_path", strL "template_path",
   strL "api_key", strL "preferred_model", strL "fallback_model",
   strL "timeout_seconds", strL "max_output_tokens"]

/-- The keyword arguments of the `generate_ai_notes` call in
`upload_file` (routes.py lines 84-94), each with the
`current_app.config` key its value expression subscripts (`none` when
the value is a local variable). -/
def routesAiCallKwargs : List (Str × Option Str) :=
  [(strL "text_content", Option.none),
   (strL "output_path", Option.none),
   (strL "template_path", some (strL "TEMPLATE_PATH")),
   (strL "api_key", some (strL "GEMINI_API_KEY")),
   (strL "preferred_model", some (strL "GEMINI_PREFERRED_MODEL")),
   (strL "fallback_model", some (strL "GEMINI_FALLBACK_MODEL")),
   (strL "timeout_seconds", some (strL "GEMINI_TIMEOUT_SECONDS")),
   (strL "max_chars", some (strL "GEMINI_MAX_CHARS")),
   (strL "max_chunk_words", some (strL "GEMINI_MAX_CHUNK_WORDS"))]

/-- The keys present in `app.config` relevant to the route: Flask's
`from_object` copies the upper-case attributes of `Config`, and
`__post_init__` adds `GEMINI_ENABLED`. -/
def appConfigKeys : List Str :=
  [strL "BASE_DIR", strL "SECRET_KEY", strL "DEBUG", strL "TESTING",
   strL "UPLOAD_FOLDER", strL "OUTPUT_FOLDER", strL "MAX_CONTENT_LENGTH",
   strL "ALLOWED_EXTENSIONS", strL "TEMPLATE_PATH",
   strL "GEMINI_API_KEY", strL "GEMINI_PREFERRED_MODEL",
   strL "GEMINI_FALLBACK_MODEL", strL "GEMINI_TIMEOUT_SECONDS",
   strL "GEMINI_MAX_OUTPUT_TOKENS", strL "LOG_LEVEL", strL "LOG_FILE",
   strL "GEMINI_ENABLED"]

/-- Python evaluates the call's arguments left to right before the call;
the first config subscript whose key is absent raises `KeyError`. -/
def firstMissingKey : List (Str × Option Str) → Option Str
  | [] => Option.none
  | (_, Option.none) :: rest => firstMissingKey rest
  | (_, some k) :: rest =>
      if appConfigKeys.contains k then firstMissingKey rest else some k

/-- Python keyword binding for a signature without defaults: every
keyword must name a parameter and every parameter must be bound;
otherwise the call raises `TypeError`. -/
def kwargsBindOk (params kwnames : List Str) : Bool :=
  kwnames.all (fun k => params.contains k)
    && params.all (fun p => kwnames.contains p)

/-- The AI call as `upload_file` performs it: evaluate the arguments
(raising `KeyError` on a missing config key), then bind them against
`generate_ai_notes`'s signature (raising `TypeError` on a mismatch),
and only then run the function body (the oracle `aiImpl`). -/
def callGenerateAiNotes (aiImpl : Except PyErr Str) : Except PyErr Str :=
  match firstMissingKey routesAiCallKwargs with
  | some k => .error (.keyError k)
  | Option.none =>
      if kwargsBindOk generateAiNotesParams (routesAiCallKwargs.map Prod.fst)
      then aiImpl
      else .error .typeError

/-- The JSON response of `upload_file` as far as the claims observe it. -/
structure UploadResponse where
  success : Bool
  ai_used : Bool
  ai_fallback : Bool
  body : Str
deriving DecidableEq

/-- The conversion branch of `upload_file` (routes.py lines 81-125):
mode `gemini` with AI enabled attempts the AI call, any exception is
caught and the deterministic `generate_smart_notes` (oracle
`smartImpl`) produces the artifact, with `ai_fallback` reported true;
otherwise the deterministic path runs directly. -/
def uploadFileConvert (geminiEnabled : Bool) (mode : Str)
    (aiImpl smartImpl : Except PyErr Str) : UploadResponse :=
  if lowerStr mode = strL "gemini" ∧ geminiEnabled then
    match callGenerateAiNotes aiImpl with
    | .ok h =>
        { success := true, ai_used := true, ai_fallback := false, body := h }
    | .error _ =>
        match smartImpl with
        | .ok h =>
            { success := true, ai_used := false, ai_fallback := true, body := h }
        | .error _ =>
            { success := false, ai_used := false, ai_fallback := true, body := [] }
  else
    match smartImpl with
    | .ok h =>
        { success := true, ai_used := false, ai_fallback := false, body := h }
    | .error _ =>
        { success := false, ai_used := false, ai_fallback := false, body := [] }

/-- C2 (counterexample): the claim's mechanism is wrong: the call never
raises `TypeError`, because argument evaluation raises
`KeyError('GEMINI_MAX_CHARS')` first -- `GEMINI_MAX_CHARS` is not an
`app.config` key -- so `generate_ai_notes` is never invoked at all. -/
theorem uploadAiCall_keyerror_counterexample :
    callGenerateAiNotes (.ok (strL "ai output"))
      = .error (.keyError (strL "GEMINI_MAX_CHARS"))
    ∧ callGenerateAiNotes (.ok (strL "ai output")) ≠ .error PyErr.typeError := by
  constructor
  · rfl
  · intro h
    have h' : PyErr.keyError (strL "GEMINI_MAX_CHARS") = PyErr.typeError := by
      injection h
    exact PyErr.noConfusion h'

/-- C2 (amended): in mode `gemini` with AI enabled, the AI attempt
always raises before `generate_ai_notes`'s body can run (`KeyError` on
the absent `GEMINI_MAX_CHARS` config key; had the keys existed, the
keyword arguments `text_content`, `max_chars`, `max_chunk_words` would
still not bind to the signature, a `TypeError`), the handler catches the
exception, and whenever the deterministic fallback succeeds the response
is produced by `generate_smart_notes` with `ai_fallback` true and
`ai_used` false -- the AI strategy can never succeed through the web
route. -/
theorem uploadFile_ai_always_falls_back (aiImpl : Except PyErr Str)
    (mode : Str) (html : Str)
    (hmode : lowerStr mode = strL "gemini") :
    uploadFileConvert true mode aiImpl (.ok html)
      = { success := true, ai_used := false, ai_fallback := true, body := html }
    ∧ callGenerateAiNotes aiImpl = .error (.keyError (strL "GEMINI_MAX_CHARS"))
    ∧ kwargsBindOk generateAiNotesParams (routesAiCallKwargs.map Prod.fst) = false := by
  refine ⟨?_, rfl, by decide⟩
  rw [uploadFileConvert, if_pos ⟨hmode, rfl⟩]
  rfl

/-- Witness for C2's amended theorem at mode `GeMini` (case-folded by
the route). -/
theorem uploadFile_ai_always_falls_back_witness :
    uploadFileConvert true (strL "GeMini") (.ok (strL "ai output"))
        (.ok (strL "smart notes"))
      = { success := true, ai_used := false, ai_fallback := true,
          body := strL "smart notes" } :=
  (uploadFile_ai_always_falls_back (.ok (strL "ai output"))
    (strL "GeMini") (strL "smart notes") (by decide)).1

/-! ## The structural repairer `_ensure_navigation_and_scripts`

`_ensure_navigation_and_scripts` (ai_converter.py lines 183-289) runs
five passes over the string; `lower` is computed ONCE from the original
input (line 186) and every later `in lower` test uses that stale value.
The regex semantics are modelled exactly:

* Pass 1, `re.sub(r'<(p|div|span|h[1-6]|a|li|ul|ol)\s*$', '', ...,
  re.IGNORECASE)`: a match must reach the end anchor, `\s*` is greedy,
  and `$` also matches before a final newline (which is itself
  whitespace), so the single possible match removes everything from the
  leftmost position where `<`, one of the tag alternatives
  (case-insensitively) and only whitespace to the end follow.
* Pass 2 uses the case-sensitive `str.find`/`str.count`.
* The strategy-1 regex `(<div[^>]*id=["\']content-viewport["\'][^>]*>
  .*?)(</div>\s*</div>)` with `IGNORECASE|DOTALL`: both `[^>]*` pieces
  exclude `>`, so the tag part ends at the first `>` after `<div` and
  must contain the quoted id marker; the lazy `.*?` stops at the first
  following `</div>\s*</div>`, whose `\s*` admits exactly the maximal
  whitespace run (a shorter run would put `<` where whitespace is
  required).  The replacement `\1\2 + nav_html` inserts `nav_html`
  directly after the match.
-/

/-- The tag alternatives of the truncated-tag regex, lower case. -/
def truncTags : List Str :=
  [strL "p", strL "div", strL "span", strL "h1", strL "h2", strL "h3",
   strL "h4", strL "h5", strL "h6", strL "a", strL "li", strL "ul", strL "ol"]

/-- Does the truncated-tag regex match starting exactly at the head of
`s`, with the match reaching the end of `s`? -/
def matchesDangling (s : Str) : Bool :=
  match s with
  | [] => false
  | c :: rest =>
      c == '<' && truncTags.any (fun tag =>
        lowerStr (rest.take tag.length) == tag && (rest.drop tag.length).all isWs)

/-- Pass 1 (lines 190-192): strip from the leftmost dangling-tag match
position to the end; identity when nothing matches. -/
def stripDangling : Str → Str
  | [] => []
  | c :: t => if matchesDangling (c :: t) then [] else c :: stripDangling t

/-- The id attribute `str.find` looks for in pass 2 (case-sensitive). -/
def idMarker : Str := strL "id=\"content-viewport\""

/-- Pass 2 (lines 195-206): when the viewport marker occurs at a
positive index, append the deficit of `</div>` closers after it, plus
one closer for the viewport itself. -/
def viewportPass (s : Str) : Str :=
  if isSub (strL "content-viewport") s then
    match splitFirstP idMarker s with
    | some (a, b) =>
        if a ≠ [] then
          if pyCount (strL "</div>") b < pyCount (strL "<div") b then
            s ++ strL "\n"
              ++ (List.replicate (pyCount (strL "<div") b - pyCount (strL "</div>") b)
                    (strL "        </div>\n")).flatten
              ++ strL "    </div>\n"
          else s
        else s
    | Option.none => s
  else s

/-- The tab-section marker counted at line 212 (case-sensitive). -/
def tabMarker : Str := strL "id=\"tab-"

/-- Decimal digits of a number, as Python's f-string renders it. -/
def natStr (n : Nat) : Str := Nat.toDigits 10 n

/-- The icon glyph list of line 217, exactly the code points stored in
the source file. -/
def navIcons : List Str :=
  [strL "\uF8FF\u00FC\u00EC\u00F6", strL "\uF8FF\u00FC\u00E5\u2265",
   strL "\uF8FF\u00FC\u00EC\u00F1", strL "\uF8FF\u00FC\u00ED\u00B0",
   strL "\uF8FF\u00FC\u00EE\u00A8", strL "\uF8FF\u00FC\u00EC\u00E4",
   strL "\uF8FF\u00FC\u00E9\u00D8", strL "\uF8FF\u00FC\u00EE\u00E7"]

/-- The default icon of line 219. -/
def navIconDefault : Str := strL "\uF8FF\u00FC\u00EC\u00D1"

/-- `icons[i-1] if i-1 < len(icons) else default`. -/
def navIcon (i : Nat) : Str := ((navIcons.get? (i - 1)).getD navIconDefault)

/-- One synthesized nav entry (lines 221-226). -/
def navItem (i : Nat) : Str :=
  strL "            <a class=\"nav-item" ++ (if i = 1 then strL " active" else [])
    ++ strL "\" data-title=\"Part " ++ natStr i
    ++ strL "\" tabindex=\"0\" role=\"button\">\n                <span class=\"nav-icon\">"
    ++ navIcon i
    ++ strL "</span>\n                <span>Part " ++ natStr i
    ++ strL "</span>\n            </a>"

/-- The synthesized navigation block (lines 216-234). -/
def navHtml (tabCount : Nat) : Str :=
  strL "\n    <nav class=\"bottom-nav\">\n        <div class=\"nav-track\" id=\"nav-track\">\n"
    ++ joinSep (strL "\n") ((List.range' 1 tabCount).map navItem)
    ++ strL "\n        </div>\n    </nav>\n"

/-- Offset of the first `'>'`. -/
def firstGt : Str → Option Nat
  | [] => Option.none
  | c :: t => if c = '>' then some 0 else (firstGt t).map (· + 1)

/-- Length of the leading whitespace run. -/
def wsRun : Str → Nat
  | [] => 0
  | c :: t => if isWs c then wsRun t + 1 else 0

/-- Length consumed by `</div>\s*</div>` (case-insensitive) matching at
the head of `s`, if it matches there. -/
def closePairAt (s : Str) : Option Nat :=
  if ciPrefix (strL "</div>") s then
    if ciPrefix (strL "</div>") ((s.drop 6).drop (wsRun (s.drop 6))) then
      some (6 + wsRun (s.drop 6) + 6)
    else Option.none
  else Option.none

/-- Offset-plus-length of the first `</div>\s*</div>` at or after the
head of `s` (the lazy `.*?` of strategy 1). -/
def findClosePair : Str → Option Nat
  | [] => Option.none
  | c :: t =>
      match closePairAt (c :: t) with
      | some e => some e
      | Option.none => (findClosePair t).map (· + 1)

/-- The four quote combinations of `id=["\']content-viewport["\']`,
lower case. -/
def idPatterns : List Str :=
  [strL "id=\"content-viewport\"", strL "id=\"content-viewport'",
   strL "id='content-viewport\"", strL "id='content-viewport'"]

/-- Length of the strategy-1 regex match starting exactly at the head of
`s`, if it matches there. -/
def s1MatchAt (s : Str) : Option Nat :=
  if ciPrefix (strL "<div") s then
    match firstGt (s.drop 4) with
    | Option.none => Option.none
    | some d =>
        if idPatterns.any (fun p => isSub p (lowerStr ((s.drop 4).take d))) then
          (findClosePair ((s.drop 4).drop (d + 1))).map (fun e => 4 + d + 1 + e)
        else Option.none
  else Option.none

/-- Leftmost strategy-1 match: split `s` immediately after the match. -/
def s1Split : Str → Option (Str × Str)
  | [] => Option.none
  | c :: t =>
      match s1MatchAt (c :: t) with
      | some e => some ((c :: t).take e, (c :: t).drop e)
      | Option.none => (s1Split t).map (fun p => (c :: p.1, p.2))

/-- The injection strategy chain of lines 236-264.  `lower` is the stale
lowercase of the original input; strategy 2's replacement `nav_html +
r'\1'` keeps the matched `<script` text, while strategy 3's replacement
is `nav_html + '</body>'` with a literal lowercase closing tag. -/
def injectNavFallback (lower nav s : Str) : Str :=
  if isSub (strL "<script") lower then
    match splitFirstCi (strL "<script") s with
    | some (a, m, b) => a ++ nav ++ m ++ b
    | Option.none => s
  else if isSub (strL "</body>") lower then
    match splitFirstCi (strL "</body>") s with
    | some (a, _, b) => a ++ nav ++ strL "</body>" ++ b
    | Option.none => s
  else s ++ nav

/-- Strategy 1 (viewport) first, then the fallback chain. -/
def injectNav (lower nav s : Str) : Str :=
  if isSub (strL "content-viewport") s then
    match s1Split s with
    | some (a, b) => a ++ nav ++ b
    | Option.none => injectNavFallback lower nav s
  else injectNavFallback lower nav s

/-- Pass 3 (lines 208-264): synthesize and inject the navigation block
when either marker is missing from the stale lowercase input; the entry
count is the tab-section count of the CURRENT string, defaulting to 2
only when it is zero. -/
def navPass (lower s : Str) : Str :=
  if !isSub (strL "bottom-nav") lower || !isSub (strL "nav-track") lower then
    injectNav lower
      (navHtml (if pyCount tabMarker s = 0 then 2 else pyCount tabMarker s)) s
  else s

/-- The fallback script block of lines 269-276, exactly the text of the
triple-quoted Python literal. -/
def essentialJs : Str := strL (
  "\n<script>\n'use strict';\nfunction switchTab(id,title)\x7btry\x7bdocument.getElementById('header-title').text" ++
  "Content=title;document.querySelectorAll('.tab-section').forEach(el=>el.classList.remove('active'));const tab=d" ++
  "ocument.getElementById('tab-'+id);if(tab)tab.classList.add('active');document.querySelectorAll('.nav-item').fo" ++
  "rEach((el,i)=>el.classList.toggle('active',i===id-1));document.getElementById('content-viewport').scrollTop=0;" ++
  "buildTOC();\x7dcatch(e)\x7bconsole.error('Tab switch error:',e);\x7d\x7d\nfunction buildTOC()\x7bconst tocPane" ++
  "l=document.getElementById('toc-panel');const tocList=document.getElementById('toc-list');const activeTab=docum" ++
  "ent.querySelector('.tab-section.active');if(!tocPanel||!tocList||!activeTab)return;const headings=activeTab.qu" ++
  "erySelectorAll('h2, h3');if(!headings.length)\x7btocPanel.classList.add('hidden');tocList.innerHTML='';return;" ++
  "\x7dconst items=[];headings.forEach((h,idx)=>\x7bif(!h.id)h.id=h.textContent.toLowerCase().replace(/[^a-z0-9]+" ++
  "/g,'-')+'-'+idx;items.push(`<a class=\"toc-$\x7bh.tagName.toLowerCase()\x7d\" href=\"#$\x7bh.id\x7d\">$\x7bh.t" ++
  "extContent\x7d</a>`);\x7d);tocList.innerHTML=items.join('');tocPanel.classList.remove('hidden');\x7d\ndocument" ++
  ".addEventListener('DOMContentLoaded',()=>\x7bconst firstTab=document.querySelector('.tab-section');if(firstTab" ++
  ")\x7bfirstTab.classList.add('active');const firstNav=document.querySelector('.nav-item');if(firstNav)firstNav." ++
  "classList.add('active');\x7dbuildTOC();document.querySelectorAll('.nav-item').forEach((item,index)=>\x7bitem.a" ++
  "ddEventListener('click',()=>switchTab(index+1,item.dataset.title||`Part $\x7bindex+1\x7d`));item.addEventListe" ++
  "ner('keydown',(evt)=>\x7bif(evt.key==='Enter'||evt.key===' ')\x7bevt.preventDefault();switchTab(index+1,item.d" ++
  "ataset.title||`Part $\x7bindex+1\x7d`);\x7d\x7d);\x7d);const intro=document.getElementById('intro-overlay');co" ++
  "nst loading=document.getElementById('loading-overlay');const progress=document.getElementById('load-progress')" ++
  ";if(progress)progress.style.width='100%';setTimeout(()=>\x7bintro?.classList.add('hide');loading?.classList.ad" ++
  "d('hide');\x7d,200);setTimeout(()=>\x7bintro?.remove();loading?.remove();\x7d,900);\x7d);\n</script>\n" ++
  "")

/-- Pass 4 (lines 266-281): inject the fallback script when either
required function name is missing (case-sensitive, current string);
inserted before the first (case-insensitive) `</body>` when the stale
lowercase input has one, else appended. -/
def jsPass (lower s : Str) : Str :=
  if !isSub (strL "switchTab") s || !isSub (strL "buildTOC") s then
    if isSub (strL "</body>") lower then
      match splitFirstCi (strL "</body>") s with
      | some (a, _, b) => a ++ essentialJs ++ strL "</body>" ++ b
      | Option.none => s
    else s ++ essentialJs
  else s

/-- Pass 5 (lines 283-287): append closing tags missing from the stale
lowercase input. -/
def closeBody (lower s : Str) : Str :=
  if !isSub (strL "</body>") lower then s ++ strL "\n</body>" else s

/-- Pass 5, second half: append the html closer when missing. -/
def closePass (lower s : Str) : Str :=
  if !isSub (strL "</html>") lower then closeBody lower s ++ strL "\n</html>"
  else closeBody lower s

/-- `_ensure_navigation_and_scripts` (lines 183-289): the five passes in
order, all guard reads of `lower` against the stale lowercase of the
original input. -/
def ensureNavigationAndScripts (htmlContent : Str) : Str :=
  let lower := lowerStr htmlContent
  closePass lower (jsPass lower (navPass lower (viewportPass (stripDangling htmlContent))))

/-- `_validate_html_structure` (lines 292-295). -/
def validateHtmlStructure (htmlContent : Str) : Bool :=
  isSub (strL "<html") (lowerStr htmlContent)
    && isSub (strL "<body") (lowerStr htmlContent)

/-! ## Infix toolkit

Occurrence preservation through the repair passes reduces to: an
occurrence in `a ++ b` lies in `a`, lies in `b`, or straddles the
boundary; the straddle cases are then refuted from the characters at the
boundary. -/

theorem infix_left {n a : Str} (b : Str) (h : n <:+: a) : n <:+: a ++ b := by
  obtain ⟨p, q, rfl⟩ := h
  exact ⟨p, q ++ b, by simp⟩

theorem infix_right {n b : Str} (a : Str) (h : n <:+: b) : n <:+: a ++ b := by
  obtain ⟨p, q, rfl⟩ := h
  exact ⟨a ++ p, q, by simp⟩

theorem infix_split {n a b : Str} (h : n <:+: a ++ b) :
    n <:+: a ∨ n <:+: b
      ∨ ∃ k, 0 < k ∧ k < n.length ∧ n.take k <:+ a ∧ n.drop k <+: b := by
  induction a with
  | nil => exact Or.inr (Or.inl (by simpa using h))
  | cons c a' ih =>
      rw [List.cons_append, List.infix_cons_iff] at h
      rcases h with h | h
      · rcases List.prefix_cons_iff.mp h with rfl | ⟨t, rfl, ht⟩
        · exact Or.inl List.nil_infix
        · by_cases hlen : t.length ≤ a'.length
          · have hta : t <+: a' := (List.isPrefix_append_of_length hlen).mp ht
            exact Or.inl (List.IsPrefix.isInfix
              (List.cons_prefix_cons.mpr ⟨rfl, hta⟩))
          · have ha' : a' <+: t :=
              List.prefix_of_prefix_length_le (List.prefix_append _ _) ht (by omega)
            obtain ⟨d, rfl⟩ := ha'
            have hd : d <+: b := (List.prefix_append_right_inj a').mp ht
            have hdlen : 0 < d.length := by
              rw [List.length_append] at hlen
              omega
            have hk2 : a'.length + 1 < (c :: (a' ++ d)).length := by
              simp only [List.length_cons, List.length_append]
              omega
            refine Or.inr (Or.inr ⟨a'.length + 1, by omega, hk2, ?_, ?_⟩)
            · rw [List.take_succ_cons, List.take_left]
            · rw [List.drop_succ_cons, List.drop_left]
              exact hd
      · rcases ih h with h' | h' | ⟨k, hk1, hk2, h1, h2⟩
        · exact Or.inl (List.infix_cons h')
        · exact Or.inr (Or.inl h')
        · exact Or.inr (Or.inr ⟨k, hk1, hk2,
            h1.trans (List.suffix_cons c a'), h2⟩)

/-! ## Straddle refutation helpers -/

theorem suffix_getLast? {t A : Str} (h : t <:+ A) (ht : t ≠ []) :
    t.getLast? = A.getLast? := by
  obtain ⟨p, rfl⟩ := h
  exact (List.getLast?_append_of_ne_nil p ht).symm

theorem prefix_head? {t B : Str} (h : t <+: B) (ht : t ≠ []) :
    t.head? = B.head? := by
  obtain ⟨r, rfl⟩ := h
  exact (List.head?_append_of_ne_nil t ht).symm

theorem straddle_left_mem {N A : Str} {k : Nat} {c : Char}
    (hA : A.getLast? = some c) (hk1 : 0 < k) (hk2 : k < N.length)
    (h : N.take k <:+ A) : c ∈ N.dropLast := by
  have htne : N.take k ≠ [] := by
    have : (N.take k).length = k := by
      rw [List.length_take]
      omega
    intro he
    rw [he] at this
    simp at this
    omega
  have hlast : (N.take k).getLast? = some c := by
    rw [suffix_getLast? h htne, hA]
  have hmem : c ∈ N.take k := List.mem_of_getLast?_eq_some hlast
  have hsub : N.take k <+: N.dropLast := by
    rw [List.dropLast_eq_take]
    have : N.take k = (N.take (N.length - 1)).take k := by
      rw [List.take_take]
      congr 1
      omega
    rw [this]
    exact List.take_prefix _ _
  exact hsub.subset hmem

theorem straddle_right_mem {N B : Str} {k : Nat} {c : Char}
    (hB : B.head? = some c) (hk1 : 0 < k) (hk2 : k < N.length)
    (h : N.drop k <+: B) : c ∈ N.drop 1 := by
  have htne : N.drop k ≠ [] := by
    intro he
    have := congrArg List.length he
    rw [List.length_drop] at this
    simp at this
    omega
  have hhead : (N.drop k).head? = some c := by
    rw [prefix_head? h htne, hB]
  have hmem : c ∈ N.drop k := by
    have := List.mem_of_mem_head? (l := N.drop k) (a := c)
    exact this (by rw [hhead]; rfl)
  have hsub : N.drop k <:+ N.drop 1 := by
    have : N.drop k = (N.drop 1).drop (k - 1) := by
      rw [List.drop_drop]
      congr 1
      omega
    rw [this]
    exact List.drop_suffix _ _
  exact hsub.subset hmem

/-! ## Pass-1 (dangling tag) preservation -/

theorem matchesDangling_spec {s' : Str} (h : matchesDangling s' = true) :
    ∃ rest tag, s' = '<' :: rest ∧ tag ∈ truncTags
      ∧ lowerStr (rest.take tag.length) = tag
      ∧ ∀ c ∈ rest.drop tag.length, isWs c = true := by
  match s' with
  | [] => simp [matchesDangling] at h
  | c :: rest =>
      rw [matchesDangling, Bool.and_eq_true, List.any_eq_true] at h
      obtain ⟨hc, tag, htag, hcond⟩ := h
      rw [Bool.and_eq_true] at hcond
      refine ⟨rest, tag, ?_, htag, ?_, ?_⟩
      · rw [show c = '<' from by simpa using hc]
      · simpa using hcond.1
      · intro x hx
        have := List.all_eq_true.mp hcond.2 x hx
        simpa using this

theorem mem_dangling_region {s' : Str} (h : matchesDangling s' = true)
    {c : Char} (hc : c ∈ s') :
    c = '<' ∨ lowerChar c ∈ strL "pdivsanh123456luo" ∨ isWs c = true := by
  obtain ⟨rest, tag, rfl, htag, hlow, hws⟩ := matchesDangling_spec h
  rcases List.mem_cons.mp hc with rfl | hc
  · exact Or.inl rfl
  · rw [← List.take_append_drop tag.length rest, List.mem_append] at hc
    rcases hc with hc | hc
    · refine Or.inr (Or.inl ?_)
      have hmem : lowerChar c ∈ lowerStr (rest.take tag.length) :=
        List.mem_map_of_mem lowerChar hc
      rw [hlow] at hmem
      have hpool : ∀ t ∈ truncTags, ∀ x ∈ t, x ∈ strL "pdivsanh123456luo" := by
        decide
      exact hpool tag htag _ hmem
    · exact Or.inr (Or.inr (hws c hc))

theorem not_infix_dangling {n s' : Str} {c0 : Char} (hmem : c0 ∈ n)
    (h1 : c0 ≠ '<') (h2 : isWs c0 = false)
    (h3 : lowerChar c0 ∉ strL "pdivsanh123456luo")
    (hmd : matchesDangling s' = true) : ¬ n <:+: s' := by
  intro hinf
  have hc : c0 ∈ s' := hinf.sublist.subset hmem
  rcases mem_dangling_region hmd hc with h | h | h
  · exact h1 h
  · exact h3 h
  · rw [h] at h2
    exact Bool.noConfusion h2

theorem prefix_stripDangling {m s : Str} (hm : '<' ∉ m) (hp : m <+: s) :
    m <+: stripDangling s := by
  induction s generalizing m with
  | nil =>
      rw [List.prefix_nil] at hp
      rw [hp]
      exact List.nil_prefix
  | cons c t ih =>
      rw [stripDangling]
      split
      · next hmd =>
          match m, hp with
          | [], _ => exact List.nil_prefix
          | c' :: m', hp =>
              obtain ⟨rest, tag, heq, -, -, -⟩ := matchesDangling_spec hmd
              obtain ⟨rfl, -⟩ := List.cons_prefix_cons.mp hp
              have : c' = '<' := by
                have := congrArg List.head? heq
                simpa using this
              exact absurd (this ▸ List.mem_cons_self c' m') hm
      · match m, hp with
        | [], _ => exact List.nil_prefix
        | c' :: m', hp =>
            obtain ⟨rfl, hp'⟩ := List.cons_prefix_cons.mp hp
            exact List.cons_prefix_cons.mpr
              ⟨rfl, ih (fun hx => hm (List.mem_cons_of_mem _ hx)) hp'⟩

theorem stripDangling_preserves {n s : Str} (hlt : '<' ∉ n.drop 1)
    (hreg : ∀ s', matchesDangling s' = true → ¬ n <:+: s')
    (h : n <:+: s) : n <:+: stripDangling s := by
  induction s with
  | nil => simpa [stripDangling] using h
  | cons c t ih =>
      rw [stripDangling]
      split
      · next hmd => exact absurd h (hreg _ hmd)
      · rcases List.infix_cons_iff.mp h with hp | hi
        · match n, hp with
          | [], _ => exact List.nil_infix
          | c' :: n', hp =>
              obtain ⟨rfl, hp'⟩ := List.cons_prefix_cons.mp hp
              have hn' : n' <+: stripDangling t :=
                prefix_stripDangling (by simpa using hlt) hp'
              exact (List.cons_prefix_cons.mpr ⟨rfl, hn'⟩).isInfix
        · exact List.infix_cons (ih hi)

/-! ## Decompositions produced by the injection strategies -/

theorem ciPrefix_take {n s : Str} (h : ciPrefix n s = true) :
    lowerStr (s.take n.length) = n ∧ n.length ≤ s.length := by
  rw [ciPrefix, List.isPrefixOf_iff_prefix] at h
  have hlen : n.length ≤ s.length := by
    have := h.length_le
    rwa [lowerStr, List.length_map] at this
  constructor
  · rw [List.prefix_iff_eq_take] at h
    have hmt : lowerStr (s.take n.length) = (lowerStr s).take n.length := by
      rw [lowerStr, lowerStr]
      exact List.map_take ..
    rw [hmt]
    exact h.symm
  · exact hlen

theorem splitFirstCi_eq {n s a m b : Str}
    (h : splitFirstCi n s = some (a, m, b)) :
    s = a ++ m ++ b ∧ lowerStr m = n := by
  induction s generalizing a m b with
  | nil => simp [splitFirstCi] at h
  | cons c t ih =>
      rw [splitFirstCi] at h
      split at h
      · next hci =>
          simp only [Option.some.injEq, Prod.mk.injEq] at h
          obtain ⟨rfl, rfl, rfl⟩ := h
          obtain ⟨hl, _⟩ := ciPrefix_take hci
          exact ⟨by rw [List.nil_append, List.take_append_drop], hl⟩
      · rw [Option.map_eq_some'] at h
        obtain ⟨⟨a', m', b'⟩, hrec, heq⟩ := h
        simp only [Prod.mk.injEq] at heq
        obtain ⟨rfl, rfl, rfl⟩ := heq
        obtain ⟨h1, h2⟩ := ih hrec
        exact ⟨by rw [h1]; rfl, h2⟩

theorem closePairAt_ends {s : Str} {e : Nat} (h : closePairAt s = some e) :
    ∃ p0 m6, s.take e = p0 ++ m6 ∧ lowerStr m6 = strL "</div>" := by
  rw [closePairAt] at h
  split at h
  · split at h
    · next hci2 =>
        simp only [Option.some.injEq] at h
        obtain ⟨hl, _⟩ := ciPrefix_take hci2
        refine ⟨s.take (6 + wsRun (s.drop 6)),
          ((s.drop 6).drop (wsRun (s.drop 6))).take 6, ?_, ?_⟩
        · rw [← h, List.take_add, List.drop_drop]
        · simpa using hl
    · exact absurd h (by simp)
  · exact absurd h (by simp)

theorem findClosePair_ends {t : Str} {f : Nat} (h : findClosePair t = some f) :
    ∃ p0 m6, t.take f = p0 ++ m6 ∧ lowerStr m6 = strL "</div>" := by
  induction t generalizing f with
  | nil => simp [findClosePair] at h
  | cons c t' ih =>
      rw [findClosePair] at h
      split at h
      · next e hcp =>
          simp only [Option.some.injEq] at h
          subst h
          exact closePairAt_ends hcp
      · rw [Option.map_eq_some'] at h
        obtain ⟨f', hrec, rfl⟩ := h
        obtain ⟨p0, m6, h1, h2⟩ := ih hrec
        exact ⟨c :: p0, m6, by rw [List.take_succ_cons, h1]; rfl, h2⟩

theorem s1MatchAt_ends {s : Str} {e : Nat} (h : s1MatchAt s = some e) :
    ∃ p0 m6, s.take e = p0 ++ m6 ∧ lowerStr m6 = strL "</div>" := by
  rw [s1MatchAt] at h
  split at h
  · split at h
    · exact absurd h (by simp)
    · next d hgt =>
        split at h
        · rw [Option.map_eq_some'] at h
          obtain ⟨f, hfc, rfl⟩ := h
          obtain ⟨p0, m6, h1, h2⟩ := findClosePair_ends hfc
          refine ⟨s.take (4 + d + 1) ++ p0, m6, ?_, h2⟩
          have harith : 4 + d + 1 + f = (4 + d + 1) + f := rfl
          rw [harith, List.take_add]
          rw [show (s.drop (4 + d + 1)) = ((s.drop 4).drop (d + 1)) from by
            rw [List.drop_drop, Nat.add_assoc]]
          rw [h1, List.append_assoc]
        · exact absurd h (by simp)
  · exact absurd h (by simp)

theorem s1Split_eq {s a b : Str} (h : s1Split s = some (a, b)) :
    s = a ++ b ∧ ∃ a0 m6, a = a0 ++ m6 ∧ lowerStr m6 = strL "</div>" := by
  induction s generalizing a b with
  | nil => simp [s1Split] at h
  | cons c t ih =>
      rw [s1Split] at h
      split at h
      · next e hm =>
          simp only [Option.some.injEq, Prod.mk.injEq] at h
          obtain ⟨rfl, rfl⟩ := h
          exact ⟨by rw [List.take_append_drop], s1MatchAt_ends hm⟩
      · rw [Option.map_eq_some'] at h
        obtain ⟨⟨a', b'⟩, hrec, heq⟩ := h
        simp only [Prod.mk.injEq] at heq
        obtain ⟨rfl, rfl⟩ := heq
        obtain ⟨h1, a0, m6, h2, h3⟩ := ih hrec
        exact ⟨by rw [h1]; rfl, c :: a0, m6, by rw [h2]; rfl, h3⟩

/-! ## Lower-casing commutation and pass preservation -/

theorem lowerStr_take (s : Str) (k : Nat) :
    lowerStr (s.take k) = (lowerStr s).take k := by
  rw [lowerStr, lowerStr]
  exact List.map_take ..

theorem lowerStr_drop (s : Str) (k : Nat) :
    lowerStr (s.drop k) = (lowerStr s).drop k := by
  rw [lowerStr, lowerStr]
  exact List.map_drop ..

theorem isWs_lowerChar (c : Char) : isWs (lowerChar c) = isWs c := by
  rcases lowerChar_spec c with h | ⟨h1, h2⟩
  · rw [h]
  · have hup : ∀ x ∈ strL "ABCDEFGHIJKLMNOPQRSTUVWXYZ", isWs x = false := by decide
    have hlo : ∀ x ∈ strL "abcdefghijklmnopqrstuvwxyz", isWs x = false := by decide
    rw [hup c h1, hlo _ h2]

theorem all_isWs_lowerStr (l : Str) : (lowerStr l).all isWs = l.all isWs := by
  induction l with
  | nil => rfl
  | cons c t ih =>
      show (lowerChar c :: lowerStr t).all isWs = _
      rw [List.all_cons, List.all_cons, isWs_lowerChar, ih]

theorem beq_lt_lowerChar (c : Char) : (lowerChar c == '<') = (c == '<') := by
  by_cases h : c = '<'
  · rw [h]
    decide
  · have h2 : lowerChar c ≠ '<' := fun he =>
      h (lowerChar_eq_nonletter (by decide) he)
    rw [beq_eq_false_iff_ne.mpr h2, beq_eq_false_iff_ne.mpr h]

theorem matchesDangling_lower (s : Str) :
    matchesDangling (lowerStr s) = matchesDangling s := by
  cases s with
  | nil => rfl
  | cons c t =>
      show matchesDangling (lowerChar c :: lowerStr t) = _
      rw [matchesDangling, matchesDangling]
      rw [beq_lt_lowerChar]
      congr 1
      refine congrArg (List.any truncTags) (funext fun tag => ?_)
      congr 1
      · rw [← lowerStr_take, lowerStr_idem]
      · rw [← lowerStr_drop, all_isWs_lowerStr]

theorem stripDangling_lower (s : Str) :
    stripDangling (lowerStr s) = lowerStr (stripDangling s) := by
  induction s with
  | nil => rfl
  | cons c t ih =>
      have hg := matchesDangling_lower (c :: t)
      by_cases h : matchesDangling (c :: t) = true
      · rw [show lowerStr (c :: t) = lowerChar c :: lowerStr t from rfl,
          stripDangling, stripDangling, if_pos h,
          if_pos (by rw [show (lowerChar c :: lowerStr t) = lowerStr (c :: t) from rfl, hg]; exact h)]
        rfl
      · rw [show lowerStr (c :: t) = lowerChar c :: lowerStr t from rfl,
          stripDangling, stripDangling, if_neg h,
          if_neg (by rw [show (lowerChar c :: lowerStr t) = lowerStr (c :: t) from rfl, hg]; exact h)]
        rw [show lowerStr (c :: stripDangling t) = lowerChar c :: lowerStr (stripDangling t) from rfl, ih]

theorem infix_of_isSub {n h : Str} (hs : isSub n h = true) : n <:+: h :=
  ( isSub_iff_infix n h).mp hs

theorem not_infix_of_isSub {n h : Str} (hs : isSub n h = false) : ¬ n <:+: h :=
  fun hinf => by rw [( isSub_iff_infix n h).mpr hinf] at hs; exact Bool.noConfusion hs

/-- The needle-side conditions under which an occurrence survives the
injection passes: no `<` after the first character, no `>` before the
last, and (unless the needle is `</body>` itself) no occurrence inside
`</body>`. -/
theorem injectNavFallback_pres {N lower nav s : Str}
    (hlt : '<' ∉ N.drop 1) (hgt : '>' ∉ N.dropLast)
    (hbody : ¬ N <:+: strL "</body>" ∨ N = strL "</body>")
    (h : N <:+: lowerStr s) : N <:+: lowerStr (injectNavFallback lower nav s) := by
  rw [injectNavFallback]
  split
  · split
    · next a m b hsp =>
        obtain ⟨hs, hm⟩ := splitFirstCi_eq hsp
        subst hs
        rw [lowerStr_append, lowerStr_append, List.append_assoc] at h
        rw [lowerStr_append, lowerStr_append, lowerStr_append,
          List.append_assoc, List.append_assoc]
        rcases infix_split h with hA | hMB | ⟨k, hk1, hk2, h3, h4⟩
        · exact infix_left _ hA
        · exact infix_right _ (infix_right _ hMB)
        · exfalso
          have hhead : (lowerStr m ++ lowerStr b).head? = some '<' := by
            rw [List.head?_append_of_ne_nil _ (by rw [hm]; decide), hm]
            rfl
          exact hlt (straddle_right_mem hhead hk1 hk2 h4)
    · exact h
  · split
    · split
      · next a m b hsp =>
          obtain ⟨hs, hm⟩ := splitFirstCi_eq hsp
          subst hs
          rcases hbody with hnb | rfl
          · rw [lowerStr_append, lowerStr_append, List.append_assoc] at h
            rw [lowerStr_append, lowerStr_append, lowerStr_append,
              List.append_assoc, List.append_assoc]
            rcases infix_split h with hA | hMB | ⟨k, hk1, hk2, h3, h4⟩
            · exact infix_left _ hA
            · -- inside m ++ b: not in m, not straddling, so in b
              rcases infix_split hMB with hM | hB | ⟨k, hk1, hk2, h3, h4⟩
              · exact absurd (hm ▸ hM) hnb
              · exact infix_right _ (infix_right _ (infix_right _ hB))
              · exfalso
                have hlast : (lowerStr m).getLast? = some '>' := by
                  rw [hm]
                  decide
                exact hgt (straddle_left_mem hlast hk1 hk2 h3)
            · exfalso
              have hhead : (lowerStr m ++ lowerStr b).head? = some '<' := by
                rw [List.head?_append_of_ne_nil _ (by rw [hm]; decide), hm]
                rfl
              exact hlt (straddle_right_mem hhead hk1 hk2 h4)
          · -- the needle IS "</body>": the replacement inserts it literally
            rw [lowerStr_append, lowerStr_append, lowerStr_append,
              List.append_assoc, List.append_assoc]
            have hlit : strL "</body>" <:+: lowerStr (strL "</body>") := by
              rw [show lowerStr (strL "</body>") = strL "</body>" from by decide]
            exact infix_right _ (infix_right _ (infix_left _ hlit))
      · exact h
    · rw [lowerStr_append]
      exact infix_left _ h

theorem injectNav_pres {N lower nav s : Str}
    (hlt : '<' ∉ N.drop 1) (hgt : '>' ∉ N.dropLast)
    (hbody : ¬ N <:+: strL "</body>" ∨ N = strL "</body>")
    (h : N <:+: lowerStr s) : N <:+: lowerStr (injectNav lower nav s) := by
  rw [injectNav]
  split
  · split
    · next a b hsp =>
        obtain ⟨hs, a0, m6, ha, hm6⟩ := s1Split_eq hsp
        subst hs
        rw [lowerStr_append] at h
        rw [lowerStr_append, lowerStr_append, List.append_assoc]
        rcases infix_split h with hA | hB | ⟨k, hk1, hk2, h3, h4⟩
        · exact infix_left _ hA
        · exact infix_right _ (infix_right _ hB)
        · exfalso
          have hAlast : (lowerStr a).getLast? = some '>' := by
            rw [ha, lowerStr_append, hm6,
              List.getLast?_append_of_ne_nil _ (by decide)]
            decide
          exact hgt (straddle_left_mem hAlast hk1 hk2 h3)
    · exact injectNavFallback_pres hlt hgt hbody h
  · exact injectNavFallback_pres hlt hgt hbody h

theorem navPass_pres {N lower s : Str}
    (hlt : '<' ∉ N.drop 1) (hgt : '>' ∉ N.dropLast)
    (hbody : ¬ N <:+: strL "</body>" ∨ N = strL "</body>")
    (h : N <:+: lowerStr s) : N <:+: lowerStr (navPass lower s) := by
  rw [navPass]
  split
  · exact injectNav_pres hlt hgt hbody h
  · exact h

theorem jsPass_pres {N lower s : Str}
    (hlt : '<' ∉ N.drop 1) (hgt : '>' ∉ N.dropLast)
    (hbody : ¬ N <:+: strL "</body>" ∨ N = strL "</body>")
    (h : N <:+: lowerStr s) : N <:+: lowerStr (jsPass lower s) := by
  rw [jsPass]
  split
  · split
    · split
      · next a m b hsp =>
          obtain ⟨hs, hm⟩ := splitFirstCi_eq hsp
          subst hs
          rcases hbody with hnb | rfl
          · rw [lowerStr_append, lowerStr_append, List.append_assoc] at h
            rw [lowerStr_append, lowerStr_append, lowerStr_append,
              List.append_assoc, List.append_assoc]
            rcases infix_split h with hA | hMB | ⟨k, hk1, hk2, h3, h4⟩
            · exact infix_left _ hA
            · rcases infix_split hMB with hM | hB | ⟨k, hk1, hk2, h3, h4⟩
              · exact absurd (hm ▸ hM) hnb
              · exact infix_right _ (infix_right _ (infix_right _ hB))
              · exfalso
                have hlast : (lowerStr m).getLast? = some '>' := by
                  rw [hm]
                  decide
                exact hgt (straddle_left_mem hlast hk1 hk2 h3)
            · exfalso
              have hhead : (lowerStr m ++ lowerStr b).head? = some '<' := by
                rw [List.head?_append_of_ne_nil _ (by rw [hm]; decide), hm]
                rfl
              exact hlt (straddle_right_mem hhead hk1 hk2 h4)
          · rw [lowerStr_append, lowerStr_append, lowerStr_append,
              List.append_assoc, List.append_assoc]
            have hlit : strL "</body>" <:+: lowerStr (strL "</body>") := by
              rw [show lowerStr (strL "</body>") = strL "</body>" from by decide]
            exact infix_right _ (infix_right _ (infix_left _ hlit))
      · exact h
    · rw [lowerStr_append]
      exact infix_left _ h
  · exact h

theorem viewportPass_pres {N s : Str}
    (h : N <:+: lowerStr s) : N <:+: lowerStr (viewportPass s) := by
  rw [viewportPass]
  split
  · split
    · split
      · split
        · rw [lowerStr_append, lowerStr_append, lowerStr_append]
          exact infix_left _ (infix_left _ (infix_left _ h))
        · exact h
      · exact h
    · exact h
  · exact h

theorem closeBody_pres {N lower s : Str}
    (h : N <:+: lowerStr s) : N <:+: lowerStr (closeBody lower s) := by
  rw [closeBody]
  split
  · rw [lowerStr_append]
    exact infix_left _ h
  · exact h

theorem closePass_pres {N lower s : Str}
    (h : N <:+: lowerStr s) : N <:+: lowerStr (closePass lower s) := by
  rw [closePass]
  split
  · rw [lowerStr_append]
    exact infix_left _ (closeBody_pres h)
  · exact closeBody_pres h

/-! ## C1, C3 (counterexamples), C4: what the repairer guarantees -/

theorem infix_lowerStr_of_infix {a b : Str} (h : a <:+: b) :
    lowerStr a <:+: lowerStr b := by
  obtain ⟨p, q, rfl⟩ := h
  rw [lowerStr_append, lowerStr_append]
  exact ⟨lowerStr p, lowerStr q, rfl⟩

/-- The closing tags are always present (case-insensitively) in the
repaired output: pass 5 appends whichever the stale lowercase input
lacks, and an occurrence already present survives every pass. -/
theorem ensure_closers (x : Str) :
    strL "</body>" <:+: lowerStr (ensureNavigationAndScripts x)
    ∧ strL "</html>" <:+: lowerStr (ensureNavigationAndScripts x) := by
  rw [ensureNavigationAndScripts]
  constructor
  · by_cases hb : isSub (strL "</body>") (lowerStr x) = true
    · refine closePass_pres (jsPass_pres (by decide) (by decide) (Or.inr rfl)
        (navPass_pres (by decide) (by decide) (Or.inr rfl)
          (viewportPass_pres ?_)))
      rw [← stripDangling_lower]
      exact stripDangling_preserves (by decide)
        (fun s' hmd => not_infix_dangling (show '/' ∈ strL "</body>" by decide)
          (by decide) (by decide) (by decide) hmd)
        (infix_of_isSub hb)
    · have hbf : isSub (strL "</body>") (lowerStr x) = false := by
        simpa using hb
      have hcb : ∀ Z : Str, strL "</body>" <:+: lowerStr (closeBody (lowerStr x) Z) := by
        intro Z
        rw [closeBody, if_pos (by rw [hbf]; rfl), lowerStr_append]
        refine infix_right _ ?_
        rw [show lowerStr (strL "\n</body>") = strL "\n</body>" from by decide]
        exact infix_of_isSub (by decide)
      rw [closePass]
      split
      · rw [lowerStr_append]
        exact infix_left _ (hcb _)
      · exact hcb _
  · by_cases hh : isSub (strL "</html>") (lowerStr x) = true
    · refine closePass_pres (jsPass_pres (by decide) (by decide)
        (Or.inl (not_infix_of_isSub (by decide)))
        (navPass_pres (by decide) (by decide)
          (Or.inl (not_infix_of_isSub (by decide)))
          (viewportPass_pres ?_)))
      rw [← stripDangling_lower]
      exact stripDangling_preserves (by decide)
        (fun s' hmd => not_infix_dangling (show '/' ∈ strL "</html>" by decide)
          (by decide) (by decide) (by decide) hmd)
        (infix_of_isSub hh)
    · have hhf : isSub (strL "</html>") (lowerStr x) = false := by
        simpa using hh
      rw [closePass, if_pos (by rw [hhf]; rfl), lowerStr_append]
      refine infix_right _ ?_
      rw [show lowerStr (strL "\n</html>") = strL "\n</html>" from by decide]
      exact infix_of_isSub (by decide)

/-- C1 (amended): for every input string, `_ensure_navigation_and_scripts`
returns a string containing a closing `</body>` tag and a closing
`</html>` tag (case-insensitively), synthesizing whichever are absent
from the input; opening `<body`/`<html` tags are NOT ensured (see the
counterexample). -/
theorem ensure_contains_closing_tags (x : Str) :
    strL "</body>" <:+: lowerStr (ensureNavigationAndScripts x)
    ∧ strL "</html>" <:+: lowerStr (ensureNavigationAndScripts x) :=
  ensure_closers x

set_option maxRecDepth 400000 in
/-- C1 (counterexample): on the empty input the repaired output contains
no opening `<body` tag and no opening `<html` tag, case-insensitively:
only the closing tags are synthesized. -/
theorem ensure_no_opening_tags_counterexample :
    isSub (strL "<body") (lowerStr (ensureNavigationAndScripts [])) = false
    ∧ isSub (strL "<html") (lowerStr (ensureNavigationAndScripts [])) = false := by
  constructor
  · decide
  · decide

set_option maxRecDepth 400000 in
/-- C3 (counterexample): `_ensure_navigation_and_scripts` is not
idempotent.  On an input ending in two stacked dangling open tags the
first application strips only the last one (the other is not followed
exclusively by whitespace at matching time), leaving an output that
still ends in a dangling tag, which a second application strips. -/
theorem ensure_not_idempotent_counterexample :
    ensureNavigationAndScripts (ensureNavigationAndScripts
      (strL "<html><body>bottom-nav nav-track switchTab buildTOC</body></html><p<p"))
    ≠ ensureNavigationAndScripts
      (strL "<html><body>bottom-nav nav-track switchTab buildTOC</body></html><p<p") := by
  decide

set_option maxRecDepth 400000 in
/-- C4 (counterexample): for an input with exactly one detected
tab-section marker and no navigation markers, exactly ONE nav entry is
synthesized -- the claimed minimum of 2 applies only when no tab-section
marker is detected. -/
theorem navPass_min_two_counterexample :
    pyCount tabMarker (strL "id=\"tab-") = 1
    ∧ pyCount (strL "data-title=\"Part ")
        (ensureNavigationAndScripts (strL "id=\"tab-")) = 1 := by
  constructor
  · decide
  · decide

theorem splitFirstCi_none {n s : Str} (hn : n ≠ [])
    (h : splitFirstCi n s = Option.none) : ¬ n <:+: lowerStr s := by
  induction s with
  | nil =>
      intro hinf
      exact hn (List.infix_nil.mp hinf)
  | cons c t ih =>
      rw [splitFirstCi] at h
      split at h
      · exact absurd h (by simp)
      · next hci =>
          rw [Option.map_eq_none'] at h
          intro hinf
          rw [show lowerStr (c :: t) = lowerChar c :: lowerStr t from rfl,
            List.infix_cons_iff] at hinf
          rcases hinf with hp | hi
          · exact hci (by
              rw [ciPrefix, List.isPrefixOf_iff_prefix]
              exact hp)
          · exact ih h hi

theorem navHtml_marker_bottom (tc : Nat) :
    strL "bottom-nav" <:+: lowerStr (navHtml tc) := by
  rw [navHtml, lowerStr_append, lowerStr_append]
  refine infix_left _ (infix_left _ ?_)
  exact infix_of_isSub (by decide)

theorem navHtml_marker_track (tc : Nat) :
    strL "nav-track" <:+: lowerStr (navHtml tc) := by
  rw [navHtml, lowerStr_append, lowerStr_append]
  refine infix_left _ (infix_left _ ?_)
  exact infix_of_isSub (by decide)

theorem injectNavFallback_contains (lower nav s : Str)
    (hscript : isSub (strL "<script") lower = true → strL "<script" <:+: lowerStr s)
    (hbody : isSub (strL "</body>") lower = true → strL "</body>" <:+: lowerStr s) :
    nav <:+: injectNavFallback lower nav s := by
  rw [injectNavFallback]
  split
  · next hs =>
      match e : splitFirstCi (strL "<script") s with
      | some (a, m, b) => exact ⟨a, m ++ b, by simp⟩
      | Option.none => exact absurd (hscript hs) (splitFirstCi_none (by decide) e)
  · split
    · next hb =>
        match e : splitFirstCi (strL "</body>") s with
        | some (a, m, b) => exact ⟨a, strL "</body>" ++ b, by simp⟩
        | Option.none => exact absurd (hbody hb) (splitFirstCi_none (by decide) e)
    · exact ⟨s, [], by simp⟩

theorem injectNav_contains (lower nav s : Str)
    (hscript : isSub (strL "<script") lower = true → strL "<script" <:+: lowerStr s)
    (hbody : isSub (strL "</body>") lower = true → strL "</body>" <:+: lowerStr s) :
    nav <:+: injectNav lower nav s := by
  rw [injectNav]
  split
  · split
    · next a b hsp => exact ⟨a, b, rfl⟩
    · exact injectNavFallback_contains lower nav s hscript hbody
  · exact injectNavFallback_contains lower nav s hscript hbody

/-- An occurrence in the (stale) lowercase input survives pass 1 and
pass 2, for needles that cannot meet a dangling-tag region. -/
theorem stale_chain {N : Str} (x : Str) (c0 : Char)
    (hlt : '<' ∉ N.drop 1) (hc : c0 ∈ N) (h1 : c0 ≠ '<') (h2 : isWs c0 = false)
    (h3 : lowerChar c0 ∉ strL "pdivsanh123456luo")
    (h : N <:+: lowerStr x) :
    N <:+: lowerStr (viewportPass (stripDangling x)) := by
  refine viewportPass_pres ?_
  rw [← stripDangling_lower]
  exact stripDangling_preserves hlt
    (fun s' hmd => not_infix_dangling hc h1 h2 h3 hmd) h

/-- C4 (amended): whenever a navigation marker is missing from the
lowercase input, the repaired output contains both `bottom-nav` and
`nav-track`, and the pass-3 output contains the whole synthesized block
`navHtml tc` where `tc` is the number of detected tab-section markers
when that number is nonzero and 2 (the default) only when it is zero;
one nav entry is synthesized per unit of `tc`. -/
theorem ensure_injects_navigation (x : Str)
    (hguard : isSub (strL "bottom-nav") (lowerStr x) = false
      ∨ isSub (strL "nav-track") (lowerStr x) = false) :
    strL "bottom-nav" <:+: lowerStr (ensureNavigationAndScripts x)
    ∧ strL "nav-track" <:+: lowerStr (ensureNavigationAndScripts x)
    ∧ navHtml (if pyCount tabMarker (viewportPass (stripDangling x)) = 0 then 2
        else pyCount tabMarker (viewportPass (stripDangling x)))
      <:+: navPass (lowerStr x) (viewportPass (stripDangling x))
    ∧ (List.range' 1 (if pyCount tabMarker (viewportPass (stripDangling x)) = 0
        then 2 else pyCount tabMarker (viewportPass (stripDangling x)))).length
      = (if pyCount tabMarker (viewportPass (stripDangling x)) = 0 then 2
        else pyCount tabMarker (viewportPass (stripDangling x))) := by
  have hsc : isSub (strL "<script") (lowerStr x) = true
      → strL "<script" <:+: lowerStr (viewportPass (stripDangling x)) := by
    intro hs
    exact stale_chain x 'c' (by decide) (by decide) (by decide) (by decide)
      (by decide) (infix_of_isSub hs)
  have hbd : isSub (strL "</body>") (lowerStr x) = true
      → strL "</body>" <:+: lowerStr (viewportPass (stripDangling x)) := by
    intro hs
    exact stale_chain x '/' (by decide) (by decide) (by decide) (by decide)
      (by decide) (infix_of_isSub hs)
  have hguardb : (!isSub (strL "bottom-nav") (lowerStr x)
      || !isSub (strL "nav-track") (lowerStr x)) = true := by
    rcases hguard with hg | hg <;> rw [hg] <;> simp
  have hblock : navHtml (if pyCount tabMarker (viewportPass (stripDangling x)) = 0
        then 2 else pyCount tabMarker (viewportPass (stripDangling x)))
      <:+: navPass (lowerStr x) (viewportPass (stripDangling x)) := by
    rw [navPass, if_pos hguardb]
    exact injectNav_contains _ _ _ hsc hbd
  have hmarkers : ∀ N : Str,
      (∀ tc, N <:+: lowerStr (navHtml tc)) →
      ('<' ∉ N.drop 1) → ('>' ∉ N.dropLast) → (¬ N <:+: strL "</body>") →
      N <:+: lowerStr (ensureNavigationAndScripts x) := by
    intro N hN hlt hgt hnb
    rw [ensureNavigationAndScripts]
    refine closePass_pres (jsPass_pres hlt hgt (Or.inl hnb) ?_)
    exact (hN _).trans ( infix_lowerStr_of_infix hblock)
  refine ⟨?_, ?_, hblock, by rw [List.length_range']⟩
  · exact hmarkers _ (fun tc => navHtml_marker_bottom tc) (by decide) (by decide)
      (not_infix_of_isSub (by decide))
  · exact hmarkers _ (fun tc => navHtml_marker_track tc) (by decide) (by decide)
      (not_infix_of_isSub (by decide))

/-- Witness for C4's amended theorem at the empty input (no navigation
markers, no tab-section markers, so two default entries). -/
theorem ensure_injects_navigation_witness :
    strL "bottom-nav" <:+: lowerStr (ensureNavigationAndScripts [])
    ∧ strL "nav-track" <:+: lowerStr (ensureNavigationAndScripts [])
    ∧ navHtml (if pyCount tabMarker (viewportPass (stripDangling [])) = 0 then 2
        else pyCount tabMarker (viewportPass (stripDangling [])))
      <:+: navPass (lowerStr []) (viewportPass (stripDangling []))
    ∧ (List.range' 1 (if pyCount tabMarker (viewportPass (stripDangling [])) = 0
        then 2 else pyCount tabMarker (viewportPass (stripDangling [])))).length
      = (if pyCount tabMarker (viewportPass (stripDangling [])) = 0 then 2
        else pyCount tabMarker (viewportPass (stripDangling []))) :=
  ensure_injects_navigation [] (Or.inl (by decide))

/-! ## The response stitcher `_stitch_html_responses`

Each `re.sub` is modelled by a structural scanner with a skip counter
(characters of a match still to be discarded).  The comment patterns
`<!--\s*NEEDLE[^>]*-->`: since `[^>]*` cannot cross `>`, a match ends at
the first `>` after the needle, and that `>` must be preceded by `--`. -/

/-- Length of a match of `` ```(?:html)? `` (case-insensitive, greedy) at
the head of `s`. -/
def fenceLen (s : Str) : Option Nat :=
  if ciPrefix (strL "```html") s then some 7
  else if (strL "```").isPrefixOf s then some 3
  else Option.none

/-- Remove all code-fence matches, scanning left to right. -/
def stripFences : Str → Nat → Str
  | [], _ => []
  | _ :: t, Nat.succ k => stripFences t k
  | c :: t, 0 =>
      match fenceLen (c :: t) with
      | some e => stripFences t (e - 1)
      | Option.none => c :: stripFences t 0

/-- Length of a `<!--\s*NEEDLE[^>]*-->` match (needle case-insensitive)
at the head of `s`. -/
def commentMatchLen (needle : Str) (s : Str) : Option Nat :=
  if (strL "<!--").isPrefixOf s then
    if ciPrefix needle ((s.drop 4).drop (wsRun (s.drop 4))) then
      match firstGt (((s.drop 4).drop (wsRun (s.drop 4))).drop needle.length) with
      | some g =>
          if 2 ≤ g
              && ((((s.drop 4).drop (wsRun (s.drop 4))).drop needle.length).drop (g - 2)).take 2
                == strL "--" then
            some (4 + wsRun (s.drop 4) + needle.length + g + 1)
          else Option.none
      | Option.none => Option.none
    else Option.none
  else Option.none

/-- Remove all matches of one comment pattern, scanning left to right. -/
def stripComments (needle : Str) : Str → Nat → Str
  | [], _ => []
  | _ :: t, Nat.succ k => stripComments needle t k
  | c :: t, 0 =>
      match commentMatchLen needle (c :: t) with
      | some e => stripComments needle t (e - 1)
      | Option.none => c :: stripComments needle t 0

/-- Length of a `<!--\s*AI GENERATED CONTENT GOES HERE\s*-->` match
(case-insensitive) at the head of `s`. -/
def placeholderMatchLen (s : Str) : Option Nat :=
  if (strL "<!--").isPrefixOf s then
    if ciPrefix (strL "ai generated content goes here")
        ((s.drop 4).drop (wsRun (s.drop 4))) then
      if (strL "-->").isPrefixOf
          ((((s.drop 4).drop (wsRun (s.drop 4))).drop 30).drop
            (wsRun (((s.drop 4).drop (wsRun (s.drop 4))).drop 30))) then
        some (4 + wsRun (s.drop 4) + 30
          + wsRun (((s.drop 4).drop (wsRun (s.drop 4))).drop 30) + 3)
      else Option.none
    else Option.none
  else Option.none

/-- Remove all placeholder-comment matches. -/
def stripPlaceholder : Str → Nat → Str
  | [], _ => []
  | _ :: t, Nat.succ k => stripPlaceholder t k
  | c :: t, 0 =>
      match placeholderMatchLen (c :: t) with
      | some e => stripPlaceholder t (e - 1)
      | Option.none => c :: stripPlaceholder t 0

/-- Python's `str.strip()` on ASCII whitespace. -/
def pyStrip (s : Str) : Str := (skipWs ((skipWs s).reverse)).reverse

/-- `_stitch_html_responses` (lines 172-180): concatenate, strip fences,
batch markers, end-batch markers, the placeholder comment, then trim. -/
def stitchHtmlResponses (responses : List Str) : Str :=
  pyStrip (stripPlaceholder (stripComments (strL "end batch")
    (stripComments (strL "batch") (stripFences responses.flatten 0) 0) 0) 0)

/-! ## The orchestrator `generate_ai_notes`

Remote calls are oracles; the trace records the calls made and the final
artifact write.  Error messages follow the source's f-strings. -/

/-- Observable events of one `generate_ai_notes` run. -/
inductive Event where
  | buildModel : Event
  | upload : Event
  | parsePdf : Event
  | genFile : Event
  | genText (k : Nat) : Event
  | valCall (k : Nat) : Event
  | write : Event
deriving DecidableEq

/-- Exceptions distinguished by the pipeline model: `GeminiUnavailable`
versus any other propagated Python exception. -/
inductive GenErr where
  | gemini (msg : Str) : GenErr
  | pyexc (msg : Str) : GenErr
deriving DecidableEq

/-- The message text of an exception. -/
def msgOf : GenErr → Str
  | .gemini m => m
  | .pyexc m => m

/-- `f"Gemini generation failed: {exc}"` (line 400). -/
def msgGenFailed (e : GenErr) : Str := strL "Gemini generation failed: " ++ msgOf e

/-- `f"Gemini generation failed after validation error: {exc}"` (line 418). -/
def msgGenFailedAfterValidation (e : GenErr) : Str :=
  strL "Gemini generation failed after validation error: " ++ msgOf e

/-- Line 422's `GeminiUnavailable` message. -/
def msgInvalidStructure : Str :=
  strL "AI generated invalid HTML structure (after text fallback)"

/-- Line 368's `GeminiUnavailable` message. -/
def msgNoKey : Str := strL "GEMINI_API_KEY not configured"

/-- The message of the `AttributeError` raised by `.get` on a non-dict
verdict (lines 429/453). -/
def msgAttrErr : Str := strL "AttributeError: get"

/-- Is the Python value a dict (so `.get` works)? -/
def isDict : PyVal → Bool
  | .dict _ => true
  | _ => false

/-- `verdict.get(key)` for dict values. -/
def dictGet (v : PyVal) (k : Str) : Option PyVal :=
  match v with
  | .dict xs => (xs.find? (fun p => p.1 == k)).map Prod.snd
  | _ => Option.none

/-- `validation_result.get('recommendation') == 'regenerate'` (line 436). -/
def recommendIsRegenerate (v : PyVal) : Bool :=
  match dictGet v (strL "recommendation") with
  | some (.str r) => r == strL "regenerate"
  | _ => false

/-- Oracles for the remote collaborators of `generate_ai_notes`.  Each
generation oracle carries the extracted text (`.ok`), or the exception
(including the empty-content `GeminiUnavailable` that
`_generate_complete_html*` raise); text-mode calls are numbered in call
order, as are the validator's calls. -/
structure Oracles where
  apiKey : Str
  buildModel : Except GenErr Unit
  upload : Except GenErr Unit
  parsePdf : Except GenErr Str
  genFile : Except GenErr Str
  genText : Nat → Except GenErr Str
  valGen : Nat → Except Str Str

/-- Lines 450-453: the artifact is written, then line 453's logging
`.get` raises `AttributeError` if the final verdict is not a dict. -/
def writePhase (fh : Str) (verdict : PyVal) (evs : List Event) :
    Except GenErr Str × List Event :=
  if isDict verdict then (.ok fh, evs ++ [.write])
  else (.error (.pyexc msgAttrErr), evs ++ [.write])

/-- Lines 440-448: one regeneration attempt via the inline-text
strategy; a failed call keeps the current artifact and verdict, a
successful one replaces both (even when the new verdict later turns out
not to be a dict -- the `except` catches the logging error but the
reassignments have already happened). -/
def regenPhase (o : Oracles) (verdict : PyVal) (fh : Str) (nextK : Nat)
    (evs : List Event) : Except GenErr Str × List Event :=
  match o.genText nextK with
  | .error _ => writePhase fh verdict (evs ++ [.genText nextK])
  | .ok raw =>
      writePhase (ensureNavigationAndScripts (stitchHtmlResponses [raw]))
        (validateWithAi (o.valGen 1))
        (evs ++ [.genText nextK, .valCall 1])

/-- Lines 424-448: the self-validation phase.  A non-dict verdict
crashes line 429's `.get` before anything is written; a `regenerate`
recommendation with the file-attachment strategy selected triggers the
single regeneration (extracting text first when none is at hand). -/
def valPhase (o : Oracles) (useFileApi : Bool) (txt : Str) (nextK : Nat)
    (fh : Str) (evs : List Event) : Except GenErr Str × List Event :=
  if !isDict (validateWithAi (o.valGen 0)) then
    (.error (.pyexc msgAttrErr), evs ++ [.valCall 0])
  else if recommendIsRegenerate (validateWithAi (o.valGen 0)) && useFileApi then
    if txt = [] then
      match o.parsePdf with
      | .error e => (.error e, evs ++ [.valCall 0, .parsePdf])
      | .ok _ => regenPhase o (validateWithAi (o.valGen 0)) fh nextK
          (evs ++ [.valCall 0, .parsePdf])
    else regenPhase o (validateWithAi (o.valGen 0)) fh nextK (evs ++ [.valCall 0])
  else writePhase fh (validateWithAi (o.valGen 0)) (evs ++ [.valCall 0])

/-- Lines 412-422: the single structural retry via the inline-text
strategy after a failed gate. -/
def structuralRetry (o : Oracles) (useFileApi : Bool) (txt : Str) (nextK : Nat)
    (evs : List Event) : Except GenErr Str × List Event :=
  match o.genText nextK with
  | .error e =>
      (.error (.gemini (msgGenFailedAfterValidation e)), evs ++ [.genText nextK])
  | .ok raw =>
      if validateHtmlStructure (ensureNavigationAndScripts (stitchHtmlResponses [raw])) then
        valPhase o useFileApi txt (nextK + 1)
          (ensureNavigationAndScripts (stitchHtmlResponses [raw]))
          (evs ++ [.genText nextK])
      else (.error (.gemini msgInvalidStructure), evs ++ [.genText nextK])

/-- Lines 405-422: the structural gate; on failure, extract text if none
is at hand (an extraction error propagates raw) and retry once. -/
def postGen (o : Oracles) (useFileApi : Bool) (txt : Str) (nextK : Nat)
    (fh : Str) (evs : List Event) : Except GenErr Str × List Event :=
  if validateHtmlStructure fh then valPhase o useFileApi txt nextK fh evs
  else
    if txt = [] then
      match o.parsePdf with
      | .error e => (.error e, evs ++ [.parsePdf])
      | .ok txt2 => structuralRetry o useFileApi txt2 nextK (evs ++ [.parsePdf])
    else structuralRetry o useFileApi txt nextK evs

/-- Lines 393-403: the generation call of the selected strategy; any
exception becomes `GeminiUnavailable("Gemini generation failed: ...")`. -/
def genPhase (o : Oracles) (useFileApi : Bool) (txt : Str) (evs : List Event) :
    Except GenErr Str × List Event :=
  if useFileApi then
    match o.genFile with
    | .error e => (.error (.gemini (msgGenFailed e)), evs ++ [.genFile])
    | .ok raw =>
        postGen o useFileApi txt 0
          (ensureNavigationAndScripts (stitchHtmlResponses [raw]))
          (evs ++ [.genFile])
  else
    match o.genText 0 with
    | .error e => (.error (.gemini (msgGenFailed e)), evs ++ [.genText 0])
    | .ok raw =>
        postGen o useFileApi txt 1
          (ensureNavigationAndScripts (stitchHtmlResponses [raw]))
          (evs ++ [.genText 0])

/-- `generate_ai_notes` (lines 357-454) over the oracles: missing key,
model selection, the upload attempt with its local text fallback, then
generation, stitching, repair, the structural gate with one retry,
self-validation with at most one regeneration, and the final write. -/
def generateAiNotes (o : Oracles) : Except GenErr Str × List Event :=
  if o.apiKey = [] then (.error (.gemini msgNoKey), [])
  else
    match o.buildModel with
    | .error e => (.error e, [.buildModel])
    | .ok _ =>
        match o.upload with
        | .ok _ => genPhase o true [] [.buildModel, .upload]
        | .error _ =>
            match o.parsePdf with
            | .ok txt => genPhase o false txt [.buildModel, .upload, .parsePdf]
            | .error e => (.error e, [.buildModel, .upload, .parsePdf])

/-! ## Claims C6, C7, C9: gate, retry, fallback and regeneration policy -/

/-- C6: the structural gate `_validate_html_structure` passes exactly
when the repaired HTML contains `<html` and `<body` case-insensitively;
when the gate fails on the initial generation -- under either strategy
-- exactly one retry via the inline-text strategy occurs (extracting the
PDF text first when none is at hand), and if the retried repaired output
still fails the gate, `generate_ai_notes` raises `GeminiUnavailable` at
line 422 and never writes the artifact. -/
theorem structural_gate_and_retry (o : Oracles)
    (hkey : o.apiKey ≠ []) (hbm : o.buildModel = .ok ()) :
    (∀ h : Str, validateHtmlStructure h = true ↔
      (strL "<html" <:+: lowerStr h ∧ strL "<body" <:+: lowerStr h))
    ∧ (∀ raw raw2 txt, o.upload = .ok () → o.genFile = .ok raw
      → o.parsePdf = .ok txt
      → validateHtmlStructure
          (ensureNavigationAndScripts (stitchHtmlResponses [raw])) = false
      → o.genText 0 = .ok raw2
      → validateHtmlStructure
          (ensureNavigationAndScripts (stitchHtmlResponses [raw2])) = false
      → generateAiNotes o = (.error (.gemini msgInvalidStructure),
          [.buildModel, .upload, .genFile, .parsePdf, .genText 0])
        ∧ Event.write ∉ (generateAiNotes o).2)
    ∧ (∀ e raw raw2 txt, o.upload = .error e → o.parsePdf = .ok txt
      → txt ≠ []
      → o.genText 0 = .ok raw
      → validateHtmlStructure
          (ensureNavigationAndScripts (stitchHtmlResponses [raw])) = false
      → o.genText 1 = .ok raw2
      → validateHtmlStructure
          (ensureNavigationAndScripts (stitchHtmlResponses [raw2])) = false
      → generateAiNotes o = (.error (.gemini msgInvalidStructure),
          [.buildModel, .upload, .parsePdf, .genText 0, .genText 1])
        ∧ Event.write ∉ (generateAiNotes o).2) := by
  refine ⟨?_, ?_, ?_⟩
  · intro h
    rw [validateHtmlStructure, Bool.and_eq_true, isSub_iff_infix, isSub_iff_infix]
  · intro raw raw2 txt hup hgf hpp hfail1 hretry hfail2
    have hrun : generateAiNotes o =
        (.error (.gemini msgInvalidStructure),
          [.buildModel, .upload, .genFile, .parsePdf, .genText 0]) := by
      simp [generateAiNotes, genPhase, postGen, structuralRetry,
        hkey, hbm, hup, hgf, hpp, hretry, hfail1, hfail2]
    exact ⟨hrun, by rw [hrun]; decide⟩
  · intro e raw raw2 txt hup hpp htxt hgt hfail1 hretry hfail2
    have hrun : generateAiNotes o =
        (.error (.gemini msgInvalidStructure),
          [.buildModel, .upload, .parsePdf, .genText 0, .genText 1]) := by
      simp [generateAiNotes, genPhase, postGen, structuralRetry,
        hkey, hbm, hup, hpp, htxt, hgt, hretry, hfail1, hfail2]
    exact ⟨hrun, by rw [hrun]; decide⟩

/-- Trace of a run failing the gate twice: `GeminiUnavailable`, one
text-mode retry, no write. -/
def oracleC6 : Oracles :=
  ⟨strL "k", .ok (), .ok (), .ok (strL "t"), .ok (strL "<p>"),
    fun _ => .ok (strL "<q>"), fun _ => .ok (strL "x")⟩

set_option maxRecDepth 400000 in
/-- Witness for C6 at a concrete oracle whose two generations both lack
`<html`/`<body`. -/
theorem structural_gate_and_retry_witness :
    (generateAiNotes oracleC6).1 = .error (.gemini msgInvalidStructure)
    ∧ Event.write ∉ (generateAiNotes oracleC6).2 := by
  have h := (structural_gate_and_retry oracleC6 (by decide) rfl).2.1
    (strL "<p>") (strL "<q>") (strL "t") rfl rfl rfl (by decide) rfl (by decide)
  exact ⟨by rw [h.1], h.2⟩

/-- C7: when the file upload raises, the pipeline switches to the
inline-text strategy and (a) completes successfully when that strategy
yields structurally valid HTML, writing the artifact even when the
validation transport fails (fail-open default verdict) -- the upload
error is never surfaced; (b) if the inline-text generation itself then
raises, the run fails with the generation-failure `GeminiUnavailable`
built from that exception alone. -/
theorem upload_error_switches_to_text (o : Oracles) (e : GenErr) (txt : Str)
    (hkey : o.apiKey ≠ []) (hbm : o.buildModel = .ok ())
    (hup : o.upload = .error e) (hpp : o.parsePdf = .ok txt) :
    (∀ raw em, o.genText 0 = .ok raw
      → validateHtmlStructure
          (ensureNavigationAndScripts (stitchHtmlResponses [raw])) = true
      → o.valGen 0 = .error em
      → (generateAiNotes o).1 =
          .ok (ensureNavigationAndScripts (stitchHtmlResponses [raw]))
        ∧ Event.write ∈ (generateAiNotes o).2)
    ∧ (∀ e2, o.genText 0 = .error e2
      → (generateAiNotes o).1 = .error (.gemini (msgGenFailed e2))
        ∧ Event.genText 0 ∈ (generateAiNotes o).2) := by
  constructor
  · intro raw em hgt hgate hval
    have hrun : generateAiNotes o =
        (.ok (ensureNavigationAndScripts (stitchHtmlResponses [raw])),
          [.buildModel, .upload, .parsePdf, .genText 0, .valCall 0, .write]) := by
      simp [generateAiNotes, genPhase, postGen, valPhase, writePhase,
        validateWithAi, isDict, defaultVerdict,
        hkey, hbm, hup, hpp, hgt, hgate, hval]
    have hrun2 : (generateAiNotes o).2 =
        [.buildModel, .upload, .parsePdf, .genText 0, .valCall 0, .write] := by
      rw [hrun]
    exact ⟨by rw [hrun], by rw [hrun2]; decide⟩
  · intro e2 hge2
    have hrun : generateAiNotes o =
        (.error (.gemini (msgGenFailed e2)),
          [.buildModel, .upload, .parsePdf, .genText 0]) := by
      simp [generateAiNotes, genPhase, hkey, hbm, hup, hpp, hge2]
    have hrun2 : (generateAiNotes o).2 =
        [.buildModel, .upload, .parsePdf, .genText 0] := by
      rw [hrun]
    exact ⟨by rw [hrun], by rw [hrun2]; decide⟩

/-- A run whose upload fails but whose inline-text generation passes the
gate; the validator transport errors out. -/
def oracleC7 : Oracles :=
  ⟨strL "k", .ok (), .error (.pyexc (strL "u")), .ok (strL "t"),
    .error (.pyexc (strL "g")),
    fun _ => .ok (strL "<html><body>"), fun _ => .error (strL "v")⟩

set_option maxRecDepth 400000 in
/-- Witness for C7: the concrete run recovers from the upload failure
and writes the repaired inline-text output. -/
theorem upload_error_switches_to_text_witness :
    (generateAiNotes oracleC7).1 =
      .ok (ensureNavigationAndScripts (stitchHtmlResponses [strL "<html><body>"]))
    ∧ Event.write ∈ (generateAiNotes oracleC7).2 :=
  (upload_error_switches_to_text oracleC7 (.pyexc (strL "u")) (strL "t")
    (by decide) rfl rfl rfl).1 (strL "<html><body>") (strL "v") rfl
    (by decide) rfl

/-- C9: regeneration policy.  With a usable verdict dict: (a) in
file-attachment mode a `regenerate` recommendation triggers exactly one
regeneration, via the inline-text strategy, and no further text-mode
call regardless of the second verdict; (b) in file-attachment mode any
other recommendation triggers no text-mode call at all; (c) with the
inline-text strategy selected (upload failed) no regeneration happens
even on a `regenerate` recommendation -- the single text-mode call is
the original generation. -/
theorem regeneration_only_after_file_mode (o : Oracles)
    (hkey : o.apiKey ≠ []) (hbm : o.buildModel = .ok ()) :
    (∀ raw txt, o.upload = .ok () → o.genFile = .ok raw
      → validateHtmlStructure
          (ensureNavigationAndScripts (stitchHtmlResponses [raw])) = true
      → o.parsePdf = .ok txt
      → isDict (validateWithAi (o.valGen 0)) = true
      → recommendIsRegenerate (validateWithAi (o.valGen 0)) = true
      → (generateAiNotes o).2.count (Event.genText 0) = 1
        ∧ (∀ k, Event.genText k ∈ (generateAiNotes o).2 → k = 0))
    ∧ (∀ raw, o.upload = .ok () → o.genFile = .ok raw
      → validateHtmlStructure
          (ensureNavigationAndScripts (stitchHtmlResponses [raw])) = true
      → isDict (validateWithAi (o.valGen 0)) = true
      → recommendIsRegenerate (validateWithAi (o.valGen 0)) = false
      → ∀ k, Event.genText k ∉ (generateAiNotes o).2)
    ∧ (∀ e txt raw, o.upload = .error e → o.parsePdf = .ok txt
      → o.genText 0 = .ok raw
      → validateHtmlStructure
          (ensureNavigationAndScripts (stitchHtmlResponses [raw])) = true
      → isDict (validateWithAi (o.valGen 0)) = true
      → (generateAiNotes o).2.count (Event.genText 0) = 1
        ∧ (∀ k, Event.genText k ∈ (generateAiNotes o).2 → k = 0)) := by
  refine ⟨?_, ?_, ?_⟩
  · intro raw txt hup hgf hgate hpp hd hr
    cases hge : o.genText 0 with
    | error e2 =>
        have hrun : (generateAiNotes o).2 =
            [.buildModel, .upload, .genFile, .valCall 0, .parsePdf,
              .genText 0, .write] := by
          simp [generateAiNotes, genPhase, postGen, valPhase, regenPhase,
            writePhase, hkey, hbm, hup, hgf, hgate, hpp, hd, hr, hge]
        rw [hrun]
        refine ⟨by decide, ?_⟩
        intro k hk
        simp at hk
        exact hk
    | ok raw2 =>
        have hrun : (generateAiNotes o).2 =
            [.buildModel, .upload, .genFile, .valCall 0, .parsePdf,
              .genText 0, .valCall 1, .write] := by
          simp [generateAiNotes, genPhase, postGen, valPhase, regenPhase,
            writePhase, hkey, hbm, hup, hgf, hgate, hpp, hd, hr, hge]
          split <;> rfl
        rw [hrun]
        refine ⟨by decide, ?_⟩
        intro k hk
        simp at hk
        exact hk
  · intro raw hup hgf hgate hd hr
    have hrun : (generateAiNotes o).2 =
        [.buildModel, .upload, .genFile, .valCall 0, .write] := by
      simp [generateAiNotes, genPhase, postGen, valPhase, writePhase,
        hkey, hbm, hup, hgf, hgate, hd, hr]
    rw [hrun]
    intro k
    simp
  · intro e txt raw hup hpp hgt hgate hd
    have hrun : (generateAiNotes o).2 =
        [.buildModel, .upload, .parsePdf, .genText 0, .valCall 0, .write] := by
      simp [generateAiNotes, genPhase, postGen, valPhase, writePhase,
        hkey, hbm, hup, hpp, hgt, hgate, hd]
    rw [hrun]
    refine ⟨by decide, ?_⟩
    intro k hk
    simp at hk
    exact hk

/-- A file-mode run whose gate passes, with a fail-open default verdict
(recommendation `keep`). -/
def oracleC9 : Oracles :=
  ⟨strL "k", .ok (), .ok (), .ok (strL "t"), .ok (strL "<html><body>"),
    fun _ => .ok (strL "<html><body>"), fun _ => .error (strL "v")⟩

set_option maxRecDepth 400000 in
/-- Witness for C9 at a concrete file-mode run with a `keep` verdict:
no text-mode call occurs. -/
theorem regeneration_only_after_file_mode_witness :
    Event.genText 0 ∉ (generateAiNotes oracleC9).2 :=
  (regeneration_only_after_file_mode oracleC9 (by decide) rfl).2.1
    (strL "<html><body>") rfl rfl (by decide) (by decide) (by decide) 0


/-! ## Counting toolkit for the idempotence analysis (C3)

`countOcc` counts match positions; additivity over a concatenation holds
when no occurrence straddles the junction, which the junction characters
refute in every use below.  `pyCount` (the faithful greedy model of
Python's `str.count`) agrees with `countOcc` for needles that cannot
overlap themselves, such as `<div` and `</div>`. -/

theorem prefix_det {n U V : Str} (h : n <+: U ++ V) (hle : n.length ≤ U.length) :
    n <+: U :=
  List.prefix_of_prefix_length_le h (List.prefix_append U V) hle

theorem prefix_cross {n U V : Str} (h : n <+: U ++ V) (hlt : U.length < n.length) :
    U <+: n ∧ n.drop U.length <+: V := by
  obtain ⟨r, hr⟩ := h
  constructor
  · exact List.prefix_of_prefix_length_le (List.prefix_append U V) ⟨r, hr⟩
      (Nat.le_of_lt hlt)
  · have hv := congrArg (List.drop U.length) hr
    rw [List.drop_left, List.drop_append_eq_append_drop,
      Nat.sub_eq_zero_of_le (Nat.le_of_lt hlt), List.drop_zero] at hv
    exact ⟨r, hv⟩

theorem two_splits {t X Y U V : Str} (h1 : t = X ++ Y) (h2 : t = U ++ V)
    (hle : X.length ≤ U.length) : ∃ w, U = X ++ w ∧ Y = w ++ V := by
  have hXU : X <+: U := by
    refine prefix_det (V := V) ?_ hle
    rw [← h2, h1]
    exact List.prefix_append X Y
  obtain ⟨w, rfl⟩ := hXU
  refine ⟨w, rfl, ?_⟩
  have h3 : X ++ Y = X ++ (w ++ V) := by rw [← h1, h2, List.append_assoc]
  exact List.append_cancel_left h3

theorem cross_left_mem {n U V : Str} {c : Char} (h : n <+: U ++ V)
    (h0 : U ≠ []) (hle : U.length ≤ n.length) (hc : U.getLast? = some c) :
    c ∈ n := by
  obtain ⟨r, hr⟩ := h
  have h1 : n.take U.length = U := by
    have h2 := congrArg (List.take U.length) hr
    rw [List.take_left, List.take_append_eq_append_take,
      Nat.sub_eq_zero_of_le hle, List.take_zero, List.append_nil] at h2
    exact h2
  exact List.take_subset _ _ (List.mem_of_getLast?_eq_some (h1.symm ▸ hc))

theorem cross_right_mem {n U V : Str} {c : Char} (h : n <+: U ++ V)
    (hlt : U.length < n.length) (hc : V.head? = some c) : c ∈ n := by
  have hd : n.drop U.length <+: V := (prefix_cross h hlt).2
  have hne : n.drop U.length ≠ [] := by
    intro he
    have hl := congrArg List.length he
    rw [List.length_drop] at hl
    simp at hl
    omega
  have hh : (n.drop U.length).head? = some c := by
    rw [prefix_head? hd hne, hc]
  exact List.drop_subset _ _ (List.mem_of_mem_head? (by rw [hh]; rfl))

theorem countOcc_cons_head_ne {n t : Str} {hn c : Char}
    (h1 : n.head? = some hn) (h2 : hn ≠ c) :
    countOcc n (c :: t) = countOcc n t := by
  rw [countOcc]
  have hp : n.isPrefixOf (c :: t) = false := by
    match n, h1 with
    | hn :: n', rfl =>
        rw [Bool.eq_false_iff]
        intro hpp
        rw [List.isPrefixOf_iff_prefix] at hpp
        rcases List.cons_prefix_cons.mp hpp with ⟨rfl, _⟩
        exact h2 rfl
  rw [hp]
  simp

theorem countOcc_drop_eq {n : Str} (k : Nat) :
    ∀ u : Str, (∀ j, j < k → ¬ n <+: u.drop j) →
    countOcc n u = countOcc n (u.drop k) := by
  induction k with
  | zero => intro u _; rfl
  | succ k ih =>
      intro u hno
      match u with
      | [] => rfl
      | c :: u' =>
          rw [countOcc]
          have h0 : n.isPrefixOf (c :: u') = false := by
            rw [Bool.eq_false_iff]
            intro hpp
            rw [List.isPrefixOf_iff_prefix] at hpp
            exact hno 0 (Nat.succ_pos k) (by rw [List.drop_zero]; exact hpp)
          rw [h0, List.drop_succ_cons]
          have h2 := ih u' (fun j hj => by
            have h3 := hno (j + 1) (by omega)
            rwa [List.drop_succ_cons] at h3)
          simpa using h2

theorem countOcc_append_right {n : Str} (A B : Str)
    (h : ∀ j, 0 < j → j < n.length → ¬ (n.drop j <+: B)) :
    countOcc n (A ++ B) = countOcc n A + countOcc n B := by
  induction A with
  | nil => simp [countOcc]
  | cons c A' ih =>
      rw [List.cons_append, countOcc, countOcc]
      have hind : n.isPrefixOf (c :: (A' ++ B)) = n.isPrefixOf (c :: A') := by
        cases hp : n.isPrefixOf (c :: A') with
        | true =>
            rw [List.isPrefixOf_iff_prefix] at hp ⊢
            exact hp.trans (List.prefix_append _ _)
        | false =>
            have hp2 : ¬ n <+: c :: A' := by
              rw [← List.isPrefixOf_iff_prefix]
              simp [hp]
            rw [Bool.eq_false_iff]
            intro hpp
            rw [List.isPrefixOf_iff_prefix,
              show c :: (A' ++ B) = (c :: A') ++ B from rfl] at hpp
            by_cases hlen : n.length ≤ (c :: A').length
            · exact hp2 (prefix_det hpp hlen)
            · exact h (c :: A').length (by simp) (by omega)
                (prefix_cross hpp (by omega)).2
      rw [hind, ih]
      omega

theorem countOcc_append_left {n : Str} (A B : Str)
    (h : ∀ j, 0 < j → j < n.length → ¬ (n.take j <:+ A)) :
    countOcc n (A ++ B) = countOcc n A + countOcc n B := by
  induction A with
  | nil => simp [countOcc]
  | cons c A' ih =>
      rw [List.cons_append, countOcc, countOcc]
      have hind : n.isPrefixOf (c :: (A' ++ B)) = n.isPrefixOf (c :: A') := by
        cases hp : n.isPrefixOf (c :: A') with
        | true =>
            rw [List.isPrefixOf_iff_prefix] at hp ⊢
            exact hp.trans (List.prefix_append _ _)
        | false =>
            have hp2 : ¬ n <+: c :: A' := by
              rw [← List.isPrefixOf_iff_prefix]
              simp [hp]
            rw [Bool.eq_false_iff]
            intro hpp
            rw [List.isPrefixOf_iff_prefix,
              show c :: (A' ++ B) = (c :: A') ++ B from rfl] at hpp
            by_cases hlen : n.length ≤ (c :: A').length
            · exact hp2 (prefix_det hpp hlen)
            · have hca : (c :: A') <+: n := (prefix_cross hpp (by omega)).1
              have htk : n.take (c :: A').length = c :: A' :=
                (List.prefix_iff_eq_take.mp hca).symm
              refine h (c :: A').length (by simp) (by omega) ?_
              rw [htk]
      rw [hind, ih (fun j h1 h2 hs => h j h1 h2 (hs.trans (List.suffix_cons c A')))]
      omega

theorem countOcc_eq_zero_of_not_infix {n : Str} (t : Str) (h : ¬ n <:+: t) :
    countOcc n t = 0 := by
  induction t with
  | nil => rfl
  | cons c t' ih =>
      rw [countOcc]
      have hp : n.isPrefixOf (c :: t') = false := by
        rw [Bool.eq_false_iff]
        intro hpp
        rw [List.isPrefixOf_iff_prefix] at hpp
        exact h hpp.isInfix
      rw [hp, ih (fun hi => h (List.infix_cons hi))]
      simp

theorem pyCountAux_skip (n : Str) : ∀ (t : Str) (k : Nat),
    pyCountAux n t k = pyCount n (t.drop k) := by
  intro t
  induction t with
  | nil =>
      intro k
      rw [List.drop_nil]
      simp [pyCount, pyCountAux]
  | cons c t' ih =>
      intro k
      match k with
      | 0 => rfl
      | Nat.succ k' =>
          rw [pyCountAux, List.drop_succ_cons]
          exact ih k'

theorem pyCount_eq_countOcc {n : Str} (hn : n ≠ [])
    (hnov : ∀ j, 0 < j → j < n.length → ¬ (n.drop j <+: n)) :
    ∀ t : Str, pyCount n t = countOcc n t := by
  suffices hL : ∀ (L : Nat) (t : Str), t.length ≤ L → pyCount n t = countOcc n t by
    intro t
    exact hL t.length t (Nat.le_refl _)
  intro L
  induction L with
  | zero =>
      intro t ht
      rw [List.length_eq_zero.mp (Nat.le_zero.mp ht)]
      rfl
  | succ L ih =>
      intro t ht
      match t with
      | [] => rfl
      | c :: t' =>
          rw [List.length_cons] at ht
          rw [pyCount, pyCountAux, countOcc]
          cases hp : n.isPrefixOf (c :: t') with
          | false =>
              simp only [Bool.false_eq_true, if_false]
              rw [show pyCountAux n t' 0 = pyCount n t' from rfl,
                ih t' (by omega)]
              omega
          | true =>
              simp only [if_true]
              rw [pyCountAux_skip, ih (t'.drop (n.length - 1))
                (by rw [List.length_drop]; omega)]
              have hpre : n <+: c :: t' := List.isPrefixOf_iff_prefix.mp hp
              obtain ⟨r, hr⟩ := hpre
              obtain ⟨d, n', rfl⟩ : ∃ d n', n = d :: n' := by
                match n, hn with
                | d :: n', _ => exact ⟨d, n', rfl⟩
              rw [List.cons_append] at hr
              injection hr with hcd ht'
              have hnd : countOcc (d :: n') t'
                  = countOcc (d :: n') (t'.drop ((d :: n').length - 1)) := by
                refine countOcc_drop_eq _ t' ?_
                intro j hj hpp
                rw [List.length_cons] at hj
                have hdr : t'.drop j = n'.drop j ++ r := by
                  rw [← ht', List.drop_append_eq_append_drop,
                    Nat.sub_eq_zero_of_le (by omega), List.drop_zero]
                rw [hdr] at hpp
                have hlt : (n'.drop j).length < (d :: n').length := by
                  rw [List.length_drop, List.length_cons]
                  omega
                have hcx := (prefix_cross hpp hlt).1
                refine hnov (j + 1) (by omega) (by rw [List.length_cons]; omega) ?_
                rw [List.drop_succ_cons]
                exact hcx
              rw [hnd]

/-! ## Locating the first occurrence: `splitFirstP` toolkit -/

theorem SF_prefix {n t : Str} (hn : n ≠ []) (h : n <+: t) :
    splitFirstP n t = some ([], t) := by
  match t, hn, h with
  | [], hn, h =>
      exact absurd (List.prefix_nil.mp h) hn
  | c :: t', _, h =>
      rw [splitFirstP, if_pos (List.isPrefixOf_iff_prefix.mpr h)]

theorem SF_none_of_not_infix {n : Str} (t : Str) (h : ¬ n <:+: t) :
    splitFirstP n t = Option.none := by
  induction t with
  | nil => rfl
  | cons c t' ih =>
      rw [splitFirstP]
      have hp : ¬ n.isPrefixOf (c :: t') = true := by
        rw [List.isPrefixOf_iff_prefix]
        exact fun hpp => h hpp.isInfix
      rw [if_neg hp, ih (fun hi => h (List.infix_cons hi))]
      rfl

theorem SF_none_sound {n t : Str} (hn : n ≠ []) (h : splitFirstP n t = Option.none) :
    ¬ n <:+: t := by
  induction t with
  | nil =>
      intro hi
      exact hn (List.infix_nil.mp hi)
  | cons c t' ih =>
      rw [splitFirstP] at h
      split at h
      · exact absurd h (by simp)
      · next hp =>
          rw [Option.map_eq_none'] at h
          intro hi
          rcases List.infix_cons_iff.mp hi with hpp | hii
          · exact hp (List.isPrefixOf_iff_prefix.mpr hpp)
          · exact ih h hii

theorem SF_leftmost {n : Str} : ∀ {t a b : Str},
    splitFirstP n t = some (a, b) → ∀ j, j < a.length → ¬ n <+: t.drop j := by
  intro t
  induction t with
  | nil => intro a b h; simp [splitFirstP] at h
  | cons c t' ih =>
      intro a b h j hj
      rw [splitFirstP] at h
      split at h
      · simp only [Option.some.injEq, Prod.mk.injEq] at h
        obtain ⟨rfl, rfl⟩ := h
        simp at hj
      · next hp =>
          rw [Option.map_eq_some'] at h
          obtain ⟨⟨a', b'⟩, hrec, heq⟩ := h
          simp only [Prod.mk.injEq] at heq
          obtain ⟨rfl, rfl⟩ := heq
          match j with
          | 0 =>
              rw [List.drop_zero]
              rw [List.isPrefixOf_iff_prefix] at hp
              exact hp
          | Nat.succ j' =>
              rw [List.drop_succ_cons]
              rw [List.length_cons] at hj
              exact ih hrec j' (by omega)

theorem SF_build {n : Str} (hn : n ≠ []) : ∀ {P Q t : Str}, t = P ++ Q →
    n <+: Q → (∀ j, j < P.length → ¬ n <+: t.drop j) →
    splitFirstP n t = some (P, Q) := by
  intro P
  induction P with
  | nil =>
      intro Q t ht hQ _
      rw [ht, List.nil_append]
      exact SF_prefix hn hQ
  | cons c P' ih =>
      intro Q t ht hQ hmin
      match t, ht with
      | _, rfl =>
          rw [List.cons_append, splitFirstP]
          have h0 : ¬ n.isPrefixOf (c :: (P' ++ Q)) = true := by
            rw [List.isPrefixOf_iff_prefix]
            have := hmin 0 (by simp)
            rwa [List.drop_zero, List.cons_append] at this
          rw [if_neg h0]
          rw [ih rfl hQ (fun j hj => by
            have := hmin (j + 1) (by rw [List.length_cons]; omega)
            rwa [List.cons_append, List.drop_succ_cons] at this)]
          rfl

theorem SF_extend {n : Str} (hn : n ≠ []) {t a b : Str} (X : Str)
    (h : splitFirstP n t = some (a, b)) :
    splitFirstP n (t ++ X) = some (a, b ++ X) := by
  obtain ⟨ht, hpre⟩ := splitFirstP_eq h
  have hlen : n.length ≤ b.length := hpre.length_le
  refine SF_build hn (by rw [ht, List.append_assoc]) ?_ ?_
  · exact hpre.trans (List.prefix_append b X)
  · intro j hj hcontra
    have hjt : j < t.length := by
      have := congrArg List.length ht
      rw [List.length_append] at this
      omega
    rw [List.drop_append_eq_append_drop, Nat.sub_eq_zero_of_le
      (Nat.le_of_lt hjt), List.drop_zero] at hcontra
    have hdl : n.length ≤ (t.drop j).length := by
      rw [List.length_drop]
      have := congrArg List.length ht
      rw [List.length_append] at this
      omega
    exact SF_leftmost h j hj (prefix_det hcontra hdl)

/-! ## Junction facts: blocks the passes insert, and their boundary
characters -/

def dvN : Str := strL "<div"

def cdvN : Str := strL "</div>"

theorem no_drop_prefix_head {n B : Str} {c : Char} (hB : B.head? = some c)
    (hc : ∀ j, j < n.length → 0 < j → (n.drop j).head? ≠ some c) :
    ∀ j, 0 < j → j < n.length → ¬ (n.drop j <+: B) := by
  intro j h1 h2 hp
  have hne : n.drop j ≠ [] := by
    intro he
    have hl := congrArg List.length he
    rw [List.length_drop] at hl
    simp at hl
    omega
  exact hc j h2 h1 (by rw [prefix_head? hp hne, hB])

theorem no_take_suffix_last {n A : Str} {c : Char} (hA : A.getLast? = some c)
    (hc : ∀ j, j < n.length → 0 < j → (n.take j).getLast? ≠ some c) :
    ∀ j, 0 < j → j < n.length → ¬ (n.take j <:+ A) := by
  intro j h1 h2 hs
  have hne : n.take j ≠ [] := by
    have hlen : (n.take j).length = j := by
      rw [List.length_take]
      omega
    intro he
    rw [he] at hlen
    simp at hlen
    omega
  exact hc j h2 h1 (by rw [suffix_getLast? hs hne, hA])

theorem digitChar_mem_digits (k : Nat) (hk : k < 10) :
    Nat.digitChar k ∈ strL "0123456789" := by
  interval_cases k <;> decide

theorem toDigitsCore_chars : ∀ (f m : Nat) (ds : Str),
    (∀ c ∈ ds, c ∈ strL "0123456789") →
    ∀ c ∈ Nat.toDigitsCore 10 f m ds, c ∈ strL "0123456789" := by
  intro f
  induction f with
  | zero =>
      intro m ds hds c hc
      rw [Nat.toDigitsCore] at hc
      exact hds c hc
  | succ f ih =>
      intro m ds hds c hc
      rw [Nat.toDigitsCore] at hc
      by_cases hz : m / 10 = 0
      · rw [if_pos hz] at hc
        rcases List.mem_cons.mp hc with rfl | hmem
        · exact digitChar_mem_digits _ (Nat.mod_lt m (by decide))
        · exact hds c hmem
      · rw [if_neg hz] at hc
        refine ih (m / 10) (Nat.digitChar (m % 10) :: ds) ?_ c hc
        intro d hd
        rcases List.mem_cons.mp hd with rfl | hmem
        · exact digitChar_mem_digits _ (Nat.mod_lt m (by decide))
        · exact hds d hmem

theorem natStr_chars (n : Nat) : ∀ c ∈ natStr n, c ∈ strL "0123456789" := by
  rw [natStr, Nat.toDigits]
  exact toDigitsCore_chars (n + 1) n [] (by intro c hc; exact absurd hc (by simp))

theorem toDigitsCore_ne_nil : ∀ (f m : Nat) (ds : Str), ds ≠ [] →
    Nat.toDigitsCore 10 f m ds ≠ [] := by
  intro f
  induction f with
  | zero =>
      intro m ds hds
      rw [Nat.toDigitsCore]
      exact hds
  | succ f ih =>
      intro m ds hds
      rw [Nat.toDigitsCore]
      by_cases hz : m / 10 = 0
      · rw [if_pos hz]
        exact List.cons_ne_nil _ _
      · rw [if_neg hz]
        exact ih (m / 10) _ (List.cons_ne_nil _ _)

theorem natStr_ne_nil (n : Nat) : natStr n ≠ [] := by
  rw [natStr, Nat.toDigits, Nat.toDigitsCore]
  by_cases hz : n / 10 = 0
  · rw [if_pos hz]
    exact List.cons_ne_nil _ _
  · rw [if_neg hz]
    exact toDigitsCore_ne_nil n (n / 10) _ (List.cons_ne_nil _ _)

theorem natStr_head_digit (n : Nat) :
    ∃ c, (natStr n).head? = some c ∧ c ∈ strL "0123456789" := by
  match hd : natStr n with
  | [] => exact absurd hd (natStr_ne_nil n)
  | c :: t =>
      exact ⟨c, rfl, natStr_chars n c (by rw [hd]; exact List.mem_cons_self c t)⟩

theorem natStr_last_digit (n : Nat) :
    ∃ c, (natStr n).getLast? = some c ∧ c ∈ strL "0123456789" := by
  match hl : (natStr n).getLast? with
  | Option.none =>
      exact absurd (List.getLast?_eq_none_iff.mp hl) (natStr_ne_nil n)
  | some c =>
      exact ⟨c, rfl, natStr_chars n c (List.mem_of_getLast?_eq_some hl)⟩

/-! Facts about case variants delivered by `splitFirstCi`. -/

theorem getLast?_lowerStr (m : Str) :
    (lowerStr m).getLast? = m.getLast?.map lowerChar := by
  rw [lowerStr]
  exact List.getLast?_map lowerChar m

theorem lowerStr_head_char {m n : Str} {c : Char} (h : lowerStr m = n)
    (hn : n.head? = some c) (hc : c ∉ strL "abcdefghijklmnopqrstuvwxyz") :
    m.head? = some c := by
  match m, h with
  | [], rfl => simp [lowerStr] at hn
  | d :: m', h =>
      rw [← h] at hn
      rw [show lowerStr (d :: m') = lowerChar d :: lowerStr m' from rfl] at hn
      simp only [List.head?_cons, Option.some.injEq] at hn
      rw [List.head?_cons, lowerChar_eq_nonletter hc hn]

theorem lowerStr_last_char {m n : Str} {c : Char} (h : lowerStr m = n)
    (hn : n.getLast? = some c) (hc : c ∉ strL "abcdefghijklmnopqrstuvwxyz") :
    m.getLast? = some c := by
  rw [← h, getLast?_lowerStr] at hn
  cases hm : m.getLast? with
  | none =>
      rw [hm] at hn
      simp at hn
  | some d =>
      rw [hm] at hn
      simp only [Option.map_some', Option.some.injEq] at hn
      rw [lowerChar_eq_nonletter hc hn]

theorem not_infix_of_lower {n m target : Str} (h : lowerStr m = target)
    (hlow : lowerStr n = n) (hni : ¬ n <:+: target) : ¬ n <:+: m := by
  intro hi
  refine hni ?_
  rw [← h, ← hlow]
  exact infix_lowerStr_of_infix hi

/-! ## Facts about the synthesized navigation block -/

def itemL1 : Str := strL "            <a class=\"nav-item"

def itemL2 : Str := strL "\" data-title=\"Part "

def itemL3 : Str :=
  strL "\" tabindex=\"0\" role=\"button\">\n                <span class=\"nav-icon\">"

def itemL4 : Str := strL "</span>\n                <span>Part "

def itemL5 : Str := strL "</span>\n            </a>"

theorem navItem_eq (i : Nat) : navItem i
    = ((itemL1 ++ (if i = 1 then strL " active" else [])) ++ itemL2)
      ++ (natStr i ++ (((itemL3 ++ navIcon i) ++ itemL4)
        ++ (natStr i ++ itemL5))) := by
  rw [navItem]
  simp only [itemL1, itemL2, itemL3, itemL4, itemL5, List.append_assoc]

theorem navIcon_mem (i : Nat) : navIcon i ∈ navIcons ++ [navIconDefault] := by
  rw [navIcon]
  cases h : navIcons.get? (i - 1) with
  | none => simp
  | some x =>
      simp only [Option.getD_some]
      exact List.mem_append_left _ (List.get?_mem h)

theorem navIcon_cases (i : Nat) :
    navIcon i = strL "\uF8FF\u00FC\u00EC\u00F6" ∨ navIcon i = strL "\uF8FF\u00FC\u00E5\u2265"
    ∨ navIcon i = strL "\uF8FF\u00FC\u00EC\u00F1" ∨ navIcon i = strL "\uF8FF\u00FC\u00ED\u00B0"
    ∨ navIcon i = strL "\uF8FF\u00FC\u00EE\u00A8" ∨ navIcon i = strL "\uF8FF\u00FC\u00EC\u00E4"
    ∨ navIcon i = strL "\uF8FF\u00FC\u00E9\u00D8" ∨ navIcon i = strL "\uF8FF\u00FC\u00EE\u00E7"
    ∨ navIcon i = navIconDefault := by
  have hmem := navIcon_mem i
  rw [navIcons] at hmem
  rcases List.mem_append.mp hmem with h8 | h1
  · rcases List.mem_cons.mp h8 with h | h8
    · exact Or.inl h
    rcases List.mem_cons.mp h8 with h | h8
    · exact Or.inr (Or.inl h)
    rcases List.mem_cons.mp h8 with h | h8
    · exact Or.inr (Or.inr (Or.inl h))
    rcases List.mem_cons.mp h8 with h | h8
    · exact Or.inr (Or.inr (Or.inr (Or.inl h)))
    rcases List.mem_cons.mp h8 with h | h8
    · exact Or.inr (Or.inr (Or.inr (Or.inr (Or.inl h))))
    rcases List.mem_cons.mp h8 with h | h8
    · exact Or.inr (Or.inr (Or.inr (Or.inr (Or.inr (Or.inl h)))))
    rcases List.mem_cons.mp h8 with h | h8
    · exact Or.inr (Or.inr (Or.inr (Or.inr (Or.inr (Or.inr (Or.inl h))))))
    rcases List.mem_cons.mp h8 with h | h8
    · exact Or.inr (Or.inr (Or.inr (Or.inr (Or.inr (Or.inr (Or.inr (Or.inl h)))))))
    · exact absurd h8 (List.not_mem_nil _)
  · rcases List.mem_cons.mp h1 with h | h1
    · exact Or.inr (Or.inr (Or.inr (Or.inr (Or.inr (Or.inr (Or.inr (Or.inr h)))))))
    · exact absurd h1 (List.not_mem_nil _)

/-- Occurrence-count of a `<`-carrying needle across the two digit runs
of a nav entry: zero when the needle avoids all the fixed pieces. -/
theorem countOcc_digit_sandwich {n : Str} (C1 C2 C3 D1 D2 : Str)
    (hd1 : ∀ c ∈ D1, c ∈ strL "0123456789") (hn1 : D1 ≠ [])
    (hd2 : ∀ c ∈ D2, c ∈ strL "0123456789") (hn2 : D2 ≠ [])
    (hdropD : ∀ c ∈ strL "0123456789", ∀ j, j < n.length → 0 < j →
      (n.drop j).head? ≠ some c)
    (htakeD : ∀ c ∈ strL "0123456789", ∀ j, j < n.length → 0 < j →
      (n.take j).getLast? ≠ some c)
    (hC2h : C2.head? = some '"')
    (hdropQ : ∀ j, j < n.length → 0 < j → (n.drop j).head? ≠ some '"')
    (hC3h : C3.head? = some '<')
    (hdropLt : ∀ j, j < n.length → 0 < j → (n.drop j).head? ≠ some '<')
    (hltn : '<' ∈ n)
    (h1 : countOcc n C1 = 0) (h2 : countOcc n C2 = 0) (h3 : countOcc n C3 = 0) :
    countOcc n (C1 ++ (D1 ++ (C2 ++ (D2 ++ C3)))) = 0 := by
  have hDz : ∀ D : Str, (∀ c ∈ D, c ∈ strL "0123456789") → countOcc n D = 0 := by
    intro D hD
    refine countOcc_eq_zero_of_not_infix D (fun hi => ?_)
    exact absurd (hD '<' (hi.subset hltn)) (by decide)
  obtain ⟨c1, hc1, hc1d⟩ : ∃ c, D1.head? = some c ∧ c ∈ strL "0123456789" := by
    match hD : D1, hn1 with
    | c :: t, _ => exact ⟨c, rfl, hd1 c (List.mem_cons_self c t)⟩
  obtain ⟨c2, hc2, hc2d⟩ : ∃ c, D2.head? = some c ∧ c ∈ strL "0123456789" := by
    match hD : D2, hn2 with
    | c :: t, _ => exact ⟨c, rfl, hd2 c (List.mem_cons_self c t)⟩
  obtain ⟨e1, he1, he1d⟩ : ∃ c, D1.getLast? = some c ∧ c ∈ strL "0123456789" := by
    cases hg : D1.getLast? with
    | none => exact absurd (List.getLast?_eq_none_iff.mp hg) hn1
    | some c => exact ⟨c, rfl, hd1 c (List.mem_of_getLast?_eq_some hg)⟩
  rw [countOcc_append_right C1 _ (no_drop_prefix_head
    (by rw [List.head?_append_of_ne_nil _ hn1, hc1]) (hdropD c1 hc1d)), h1]
  rw [countOcc_append_left D1 _ (no_take_suffix_last he1 (htakeD e1 he1d)),
    hDz D1 hd1]
  rw [countOcc_append_right C2 _ (no_drop_prefix_head
    (by rw [List.head?_append_of_ne_nil _ hn2, hc2]) (hdropD c2 hc2d)), h2]
  rw [countOcc_append_right D2 _ (no_drop_prefix_head hC3h hdropLt),
    hDz D2 hd2, h3]

/-- The viewport marker cannot occur in a nav entry shape. -/
theorem marker_digit_sandwich (C1 C2 C3 D1 D2 : Str)
    (hd1 : ∀ c ∈ D1, c ∈ strL "0123456789") (hn1 : D1 ≠ [])
    (hd2 : ∀ c ∈ D2, c ∈ strL "0123456789") (hn2 : D2 ≠ [])
    (h1 : ¬ idMarker <:+: C1) (h2 : ¬ idMarker <:+: C2)
    (h3 : ¬ idMarker <:+: C3) :
    ¬ idMarker <:+: (C1 ++ (D1 ++ (C2 ++ (D2 ++ C3)))) := by
  have hDm : ∀ D : Str, (∀ c ∈ D, c ∈ strL "0123456789") →
      ¬ idMarker <:+: D := by
    intro D hD hi
    exact absurd (hD '"' (hi.subset (by decide))) (by decide)
  obtain ⟨c1, hc1, hc1d⟩ : ∃ c, D1.head? = some c ∧ c ∈ strL "0123456789" := by
    match hD : D1, hn1 with
    | c :: t, _ => exact ⟨c, rfl, hd1 c (List.mem_cons_self c t)⟩
  obtain ⟨c2, hc2, hc2d⟩ : ∃ c, D2.head? = some c ∧ c ∈ strL "0123456789" := by
    match hD : D2, hn2 with
    | c :: t, _ => exact ⟨c, rfl, hd2 c (List.mem_cons_self c t)⟩
  obtain ⟨e1, he1, he1d⟩ : ∃ c, D1.getLast? = some c ∧ c ∈ strL "0123456789" := by
    cases hg : D1.getLast? with
    | none => exact absurd (List.getLast?_eq_none_iff.mp hg) hn1
    | some c => exact ⟨c, rfl, hd1 c (List.mem_of_getLast?_eq_some hg)⟩
  obtain ⟨e2, he2, he2d⟩ : ∃ c, D2.getLast? = some c ∧ c ∈ strL "0123456789" := by
    cases hg : D2.getLast? with
    | none => exact absurd (List.getLast?_eq_none_iff.mp hg) hn2
    | some c => exact ⟨c, rfl, hd2 c (List.mem_of_getLast?_eq_some hg)⟩
  have hdignot : ∀ c ∈ strL "0123456789", c ∉ idMarker.drop 1 ∧
      c ∉ idMarker.dropLast := by decide
  intro hi
  rcases infix_split hi with hA | hrest | ⟨k, hk1, hk2, _, hstr⟩
  · exact h1 hA
  · rcases infix_split hrest with hA | hrest2 | ⟨k, hk1, hk2, hstl, _⟩
    · exact hDm D1 hd1 hA
    · rcases infix_split hrest2 with hA | hrest3 | ⟨k, hk1, hk2, _, hstr⟩
      · exact h2 hA
      · rcases infix_split hrest3 with hA | hrest4 | ⟨k, hk1, hk2, hstl, _⟩
        · exact hDm D2 hd2 hA
        · exact h3 hrest4
        · exact (hdignot e2 he2d).2 (straddle_left_mem he2 hk1 hk2 hstl)
      · have hhd : (D2 ++ C3).head? = some c2 := by
          rw [List.head?_append_of_ne_nil _ hn2, hc2]
        exact (hdignot c2 hc2d).1 (straddle_right_mem hhd hk1 hk2 hstr)
    · exact (hdignot e1 he1d).2 (straddle_left_mem he1 hk1 hk2 hstl)
  · obtain ⟨cd, hcd, hcdd⟩ : ∃ c, (D1 ++ (C2 ++ (D2 ++ C3))).head? = some c
        ∧ c ∈ strL "0123456789" := by
      refine ⟨c1, ?_, hc1d⟩
      rw [List.head?_append_of_ne_nil _ hn1, hc1]
    exact (hdignot cd hcdd).1 (straddle_right_mem hcd hk1 hk2 hstr)

set_option maxRecDepth 10000 in
theorem countOcc_dvN_navItem (i : Nat) : countOcc dvN (navItem i) = 0 := by
  rw [navItem_eq]
  have hmem := navIcon_cases i
  refine countOcc_digit_sandwich _ _ _ _ _ (natStr_chars i) (natStr_ne_nil i)
    (natStr_chars i) (natStr_ne_nil i) (by decide) (by decide)
    (by rw [List.head?_append_of_ne_nil _ (by
          rw [itemL3]
          exact List.append_ne_nil_of_left_ne_nil (by decide) _),
        List.head?_append_of_ne_nil _ (by decide)]
        rfl)
    (by decide)
    (by rw [itemL5]; rfl) (by decide) (by decide) ?_ ?_ (by decide)
  · by_cases hi : i = 1
    · rw [if_pos hi]; decide
    · rw [if_neg hi]; decide
  · rcases hmem with h | h | h | h | h | h | h | h | h <;> rw [h] <;> decide

set_option maxRecDepth 10000 in
theorem countOcc_cdvN_navItem (i : Nat) : countOcc cdvN (navItem i) = 0 := by
  rw [navItem_eq]
  have hmem := navIcon_cases i
  refine countOcc_digit_sandwich _ _ _ _ _ (natStr_chars i) (natStr_ne_nil i)
    (natStr_chars i) (natStr_ne_nil i) (by decide) (by decide)
    (by rw [List.head?_append_of_ne_nil _ (by
          rw [itemL3]
          exact List.append_ne_nil_of_left_ne_nil (by decide) _),
        List.head?_append_of_ne_nil _ (by decide)]
        rfl)
    (by decide)
    (by rw [itemL5]; rfl) (by decide) (by decide) ?_ ?_ (by decide)
  · by_cases hi : i = 1
    · rw [if_pos hi]; decide
    · rw [if_neg hi]; decide
  · rcases hmem with h | h | h | h | h | h | h | h | h <;> rw [h] <;> decide

set_option maxRecDepth 10000 in
theorem marker_navItem (i : Nat) : ¬ idMarker <:+: navItem i := by
  rw [navItem_eq]
  have hmem := navIcon_cases i
  refine marker_digit_sandwich _ _ _ _ _ (natStr_chars i) (natStr_ne_nil i)
    (natStr_chars i) (natStr_ne_nil i) ?_ ?_
    (not_infix_of_isSub (by decide))
  · by_cases hi : i = 1
    · rw [if_pos hi]
      exact not_infix_of_isSub (by decide)
    · rw [if_neg hi]
      exact not_infix_of_isSub (by decide)
  · rcases hmem with h | h | h | h | h | h | h | h | h <;> rw [h] <;>
      exact not_infix_of_isSub (by decide)

/-! ## Assembly facts: the whole navigation block, and the appended
closer blocks -/

theorem navItem_head (i : Nat) : (navItem i).head? = some ' ' := by
  rw [navItem]
  rw [List.head?_append_of_ne_nil _ (List.append_ne_nil_of_left_ne_nil
    (List.append_ne_nil_of_left_ne_nil (List.append_ne_nil_of_left_ne_nil
      (List.append_ne_nil_of_left_ne_nil (List.append_ne_nil_of_left_ne_nil
        (List.append_ne_nil_of_left_ne_nil (List.append_ne_nil_of_left_ne_nil
          (by decide) _) _) _) _) _) _) _)]
  rw [List.head?_append_of_ne_nil _ (List.append_ne_nil_of_left_ne_nil
    (List.append_ne_nil_of_left_ne_nil (List.append_ne_nil_of_left_ne_nil
      (List.append_ne_nil_of_left_ne_nil (List.append_ne_nil_of_left_ne_nil
        (List.append_ne_nil_of_left_ne_nil (by decide) _) _) _) _) _) _)]
  rw [List.head?_append_of_ne_nil _ (List.append_ne_nil_of_left_ne_nil
    (List.append_ne_nil_of_left_ne_nil (List.append_ne_nil_of_left_ne_nil
      (List.append_ne_nil_of_left_ne_nil (List.append_ne_nil_of_left_ne_nil
        (by decide) _) _) _) _) _)]
  rw [List.head?_append_of_ne_nil _ (List.append_ne_nil_of_left_ne_nil
    (List.append_ne_nil_of_left_ne_nil (List.append_ne_nil_of_left_ne_nil
      (List.append_ne_nil_of_left_ne_nil (by decide) _) _) _) _)]
  rw [List.head?_append_of_ne_nil _ (List.append_ne_nil_of_left_ne_nil
    (List.append_ne_nil_of_left_ne_nil (List.append_ne_nil_of_left_ne_nil
      (by decide) _) _) _)]
  rw [List.head?_append_of_ne_nil _ (List.append_ne_nil_of_left_ne_nil
    (List.append_ne_nil_of_left_ne_nil (by decide) _) _)]
  rw [List.head?_append_of_ne_nil _ (List.append_ne_nil_of_left_ne_nil
    (by decide) _)]
  rw [List.head?_append_of_ne_nil _ (by decide)]
  rfl

theorem navItem_ne_nil (i : Nat) : navItem i ≠ [] := by
  intro he
  have := congrArg List.head? he
  rw [navItem_head i] at this
  simp at this

theorem navItem_last (i : Nat) : (navItem i).getLast? = some '>' := by
  rw [navItem]
  rw [List.getLast?_append_of_ne_nil _ (by decide)]
  rfl

theorem joinSep_ne_nil (sep : Str) (l : List Str) (hl : l ≠ [])
    (hx : ∀ x ∈ l, x ≠ []) : joinSep sep l ≠ [] := by
  match l, hl with
  | [x], _ => exact hx x (List.mem_cons_self x [])
  | x :: y :: r, _ =>
      rw [joinSep_cons _ _ _ (List.cons_ne_nil _ _)]
      intro he
      rcases List.append_eq_nil.mp he with ⟨h1, h2⟩
      rcases List.append_eq_nil.mp h1 with ⟨h3, _⟩
      exact hx x (List.mem_cons_self x _) h3

theorem joinSep_items_head (l : List Nat) (hl : l ≠ []) :
    (joinSep (strL "\n") (l.map navItem)).head? = some ' ' := by
  match l, hl with
  | [i], _ => exact navItem_head i
  | i :: j :: r, _ =>
      rw [List.map_cons, joinSep_cons _ _ _ (by simp)]
      rw [List.append_assoc,
        List.head?_append_of_ne_nil _ (navItem_ne_nil i)]
      exact navItem_head i

theorem joinSep_items_last (l : List Nat) (hl : l ≠ []) :
    (joinSep (strL "\n") (l.map navItem)).getLast? = some '>' := by
  induction l with
  | nil => exact absurd rfl hl
  | cons i r ih =>
      match r with
      | [] => exact navItem_last i
      | j :: r' =>
          rw [List.map_cons, joinSep_cons _ _ _ (by simp)]
          rw [List.getLast?_append_of_ne_nil _
            (joinSep_ne_nil _ _ (by simp) (by
              intro x hxm
              rw [List.map_cons] at hxm
              rcases List.mem_cons.mp hxm with rfl | hxm2
              · exact navItem_ne_nil j
              · obtain ⟨k, _, rfl⟩ := List.mem_map.mp hxm2
                exact navItem_ne_nil k))]
          exact ih (by simp)

theorem countOcc_items (n : Str) (hhead : n.head? = some '<')
    (hdropNL : ∀ j, j < n.length → 0 < j → (n.drop j).head? ≠ some '\n')
    (hitem : ∀ i, countOcc n (navItem i) = 0) :
    ∀ l : List Nat, countOcc n (joinSep (strL "\n") (l.map navItem)) = 0 := by
  intro l
  induction l with
  | nil => rfl
  | cons i r ih =>
      match r with
      | [] => exact hitem i
      | j :: r' =>
          rw [List.map_cons, joinSep_cons _ _ _ (by simp), List.append_assoc]
          rw [countOcc_append_right (navItem i) _ (no_drop_prefix_head
            (by rw [List.head?_append_of_ne_nil _ (by decide)]; rfl) hdropNL)]
          rw [hitem i,
            show ((strL "\n") ++ joinSep (strL "\n")
              ((j :: r').map navItem) : Str)
              = '\n' :: joinSep (strL "\n") ((j :: r').map navItem) from rfl,
            countOcc_cons_head_ne hhead (by decide), ih]

theorem marker_items : ∀ l : List Nat,
    ¬ idMarker <:+: joinSep (strL "\n") (l.map navItem) := by
  intro l
  induction l with
  | nil =>
      rw [List.map_nil]
      intro h
      exact absurd (List.infix_nil.mp h) (by decide)
  | cons i r ih =>
      match r with
      | [] => exact marker_navItem i
      | j :: r' =>
          rw [List.map_cons, joinSep_cons _ _ _ (by simp), List.append_assoc]
          intro hi
          rcases infix_split hi with hA | hrest | ⟨k, hk1, hk2, _, hstr⟩
          · exact marker_navItem i hA
          · rw [show ((strL "\n") ++ joinSep (strL "\n")
                ((j :: r').map navItem) : Str)
                = '\n' :: joinSep (strL "\n") ((j :: r').map navItem) from rfl]
              at hrest
            rcases List.infix_cons_iff.mp hrest with hp | hii
            · rcases List.cons_prefix_cons.mp hp with ⟨he, _⟩
              exact absurd he (by decide)
            · rw [List.map_cons] at ih
              exact ih hii
          · have hhd : ((strL "\n") ++ joinSep (strL "\n")
                ((j :: r').map navItem)).head? = some '\n' := by
              rw [List.head?_append_of_ne_nil _ (by decide)]
              rfl
            have := straddle_right_mem hhd hk1 hk2 hstr
            exact absurd this (by decide)

def navL1 : Str :=
  strL "\n    <nav class=\"bottom-nav\">\n        <div class=\"nav-track\" id=\"nav-track\">\n"

def navL2 : Str := strL "\n        </div>\n    </nav>\n"

theorem navHtml_eq (tc : Nat) : navHtml tc
    = navL1 ++ (joinSep (strL "\n") ((List.range' 1 tc).map navItem) ++ navL2) := by
  rw [navHtml, navL1, navL2, List.append_assoc]

theorem navHtml_head (tc : Nat) : (navHtml tc).head? = some '\n' := by
  rw [navHtml_eq, List.head?_append_of_ne_nil _ (by rw [navL1]; decide)]
  rw [navL1]
  rfl

theorem navHtml_last (tc : Nat) : (navHtml tc).getLast? = some '\n' := by
  rw [navHtml_eq]
  rw [List.getLast?_append_of_ne_nil _ (show joinSep (strL "\n")
    ((List.range' 1 tc).map navItem) ++ navL2 ≠ [] from by
      intro he
      exact absurd (List.append_eq_nil.mp he).2 (by rw [navL2]; decide))]
  rw [List.getLast?_append_of_ne_nil _ (by rw [navL2]; decide)]
  rw [navL2]
  decide

theorem navHtml_ne_nil (tc : Nat) : navHtml tc ≠ [] := by
  intro he
  have := congrArg List.head? he
  rw [navHtml_head tc] at this
  simp at this

theorem range'_ne_nil (tc : Nat) (h : tc ≠ 0) : List.range' 1 tc ≠ [] := by
  intro he
  have hl := congrArg List.length he
  rw [List.length_range'] at hl
  simp at hl
  exact h hl

theorem items_ne_nil (tc : Nat) (h : tc ≠ 0) :
    joinSep (strL "\n") ((List.range' 1 tc).map navItem) ≠ [] := by
  refine joinSep_ne_nil _ _ ?_ ?_
  · intro he
    rw [List.map_eq_nil] at he
    exact range'_ne_nil tc h he
  · intro x hx
    obtain ⟨i, _, rfl⟩ := List.mem_map.mp hx
    exact navItem_ne_nil i

set_option maxRecDepth 10000 in
theorem countOcc_navHtml_dv (tc : Nat) : countOcc dvN (navHtml tc) = 1 := by
  by_cases h0 : tc = 0
  · subst h0
    decide
  · rw [navHtml_eq]
    have hl := range'_ne_nil tc h0
    rw [countOcc_append_right navL1 _ (no_drop_prefix_head
      (by rw [List.head?_append_of_ne_nil _ (items_ne_nil tc h0)]
          exact joinSep_items_head _ hl)
      (by decide))]
    rw [countOcc_append_left _ navL2 (no_take_suffix_last
      (joinSep_items_last _ hl) (by decide))]
    rw [countOcc_items dvN (by decide) (by decide) countOcc_dvN_navItem]
    rw [show countOcc dvN navL1 = 1 from by decide,
      show countOcc dvN navL2 = 0 from by decide]

set_option maxRecDepth 10000 in
theorem countOcc_navHtml_cdv (tc : Nat) : countOcc cdvN (navHtml tc) = 1 := by
  by_cases h0 : tc = 0
  · subst h0
    decide
  · rw [navHtml_eq]
    have hl := range'_ne_nil tc h0
    rw [countOcc_append_right navL1 _ (no_drop_prefix_head
      (by rw [List.head?_append_of_ne_nil _ (items_ne_nil tc h0)]
          exact joinSep_items_head _ hl)
      (by decide))]
    rw [countOcc_append_left _ navL2 (no_take_suffix_last
      (joinSep_items_last _ hl) (by decide))]
    rw [countOcc_items cdvN (by decide) (by decide) countOcc_cdvN_navItem]
    rw [show countOcc cdvN navL1 = 0 from by decide,
      show countOcc cdvN navL2 = 1 from by decide]

set_option maxRecDepth 10000 in
theorem marker_navHtml (tc : Nat) : ¬ idMarker <:+: navHtml tc := by
  by_cases h0 : tc = 0
  · subst h0
    exact not_infix_of_isSub (by decide)
  · rw [navHtml_eq]
    have hl := range'_ne_nil tc h0
    intro hi
    rcases infix_split hi with hA | hrest | ⟨k, hk1, hk2, _, hstr⟩
    · exact not_infix_of_isSub (show isSub idMarker navL1 = false from by decide) hA
    · rcases infix_split hrest with hA | hrest2 | ⟨k, hk1, hk2, hstl, _⟩
      · exact marker_items _ hA
      · exact not_infix_of_isSub (show isSub idMarker navL2 = false from by decide)
          hrest2
      · have := straddle_left_mem (joinSep_items_last _ hl) hk1 hk2 hstl
        exact absurd this (by decide)
    · have hhd : (joinSep (strL "\n") ((List.range' 1 tc).map navItem)
          ++ navL2).head? = some ' ' := by
        rw [List.head?_append_of_ne_nil _ (items_ne_nil tc h0)]
        exact joinSep_items_head _ hl
      have := straddle_right_mem hhd hk1 hk2 hstr
      exact absurd this (by decide)

/-! ## The viewport closer tail -/

def tailU : Str := strL "        </div>\n"

def tailW : Str := strL "    </div>\n"

def tailBlock (k : Nat) : Str := strL "\n" ++ ((List.replicate k tailU).flatten ++ tailW)

theorem tailFlat_head (k : Nat) :
    ((List.replicate k tailU).flatten ++ tailW).head? = some ' ' := by
  match k with
  | 0 => rfl
  | Nat.succ k' =>
      rw [List.replicate_succ, List.flatten_cons, List.append_assoc,
        List.head?_append_of_ne_nil _ (by rw [tailU]; decide)]
      rfl

theorem tailFlat_counts (k : Nat) :
    countOcc dvN ((List.replicate k tailU).flatten ++ tailW) = 0
    ∧ countOcc cdvN ((List.replicate k tailU).flatten ++ tailW) = k + 1 := by
  induction k with
  | zero =>
      rw [List.replicate_zero, List.flatten_nil, List.nil_append]
      exact ⟨by decide, by decide⟩
  | succ k ih =>
      rw [List.replicate_succ, List.flatten_cons, List.append_assoc]
      constructor
      · rw [countOcc_append_right tailU _ (no_drop_prefix_head (tailFlat_head k)
          (by decide)), ih.1]
        decide
      · rw [countOcc_append_right tailU _ (no_drop_prefix_head (tailFlat_head k)
          (by decide)), ih.2]
        rw [show countOcc cdvN tailU = 1 from by decide]
        omega

theorem tailBlock_head (k : Nat) : (tailBlock k).head? = some '\n' := rfl

theorem tailBlock_last (k : Nat) : (tailBlock k).getLast? = some '\n' := by
  rw [tailBlock, List.getLast?_append_of_ne_nil _ (show
    (List.replicate k tailU).flatten ++ tailW ≠ [] from by
      intro he
      exact absurd (List.append_eq_nil.mp he).2 (by rw [tailW]; decide))]
  rw [List.getLast?_append_of_ne_nil _ (by rw [tailW]; decide), tailW]
  decide

theorem tailBlock_counts (k : Nat) :
    countOcc dvN (tailBlock k) = 0 ∧ countOcc cdvN (tailBlock k) = k + 1 := by
  rw [show tailBlock k
    = '\n' :: ((List.replicate k tailU).flatten ++ tailW) from rfl]
  rw [countOcc_cons_head_ne (show dvN.head? = some '<' from rfl) (by decide),
    countOcc_cons_head_ne (show cdvN.head? = some '<' from rfl) (by decide)]
  exact tailFlat_counts k

theorem tailBlock_chars (k : Nat) : ∀ c ∈ tailBlock k, c ∈ strL " </div>\n" := by
  have hU : ∀ c ∈ tailU, c ∈ strL " </div>\n" := by decide
  have hW : ∀ c ∈ tailW, c ∈ strL " </div>\n" := by decide
  have hN : ∀ c ∈ strL "\n", c ∈ strL " </div>\n" := by decide
  intro c hc
  rw [tailBlock] at hc
  rcases List.mem_append.mp hc with h1 | h2
  · exact hN c h1
  · rcases List.mem_append.mp h2 with h3 | h4
    · obtain ⟨l, hl, hcl⟩ := List.mem_flatten.mp h3
      rw [List.eq_of_mem_replicate hl] at hcl
      exact hU c hcl
    · exact hW c h4

theorem marker_tailBlock (k : Nat) : ¬ idMarker <:+: tailBlock k := by
  intro hi
  have hq : '"' ∈ tailBlock k := hi.subset (by decide)
  exact absurd (tailBlock_chars k '"' hq) (by decide)

/-! ## The viewport pass no-op condition -/

/-- Pass 2 leaves `t` unchanged when, at the first marker occurrence,
the index is zero or the div deficit is not positive. -/
def vpOK (t : Str) : Prop :=
  ∀ a b, splitFirstP idMarker t = some (a, b) →
    a = [] ∨ ¬ (pyCount (strL "</div>") b < pyCount (strL "<div") b)

theorem vp_noop {t : Str} (h : vpOK t) : viewportPass t = t := by
  rw [viewportPass]
  split
  · split
    · next a b hsp =>
        by_cases ha : a = []
        · rw [if_neg (fun hne => hne ha)]
        · rcases h a b hsp with h1 | h1
          · exact absurd h1 ha
          · rw [if_pos ha, if_neg h1]
    · rfl
  · rfl

theorem vpOK_of_no_marker {t : Str} (h : ¬ idMarker <:+: t) : vpOK t := by
  intro a b hsp
  rw [ SF_none_of_not_infix t h] at hsp
  exact absurd hsp (by simp)

theorem pyCount_dv_eq (s : Str) : pyCount (strL "<div") s = countOcc dvN s := by
  have hd : ∀ j, j < dvN.length → 0 < j → ¬ (dvN.drop j <+: dvN) := by decide
  exact pyCount_eq_countOcc (by decide) (fun j h1 h2 => hd j h2 h1) s

theorem pyCount_cdv_eq (s : Str) : pyCount (strL "</div>") s = countOcc cdvN s := by
  have hd : ∀ j, j < cdvN.length → 0 < j → ¬ (cdvN.drop j <+: cdvN) := by decide
  exact pyCount_eq_countOcc (by decide) (fun j h1 h2 => hd j h2 h1) s

/-- Count decomposition over `W ++ (seg ++ B)`, with the junctions
refuted from boundary characters.  The needles of interest start with
`<`, contain no newline or quote, and their proper prefixes end in none
of `>`, `"`, newline. -/
theorem countOcc_W_seg_B {n : Str} (W seg B : Str)
    (hdnl : ∀ j, j < n.length → 0 < j → (n.drop j).head? ≠ some '\n')
    (hdlt : ∀ j, j < n.length → 0 < j → (n.drop j).head? ≠ some '<')
    (htgt : ∀ j, j < n.length → 0 < j → (n.take j).getLast? ≠ some '>')
    (htq : ∀ j, j < n.length → 0 < j → (n.take j).getLast? ≠ some '"')
    (htnl : ∀ j, j < n.length → 0 < j → (n.take j).getLast? ≠ some '\n')
    (hj1 : (∃ c, W.getLast? = some c ∧ (c = '>' ∨ c = '"' ∨ c = '\n'))
      ∨ (∃ c, (seg ++ B).head? = some c ∧ (c = '<' ∨ c = '\n'))
      ∨ seg ++ B = [])
    (hj2 : (∃ c, seg.getLast? = some c ∧ (c = '>' ∨ c = '\n')) ∨ seg = []) :
    countOcc n (W ++ (seg ++ B))
      = countOcc n W + (countOcc n seg + countOcc n B) := by
  have hstep2 : countOcc n (seg ++ B) = countOcc n seg + countOcc n B := by
    rcases hj2 with ⟨c, hc, hcv⟩ | rfl
    · refine countOcc_append_left seg B (no_take_suffix_last hc ?_)
      rcases hcv with rfl | rfl
      · exact htgt
      · exact htnl
    · simp [countOcc]
  rcases hj1 with ⟨c, hc, hcv⟩ | ⟨c, hc, hcv⟩ | hemp
  · rw [countOcc_append_left W _ (no_take_suffix_last hc (by
      rcases hcv with rfl | rfl | rfl
      · exact htgt
      · exact htq
      · exact htnl)), hstep2]
  · rw [countOcc_append_right W _ (no_drop_prefix_head hc (by
      rcases hcv with rfl | rfl
      · exact hdlt
      · exact hdnl)), hstep2]
  · rcases List.append_eq_nil.mp hemp with ⟨rfl, rfl⟩
    simp [countOcc]

theorem vpOK_viewportPass (s : Str) : vpOK (viewportPass s) := by
  rw [viewportPass]
  split
  · split
    · next a b hsp =>
        by_cases ha : a = []
        · rw [if_neg (fun hne => hne ha)]
          intro a' b' hsp'
          rw [hsp] at hsp'
          simp only [Option.some.injEq, Prod.mk.injEq] at hsp'
          exact Or.inl (hsp'.1 ▸ ha)
        · rw [if_pos ha]
          split
          · next hfire =>
              set k := pyCount (strL "<div") b - pyCount (strL "</div>") b with hk
              have hshape : s ++ strL "\n"
                  ++ (List.replicate k (strL "        </div>\n")).flatten
                  ++ strL "    </div>\n" = s ++ tailBlock k := by
                rw [tailBlock, tailU, tailW]
                simp [List.append_assoc]
              rw [hshape]
              intro a' b' hsp'
              rw [SF_extend (by decide) (tailBlock k) hsp] at hsp'
              simp only [Option.some.injEq, Prod.mk.injEq] at hsp'
              obtain ⟨h1, h2⟩ := hsp'
              subst h1
              subst h2
              refine Or.inr ?_
              rw [pyCount_dv_eq, pyCount_cdv_eq,
                countOcc_append_right b _ (no_drop_prefix_head (tailBlock_head k)
                  (by decide)),
                countOcc_append_right b _ (no_drop_prefix_head (tailBlock_head k)
                  (by decide))]
              have ht := tailBlock_counts k
              rw [ht.1, ht.2]
              rw [pyCount_dv_eq, pyCount_cdv_eq] at hk hfire
              omega
          · next hnof =>
              intro a' b' hsp'
              rw [hsp] at hsp'
              simp only [Option.some.injEq, Prod.mk.injEq] at hsp'
              obtain ⟨h1, h2⟩ := hsp'
              subst h1
              subst h2
              exact Or.inr hnof
    · next hsp =>
        intro a' b' hsp'
        rw [hsp] at hsp'
        exact absurd hsp' (by simp)
  · next hcv =>
      refine vpOK_of_no_marker (fun hi => ?_)
      have hcvi : strL "content-viewport" <:+: idMarker := by decide
      exact hcv (by
        rw [ isSub_iff_infix]
        exact hcvi.trans hi)

theorem drop_append_le {X : Str} (Y : Str) {j : Nat} (h : j ≤ X.length) :
    (X ++ Y).drop j = X.drop j ++ Y := by
  rw [List.drop_append_eq_append_drop, Nat.sub_eq_zero_of_le h, List.drop_zero]

theorem drop_concat3 (X Y : Str) (r : Nat) :
    (X ++ Y).drop (X.length + r) = Y.drop r := by
  rw [List.drop_append_eq_append_drop, List.drop_eq_nil_of_le (by omega),
    List.nil_append, Nat.add_sub_cancel_left]

/-- Master preservation lemma: replacing the segment `mseg` (empty, or a
case variant of `</body>`) by an inserted block `nseg` (newline-headed,
marker-free, div-balanced) keeps the viewport no-op condition.  The
junction evidence `hj` is what each branch of the passes supplies: a `>`
just before the insertion point (strategy 1), a `<` right after it
(strategies 2/3 and the script insert), or an append at the end. -/
theorem vpOK_replace {C mseg nseg B : Str}
    (hok : vpOK (C ++ (mseg ++ B)))
    (hm : mseg = [] ∨ (mseg.head? = some '<' ∧ mseg.getLast? = some '>'
      ∧ ¬ idMarker <:+: mseg ∧ countOcc dvN mseg = 0 ∧ countOcc cdvN mseg = 0))
    (hnhead : nseg.head? = some '\n')
    (hnlast : nseg.getLast? = some '\n' ∨ nseg.getLast? = some '>')
    (hnmark : ¬ idMarker <:+: nseg)
    (hncnt : countOcc dvN nseg = countOcc cdvN nseg)
    (hj : (C ≠ [] ∧ C.getLast? = some '>') ∨ (mseg ++ B).head? = some '<'
      ∨ mseg ++ B = []) :
    vpOK (C ++ (nseg ++ B)) := by
  have hM21 : idMarker.length = 21 := by decide
  have hnne : nseg ≠ [] := by
    intro he
    rw [he] at hnhead
    simp at hnhead
  have hmdv : countOcc dvN mseg = 0 := by
    rcases hm with rfl | ⟨_, _, _, h1, _⟩
    · rfl
    · exact h1
  have hmcdv : countOcc cdvN mseg = 0 := by
    rcases hm with rfl | ⟨_, _, _, _, h1⟩
    · rfl
    · exact h1
  have hj2m : (∃ c, mseg.getLast? = some c ∧ (c = '>' ∨ c = '\n'))
      ∨ mseg = [] := by
    rcases hm with rfl | ⟨_, hml, _, _, _⟩
    · exact Or.inr rfl
    · exact Or.inl ⟨'>', hml, Or.inl rfl⟩
  have hj2n : (∃ c, nseg.getLast? = some c ∧ (c = '>' ∨ c = '\n'))
      ∨ nseg = [] := by
    rcases hnlast with hl | hl
    · exact Or.inl ⟨'\n', hl, Or.inr rfl⟩
    · exact Or.inl ⟨'>', hl, Or.inl rfl⟩
  have hj1n : ∃ c, (nseg ++ B).head? = some c ∧ (c = '<' ∨ c = '\n') :=
    ⟨'\n', by rw [List.head?_append_of_ne_nil _ hnne, hnhead], Or.inr rfl⟩
  cases hsp : splitFirstP idMarker (C ++ (mseg ++ B)) with
  | none =>
      have hno : ¬ idMarker <:+: C ++ (mseg ++ B) := SF_none_sound (by decide) hsp
      refine vpOK_of_no_marker (fun hi => ?_)
      rcases infix_split hi with hC | hrest | ⟨k, hk1, hk2, _, hstr⟩
      · exact hno (infix_left _ hC)
      · rcases infix_split hrest with hN | hB2 | ⟨k, hk1, hk2, hstl, _⟩
        · exact hnmark hN
        · exact hno (infix_right _ (infix_right _ hB2))
        · rcases hnlast with hl | hl
          · exact absurd (straddle_left_mem hl hk1 hk2 hstl) (by decide)
          · exact absurd (straddle_left_mem hl hk1 hk2 hstl) (by decide)
      · have hhd : (nseg ++ B).head? = some '\n' := by
          rw [List.head?_append_of_ne_nil _ hnne, hnhead]
        exact absurd (straddle_right_mem hhd hk1 hk2 hstr) (by decide)
  | some ab =>
      obtain ⟨a, b⟩ := ab
      obtain ⟨ht, hpre⟩ := splitFirstP_eq hsp
      rcases hok a b hsp with ha0 | hcnt
      · subst ha0
        rw [List.nil_append] at ht
        have hMt : idMarker <+: C ++ (mseg ++ B) := by
          rw [ht]
          exact hpre
        by_cases hlen : idMarker.length ≤ C.length
        · have hmc : idMarker <+: C := prefix_det hMt hlen
          have hmc' : idMarker <+: C ++ (nseg ++ B) :=
            hmc.trans (List.prefix_append _ _)
          intro a' b' hsp'
          rw [ SF_prefix (by decide) hmc'] at hsp'
          simp only [Option.some.injEq, Prod.mk.injEq] at hsp'
          exact Or.inl hsp'.1.symm
        · push_neg at hlen
          exfalso
          rcases hj with ⟨hCne, hClast⟩ | hch | hemp
          · exact absurd (cross_left_mem hMt hCne (Nat.le_of_lt hlen) hClast)
              (by decide)
          · exact absurd (cross_right_mem hMt hlen hch) (by decide)
          · rw [hemp, List.append_nil] at hMt
            have := hMt.length_le
            omega
      · by_cases hI : a.length + idMarker.length ≤ C.length
        · obtain ⟨w, hCw, hbw⟩ := two_splits ht rfl (by omega)
          have hwlen : idMarker.length ≤ w.length := by
            have hc2 := congrArg List.length hCw
            rw [List.length_append] at hc2
            omega
          have hMw : idMarker <+: w := by
            refine prefix_det (V := mseg ++ B) ?_ hwlen
            rw [← hbw]
            exact hpre
          obtain ⟨w₂, hw2⟩ := hMw
          have hbeq : b = (idMarker ++ w₂) ++ (mseg ++ B) := by
            rw [hbw, ← hw2]
          have ht'eq : C ++ (nseg ++ B)
              = a ++ ((idMarker ++ w₂) ++ (nseg ++ B)) := by
            rw [hCw, ← hw2, List.append_assoc]
          have hmin : ∀ j, j < a.length →
              ¬ idMarker <+: (C ++ (nseg ++ B)).drop j := by
            intro j hja hcon
            have hP21 : 21 ≤ (a.drop j ++ (idMarker ++ w₂)).length := by
              rw [List.length_append, List.length_append, List.length_drop,
                hM21]
              omega
            have htake : ∀ Z : Str,
                ((a.drop j ++ (idMarker ++ w₂)) ++ Z).take 21
                = (a.drop j ++ (idMarker ++ w₂)).take 21 := by
              intro Z
              rw [List.take_append_eq_append_take,
                Nat.sub_eq_zero_of_le hP21, List.take_zero, List.append_nil]
            have hdr' : (C ++ (nseg ++ B)).drop j
                = (a.drop j ++ (idMarker ++ w₂)) ++ (nseg ++ B) := by
              rw [ht'eq, drop_append_le _ (by omega), ← List.append_assoc]
            rw [hdr'] at hcon
            refine SF_leftmost hsp j hja ?_
            have hdr2 : (C ++ (mseg ++ B)).drop j
                = (a.drop j ++ (idMarker ++ w₂)) ++ (mseg ++ B) := by
              rw [ht, hbeq, drop_append_le _ (by omega), ← List.append_assoc]
            rw [hdr2]
            rw [List.prefix_iff_eq_take, hM21, htake]
            rw [List.prefix_iff_eq_take, hM21, htake] at hcon
            exact hcon
          have hsp2 : splitFirstP idMarker (C ++ (nseg ++ B))
              = some (a, (idMarker ++ w₂) ++ (nseg ++ B)) := by
            refine SF_build (by decide) ht'eq ?_ hmin
            exact (List.prefix_append _ _).trans (List.prefix_append _ _)
          intro a' b' hq
          rw [hsp2] at hq
          simp only [Option.some.injEq, Prod.mk.injEq] at hq
          obtain ⟨h1, h2⟩ := hq
          subst h1
          subst h2
          refine Or.inr ?_
          have hj1b : (∃ c, (idMarker ++ w₂).getLast? = some c
              ∧ (c = '>' ∨ c = '"' ∨ c = '\n'))
              ∨ (∃ c, (mseg ++ B).head? = some c ∧ (c = '<' ∨ c = '\n'))
              ∨ mseg ++ B = [] := by
            rcases hj with ⟨hCne, hClast⟩ | hch | hemp
            · by_cases hw2e : w₂ = []
              · subst hw2e
                exact Or.inl ⟨'"', by rw [List.append_nil]; decide,
                  Or.inr (Or.inl rfl)⟩
              · refine Or.inl ⟨'>', ?_, Or.inl rfl⟩
                rw [List.getLast?_append_of_ne_nil _ hw2e]
                have hC2 : C.getLast? = w₂.getLast? := by
                  rw [hCw, ← hw2,
                    List.getLast?_append_of_ne_nil _ (show idMarker ++ w₂ ≠ []
                      from fun he =>
                        absurd (List.append_eq_nil.mp he).1 (by decide)),
                    List.getLast?_append_of_ne_nil _ hw2e]
                rw [← hC2, hClast]
            · exact Or.inr (Or.inl ⟨'<', hch, Or.inl rfl⟩)
            · exact Or.inr (Or.inr hemp)
          rw [pyCount_dv_eq, pyCount_cdv_eq]
          rw [countOcc_W_seg_B (n := dvN) _ nseg B (by decide) (by decide)
            (by decide) (by decide) (by decide) (Or.inr (Or.inl hj1n)) hj2n]
          rw [countOcc_W_seg_B (n := cdvN) _ nseg B (by decide) (by decide)
            (by decide) (by decide) (by decide) (Or.inr (Or.inl hj1n)) hj2n]
          rw [pyCount_dv_eq, pyCount_cdv_eq, hbeq] at hcnt
          rw [countOcc_W_seg_B (n := dvN) _ mseg B (by decide) (by decide)
            (by decide) (by decide) (by decide) hj1b hj2m] at hcnt
          rw [countOcc_W_seg_B (n := cdvN) _ mseg B (by decide) (by decide)
            (by decide) (by decide) (by decide) hj1b hj2m] at hcnt
          rw [hmdv, hmcdv] at hcnt
          omega
        · by_cases hII : C.length ≤ a.length
          · obtain ⟨v, hav, hBv⟩ : ∃ v, a = C ++ (mseg ++ v) ∧ B = v ++ b := by
              obtain ⟨w, haw, hwb⟩ := two_splits rfl ht hII
              rcases hm with rfl | ⟨hmh, hml, hmm2, _, _⟩
              · rw [List.nil_append] at hwb
                exact ⟨w, by rw [haw, List.nil_append], hwb⟩
              · by_cases hlm : mseg.length ≤ w.length
                · obtain ⟨u, hwu, hBu⟩ := two_splits rfl hwb hlm
                  exact ⟨u, by rw [haw, hwu], hBu⟩
                · exfalso
                  obtain ⟨u, hmu, hbu⟩ := two_splits hwb rfl (by omega)
                  have hune : u ≠ [] := by
                    intro he
                    subst he
                    rw [List.append_nil] at hmu
                    rw [hmu] at hlm
                    exact hlm (Nat.le_refl _)
                  by_cases h21 : idMarker.length ≤ u.length
                  · refine hmm2 ?_
                    have hMu : idMarker <+: u := by
                      refine prefix_det (V := B) ?_ h21
                      rw [← hbu]
                      exact hpre
                    exact hMu.isInfix.trans
                      ⟨w, [], by rw [hmu, List.append_nil]⟩
                  · push_neg at h21
                    have hpre2 : idMarker <+: u ++ B := by
                      rw [← hbu]
                      exact hpre
                    have hcross := (prefix_cross hpre2 h21).1
                    have hul : u.getLast? = some '>' :=
                      (suffix_getLast? (⟨w, hmu.symm⟩ : u <:+ mseg) hune).trans
                        hml
                    have hgt : '>' ∈ idMarker := by
                      have hu_take : u = idMarker.take u.length :=
                        List.prefix_iff_eq_take.mp hcross
                      exact List.take_subset _ _
                        (hu_take ▸ List.mem_of_getLast?_eq_some hul)
                    exact absurd hgt (by decide)
            have halen : a.length = C.length + (mseg.length + v.length) := by
              rw [hav, List.length_append, List.length_append]
            have ht'eq : C ++ (nseg ++ B) = (C ++ (nseg ++ v)) ++ b := by
              rw [hBv]
              simp [List.append_assoc]
            have hmin : ∀ j, j < (C ++ (nseg ++ v)).length →
                ¬ idMarker <+: (C ++ (nseg ++ B)).drop j := by
              intro j hjP hcon
              rw [List.length_append, List.length_append] at hjP
              by_cases hjC : j < C.length
              · have hdr : (C ++ (nseg ++ B)).drop j
                    = C.drop j ++ (nseg ++ B) := drop_append_le _ (by omega)
                rw [hdr] at hcon
                by_cases hfit : idMarker.length ≤ C.length - j
                · have hMC : idMarker <+: C.drop j :=
                    prefix_det hcon (by rw [List.length_drop]; omega)
                  refine SF_leftmost hsp j (by omega) ?_
                  rw [drop_append_le _ (by omega)]
                  exact hMC.trans (List.prefix_append _ _)
                · push_neg at hfit
                  have hcr := cross_right_mem hcon
                    (by rw [List.length_drop]; omega)
                    (by rw [List.head?_append_of_ne_nil _ hnne, hnhead])
                  exact absurd hcr (by decide)
              · push_neg at hjC
                obtain ⟨r, rfl⟩ : ∃ r, j = C.length + r :=
                  ⟨j - C.length, by omega⟩
                by_cases hjN : r < nseg.length
                · have hdr : (C ++ (nseg ++ B)).drop (C.length + r)
                      = nseg.drop r ++ (v ++ b) := by
                    rw [drop_concat3, hBv, drop_append_le _ (by omega)]
                  rw [hdr] at hcon
                  by_cases hfit : idMarker.length ≤ nseg.length - r
                  · have hMn : idMarker <+: nseg.drop r :=
                      prefix_det hcon (by rw [List.length_drop]; omega)
                    exact hnmark (hMn.isInfix.trans
                      (List.drop_suffix _ _).isInfix)
                  · push_neg at hfit
                    have hUne : nseg.drop r ≠ [] := by
                      intro he
                      have hl2 := congrArg List.length he
                      rw [List.length_drop] at hl2
                      simp at hl2
                      omega
                    have hUl : (nseg.drop r).getLast? = nseg.getLast? :=
                      suffix_getLast? (List.drop_suffix _ _) hUne
                    rcases hnlast with hl | hl
                    · exact absurd (cross_left_mem hcon hUne
                        (by rw [List.length_drop]; omega)
                        (by rw [hUl, hl])) (by decide)
                    · exact absurd (cross_left_mem hcon hUne
                        (by rw [List.length_drop]; omega)
                        (by rw [hUl, hl])) (by decide)
                · push_neg at hjN
                  obtain ⟨q, rfl⟩ : ∃ q, r = nseg.length + q :=
                    ⟨r - nseg.length, by omega⟩
                  have hdr : (C ++ (nseg ++ B)).drop
                      (C.length + (nseg.length + q)) = v.drop q ++ b := by
                    rw [drop_concat3, drop_concat3, hBv,
                      drop_append_le _ (by omega)]
                  rw [hdr] at hcon
                  refine SF_leftmost hsp (C.length + (mseg.length + q))
                    (by omega) ?_
                  have hdr2 : (C ++ (mseg ++ B)).drop
                      (C.length + (mseg.length + q)) = v.drop q ++ b := by
                    rw [drop_concat3, drop_concat3, hBv,
                      drop_append_le _ (by omega)]
                  rw [hdr2]
                  exact hcon
            have hsp2 : splitFirstP idMarker (C ++ (nseg ++ B))
                = some (C ++ (nseg ++ v), b) :=
              SF_build (by decide) ht'eq hpre hmin
            intro a' b' hq
            rw [hsp2] at hq
            simp only [Option.some.injEq, Prod.mk.injEq] at hq
            obtain ⟨h1, h2⟩ := hq
            subst h1
            subst h2
            exact Or.inr hcnt
          · push_neg at hI hII
            exfalso
            obtain ⟨w, hCw, hbw⟩ := two_splits ht rfl (by omega)
            have hwne : w ≠ [] := by
              intro he
              subst he
              rw [List.append_nil] at hCw
              rw [hCw] at hII
              omega
            have hwlt : w.length < idMarker.length := by
              have hc2 := congrArg List.length hCw
              rw [List.length_append] at hc2
              omega
            have hpw : idMarker <+: w ++ (mseg ++ B) := by
              rw [← hbw]
              exact hpre
            have hwM := (prefix_cross hpw hwlt).1
            have hdM := (prefix_cross hpw hwlt).2
            rcases hj with ⟨hCne, hClast⟩ | hch | hemp
            · have hwl : w.getLast? = some '>' :=
                (suffix_getLast? (⟨a, hCw.symm⟩ : w <:+ C) hwne).trans hClast
              have hgt : '>' ∈ idMarker := by
                have hw_take : w = idMarker.take w.length :=
                  List.prefix_iff_eq_take.mp hwM
                exact List.take_subset _ _
                  (hw_take ▸ List.mem_of_getLast?_eq_some hwl)
              exact absurd hgt (by decide)
            · have hdne : idMarker.drop w.length ≠ [] := by
                intro he
                have hl2 := congrArg List.length he
                rw [List.length_drop] at hl2
                simp at hl2
                omega
              have hh := prefix_head? hdM hdne
              rw [hch] at hh
              have hlt2 : '<' ∈ idMarker :=
                List.drop_subset _ _ (List.mem_of_mem_head? (by rw [hh]; rfl))
              exact absurd hlt2 (by decide)
            · have hble := hpre.length_le
              have hbl : b.length = w.length := by
                rw [hbw, hemp, List.append_nil]
              omega

/-! ## The viewport condition is preserved by every later pass -/

theorem lower_ne_nil {m target : Str} (h : lowerStr m = target)
    (ht : target ≠ []) : m ≠ [] := by
  intro he
  rw [he] at h
  exact ht (h ▸ rfl)

theorem mseg_body_facts {m : Str} (h : lowerStr m = strL "</body>") :
    m.head? = some '<' ∧ m.getLast? = some '>' ∧ ¬ idMarker <:+: m
    ∧ countOcc dvN m = 0 ∧ countOcc cdvN m = 0 :=
  ⟨lowerStr_head_char h (by decide) (by decide),
   lowerStr_last_char h (by decide) (by decide),
   not_infix_of_lower h (by decide) (not_infix_of_isSub (by decide)),
   countOcc_eq_zero_of_not_infix _
     (not_infix_of_lower h (by decide) (not_infix_of_isSub (by decide))),
   countOcc_eq_zero_of_not_infix _
     (not_infix_of_lower h (by decide) (not_infix_of_isSub (by decide)))⟩

theorem navHtml_counts_eq (tc : Nat) :
    countOcc dvN (navHtml tc) = countOcc cdvN (navHtml tc) := by
  rw [countOcc_navHtml_dv, countOcc_navHtml_cdv]

theorem nav_body_head (tc : Nat) :
    (navHtml tc ++ strL "</body>").head? = some '\n' := by
  rw [List.head?_append_of_ne_nil _ (navHtml_ne_nil tc)]
  exact navHtml_head tc

theorem nav_body_last (tc : Nat) :
    (navHtml tc ++ strL "</body>").getLast? = some '>' := by
  rw [List.getLast?_append_of_ne_nil _ (by decide)]
  decide

theorem marker_nav_body (tc : Nat) :
    ¬ idMarker <:+: navHtml tc ++ strL "</body>" := by
  intro hi
  rcases infix_split hi with h1 | h2 | ⟨k, hk1, hk2, hstl, _⟩
  · exact marker_navHtml tc h1
  · exact not_infix_of_isSub (by decide) h2
  · exact absurd (straddle_left_mem (navHtml_last tc) hk1 hk2 hstl) (by decide)

theorem counts_nav_body (tc : Nat) :
    countOcc dvN (navHtml tc ++ strL "</body>")
    = countOcc cdvN (navHtml tc ++ strL "</body>") := by
  rw [countOcc_append_right _ _ (no_drop_prefix_head
    (show (strL "</body>").head? = some '<' from rfl) (by decide))]
  rw [countOcc_append_right _ _ (no_drop_prefix_head
    (show (strL "</body>").head? = some '<' from rfl) (by decide))]
  rw [countOcc_navHtml_dv, countOcc_navHtml_cdv]
  decide

theorem vpOK_injectNav (lower s : Str) (tc : Nat) (h : vpOK s) :
    vpOK (injectNav lower (navHtml tc) s) := by
  have hfall : vpOK (injectNavFallback lower (navHtml tc) s) := by
    rw [injectNavFallback]
    split
    · cases hsc : splitFirstCi (strL "<script") s with
      | none => exact h
      | some amb =>
          obtain ⟨A, m, B0⟩ := amb
          obtain ⟨hseq, hlm⟩ := splitFirstCi_eq hsc
          have hmne : m ≠ [] := lower_ne_nil hlm (by decide)
          have hshape : A ++ navHtml tc ++ m ++ B0
              = A ++ (navHtml tc ++ (m ++ B0)) := by
            simp [List.append_assoc]
          show vpOK (A ++ navHtml tc ++ m ++ B0)
          rw [hshape]
          refine vpOK_replace ?_ (Or.inl rfl) (navHtml_head tc)
            (Or.inl (navHtml_last tc)) (marker_navHtml tc)
            (navHtml_counts_eq tc) (Or.inr (Or.inl ?_))
          · rw [List.nil_append,
              show A ++ (m ++ B0) = A ++ m ++ B0 from by
                rw [List.append_assoc],
              ← hseq]
            exact h
          · rw [List.nil_append, List.head?_append_of_ne_nil _ hmne]
            exact lowerStr_head_char hlm (by decide) (by decide)
    · split
      · cases hsc : splitFirstCi (strL "</body>") s with
        | none => exact h
        | some amb =>
            obtain ⟨A, m, B0⟩ := amb
            obtain ⟨hseq, hlm⟩ := splitFirstCi_eq hsc
            have hmf := mseg_body_facts hlm
            have hmne : m ≠ [] := lower_ne_nil hlm (by decide)
            have hshape : A ++ navHtml tc ++ strL "</body>" ++ B0
                = A ++ ((navHtml tc ++ strL "</body>") ++ B0) := by
              simp [List.append_assoc]
            show vpOK (A ++ navHtml tc ++ strL "</body>" ++ B0)
            rw [hshape]
            refine vpOK_replace ?_ (Or.inr hmf) (nav_body_head tc)
              (Or.inr (nav_body_last tc)) (marker_nav_body tc)
              (counts_nav_body tc) (Or.inr (Or.inl ?_))
            · rw [show A ++ (m ++ B0) = A ++ m ++ B0 from by
                rw [List.append_assoc], ← hseq]
              exact h
            · rw [List.head?_append_of_ne_nil _ hmne]
              exact hmf.1
      · have hshape : s ++ navHtml tc = s ++ (navHtml tc ++ []) := by
          rw [List.append_nil]
        rw [hshape]
        refine vpOK_replace ?_ (Or.inl rfl) (navHtml_head tc)
          (Or.inl (navHtml_last tc)) (marker_navHtml tc)
          (navHtml_counts_eq tc) (Or.inr (Or.inr rfl))
        rw [List.nil_append, List.append_nil]
        exact h
  rw [injectNav]
  split
  · split
    · next A B hs1 =>
        obtain ⟨hseq, a0, m6, hA, hm6⟩ := s1Split_eq hs1
        have hm6ne : m6 ≠ [] := lower_ne_nil hm6 (by decide)
        have hAne : A ≠ [] := by
          rw [hA]
          intro he
          exact hm6ne (List.append_eq_nil.mp he).2
        have hAl : A.getLast? = some '>' := by
          rw [hA, List.getLast?_append_of_ne_nil _ hm6ne]
          exact lowerStr_last_char hm6 (by decide) (by decide)
        have hshape : A ++ navHtml tc ++ B = A ++ (navHtml tc ++ B) := by
          rw [List.append_assoc]
        rw [hshape]
        refine vpOK_replace ?_ (Or.inl rfl) (navHtml_head tc)
          (Or.inl (navHtml_last tc)) (marker_navHtml tc)
          (navHtml_counts_eq tc) (Or.inl ⟨hAne, hAl⟩)
        rw [List.nil_append, ← hseq]
        exact h
    · exact hfall
  · exact hfall

theorem vpOK_navPass (lower s : Str) (h : vpOK s) : vpOK (navPass lower s) := by
  rw [navPass]
  split
  · exact vpOK_injectNav lower s _ h
  · exact h

set_option maxRecDepth 400000 in
theorem js_head : essentialJs.head? = some '\n' := by decide

set_option maxRecDepth 400000 in
theorem js_last : essentialJs.getLast? = some '\n' := by decide

set_option maxRecDepth 400000 in
theorem js_marker : ¬ idMarker <:+: essentialJs :=
  not_infix_of_isSub (by decide)

set_option maxRecDepth 400000 in
theorem js_dv_zero : countOcc dvN essentialJs = 0 :=
  countOcc_eq_zero_of_not_infix _ (not_infix_of_isSub (by decide))

set_option maxRecDepth 400000 in
theorem js_cdv_zero : countOcc cdvN essentialJs = 0 :=
  countOcc_eq_zero_of_not_infix _ (not_infix_of_isSub (by decide))

theorem counts_js : countOcc dvN essentialJs = countOcc cdvN essentialJs := by
  rw [js_dv_zero, js_cdv_zero]

theorem js_ne_nil : essentialJs ≠ [] := by
  intro he
  have h2 := js_head
  rw [he] at h2
  simp at h2

theorem js_body_head : (essentialJs ++ strL "</body>").head? = some '\n' := by
  rw [List.head?_append_of_ne_nil _ js_ne_nil]
  exact js_head

theorem js_body_last : (essentialJs ++ strL "</body>").getLast? = some '>' := by
  rw [List.getLast?_append_of_ne_nil _ (by decide)]
  decide

theorem js_body_marker : ¬ idMarker <:+: essentialJs ++ strL "</body>" := by
  intro hi
  rcases infix_split hi with h1 | h2 | ⟨k, hk1, hk2, hstl, _⟩
  · exact js_marker h1
  · exact not_infix_of_isSub (by decide) h2
  · exact absurd (straddle_left_mem js_last hk1 hk2 hstl) (by decide)

theorem counts_js_body : countOcc dvN (essentialJs ++ strL "</body>")
    = countOcc cdvN (essentialJs ++ strL "</body>") := by
  rw [countOcc_append_right _ _ (no_drop_prefix_head
    (show (strL "</body>").head? = some '<' from rfl) (by decide))]
  rw [countOcc_append_right _ _ (no_drop_prefix_head
    (show (strL "</body>").head? = some '<' from rfl) (by decide))]
  rw [js_dv_zero, js_cdv_zero]
  decide

theorem vpOK_jsPass (lower s : Str) (h : vpOK s) : vpOK (jsPass lower s) := by
  rw [jsPass]
  split
  · split
    · cases hsc : splitFirstCi (strL "</body>") s with
      | none => exact h
      | some amb =>
          obtain ⟨A, m, B0⟩ := amb
          obtain ⟨hseq, hlm⟩ := splitFirstCi_eq hsc
          have hmf := mseg_body_facts hlm
          have hmne : m ≠ [] := lower_ne_nil hlm (by decide)
          have hshape : A ++ essentialJs ++ strL "</body>" ++ B0
              = A ++ ((essentialJs ++ strL "</body>") ++ B0) := by
            simp [List.append_assoc]
          show vpOK (A ++ essentialJs ++ strL "</body>" ++ B0)
          rw [hshape]
          refine vpOK_replace ?_ (Or.inr hmf) js_body_head (Or.inr js_body_last)
            js_body_marker counts_js_body (Or.inr (Or.inl ?_))
          · rw [show A ++ (m ++ B0) = A ++ m ++ B0 from by
              rw [List.append_assoc], ← hseq]
            exact h
          · rw [List.head?_append_of_ne_nil _ hmne]
            exact hmf.1
    · have hshape : s ++ essentialJs = s ++ (essentialJs ++ []) := by
        rw [List.append_nil]
      rw [hshape]
      refine vpOK_replace ?_ (Or.inl rfl) js_head (Or.inl js_last)
        js_marker counts_js (Or.inr (Or.inr rfl))
      rw [List.nil_append, List.append_nil]
      exact h
  · exact h

theorem vpOK_closeBody (lower s : Str) (h : vpOK s) :
    vpOK (closeBody lower s) := by
  rw [closeBody]
  split
  · have hshape : s ++ strL "\n</body>" = s ++ (strL "\n</body>" ++ []) := by
      rw [List.append_nil]
    rw [hshape]
    refine vpOK_replace ?_ (Or.inl rfl) (by decide) (Or.inr (by decide))
      (not_infix_of_isSub (by decide)) (by decide) (Or.inr (Or.inr rfl))
    rw [List.nil_append, List.append_nil]
    exact h
  · exact h

theorem vpOK_closePass (lower s : Str) (h : vpOK s) :
    vpOK (closePass lower s) := by
  rw [closePass]
  split
  · have hshape : closeBody lower s ++ strL "\n</html>"
        = closeBody lower s ++ (strL "\n</html>" ++ []) := by
      rw [List.append_nil]
    rw [hshape]
    refine vpOK_replace ?_ (Or.inl rfl) (by decide) (Or.inr (by decide))
      (not_infix_of_isSub (by decide)) (by decide) (Or.inr (Or.inr rfl))
    rw [List.nil_append, List.append_nil]
    exact vpOK_closeBody lower s h
  · exact vpOK_closeBody lower s h

theorem vpOK_ensure (x : Str) : vpOK (ensureNavigationAndScripts x) := by
  rw [ensureNavigationAndScripts]
  exact vpOK_closePass _ _ (vpOK_jsPass _ _ (vpOK_navPass _ _
    (vpOK_viewportPass _)))

/-! ## C3 (amended): idempotence given a fixed point of pass 1

Passes 3-5 of a second application are no-ops because the first
application's output always carries the navigation markers, the script
function names and the closing tags; pass 2 of the second application
is a no-op by `vpOK_ensure`.  Pass 1 is the one pass with no such
guarantee (see the counterexample), so idempotence holds exactly on the
inputs whose repaired output is a fixed point of the dangling-tag
strip. -/

theorem closeBody_pres_raw {N lower s : Str} (h : N <:+: s) :
    N <:+: closeBody lower s := by
  rw [closeBody]
  split
  · exact infix_left _ h
  · exact h

theorem closePass_pres_raw {N lower s : Str} (h : N <:+: s) :
    N <:+: closePass lower s := by
  rw [closePass]
  split
  · exact infix_left _ (closeBody_pres_raw h)
  · exact closeBody_pres_raw h

/-- Both navigation markers are present (case-insensitively) in the
repaired output of EVERY input: pass 3 injects a block carrying them
whenever the stale lowercase input lacks one, and occurrences already
present survive every pass. -/
theorem ensure_nav_markers (x : Str) :
    strL "bottom-nav" <:+: lowerStr (ensureNavigationAndScripts x)
    ∧ strL "nav-track" <:+: lowerStr (ensureNavigationAndScripts x) := by
  rw [ensureNavigationAndScripts]
  by_cases hg : (!isSub (strL "bottom-nav") (lowerStr x)
      || !isSub (strL "nav-track") (lowerStr x)) = true
  · have hsc : isSub (strL "<script") (lowerStr x) = true
        → strL "<script" <:+: lowerStr (viewportPass (stripDangling x)) := by
      intro hs
      exact stale_chain x 'c' (by decide) (by decide) (by decide) (by decide)
        (by decide) (infix_of_isSub hs)
    have hbd : isSub (strL "</body>") (lowerStr x) = true
        → strL "</body>" <:+: lowerStr (viewportPass (stripDangling x)) := by
      intro hs
      exact stale_chain x '/' (by decide) (by decide) (by decide) (by decide)
        (by decide) (infix_of_isSub hs)
    have hblock : navHtml (if pyCount tabMarker (viewportPass (stripDangling x)) = 0
          then 2 else pyCount tabMarker (viewportPass (stripDangling x)))
        <:+: navPass (lowerStr x) (viewportPass (stripDangling x)) := by
      rw [navPass, if_pos hg]
      exact injectNav_contains _ _ _ hsc hbd
    constructor
    · exact closePass_pres (jsPass_pres (by decide) (by decide)
        (Or.inl (not_infix_of_isSub (by decide)))
        ((navHtml_marker_bottom _).trans ( infix_lowerStr_of_infix hblock)))
    · exact closePass_pres (jsPass_pres (by decide) (by decide)
        (Or.inl (not_infix_of_isSub (by decide)))
        ((navHtml_marker_track _).trans ( infix_lowerStr_of_infix hblock)))
  · have h1 : isSub (strL "bottom-nav") (lowerStr x) = true := by
      cases e : isSub (strL "bottom-nav") (lowerStr x)
      · exact absurd (show (!isSub (strL "bottom-nav") (lowerStr x)
            || !isSub (strL "nav-track") (lowerStr x)) = true by simp [e]) hg
      · rfl
    have h2 : isSub (strL "nav-track") (lowerStr x) = true := by
      cases e : isSub (strL "nav-track") (lowerStr x)
      · exact absurd (show (!isSub (strL "bottom-nav") (lowerStr x)
            || !isSub (strL "nav-track") (lowerStr x)) = true by simp [e]) hg
      · rfl
    constructor
    · exact closePass_pres (jsPass_pres (by decide) (by decide)
        (Or.inl (not_infix_of_isSub (by decide)))
        (navPass_pres (by decide) (by decide)
          (Or.inl (not_infix_of_isSub (by decide)))
          (stale_chain x 'b' (by decide) (by decide) (by decide) (by decide)
            (by decide) (infix_of_isSub h1))))
    · exact closePass_pres (jsPass_pres (by decide) (by decide)
        (Or.inl (not_infix_of_isSub (by decide)))
        (navPass_pres (by decide) (by decide)
          (Or.inl (not_infix_of_isSub (by decide)))
          (stale_chain x 'r' (by decide) (by decide) (by decide) (by decide)
            (by decide) (infix_of_isSub h2))))

set_option maxRecDepth 400000 in
/-- Pass 4 always leaves both script function names (case-sensitively)
in its output: the injected block carries them, and when the guard is
off they were already present. -/
theorem jsPass_markers (lower s : Str)
    (hbd : isSub (strL "</body>") lower = true → strL "</body>" <:+: lowerStr s) :
    strL "switchTab" <:+: jsPass lower s ∧ strL "buildTOC" <:+: jsPass lower s := by
  rw [jsPass]
  by_cases hj : (!isSub (strL "switchTab") s || !isSub (strL "buildTOC") s) = true
  · rw [if_pos hj]
    by_cases hb : isSub (strL "</body>") lower = true
    · rw [if_pos hb]
      match e : splitFirstCi (strL "</body>") s with
      | some (a, m, b) =>
          constructor
          · show strL "switchTab" <:+: a ++ essentialJs ++ strL "</body>" ++ b
            exact infix_left b (infix_left _ (infix_right a
              (show strL "switchTab" <:+: essentialJs from infix_of_isSub (by decide))))
          · show strL "buildTOC" <:+: a ++ essentialJs ++ strL "</body>" ++ b
            exact infix_left b (infix_left _ (infix_right a
              (show strL "buildTOC" <:+: essentialJs from infix_of_isSub (by decide))))
      | Option.none => exact absurd (hbd hb) (splitFirstCi_none (by decide) e)
    · rw [if_neg hb]
      exact ⟨infix_right _
          (show strL "switchTab" <:+: essentialJs from infix_of_isSub (by decide)),
        infix_right _
          (show strL "buildTOC" <:+: essentialJs from infix_of_isSub (by decide))⟩
  · rw [if_neg hj]
    have h1 : isSub (strL "switchTab") s = true := by
      cases e : isSub (strL "switchTab") s
      · exact absurd (show (!isSub (strL "switchTab") s
            || !isSub (strL "buildTOC") s) = true by simp [e]) hj
      · rfl
    have h2 : isSub (strL "buildTOC") s = true := by
      cases e : isSub (strL "buildTOC") s
      · exact absurd (show (!isSub (strL "switchTab") s
            || !isSub (strL "buildTOC") s) = true by simp [e]) hj
      · rfl
    exact ⟨infix_of_isSub h1, infix_of_isSub h2⟩

/-- Both script function names are present (case-sensitively) in the
repaired output of EVERY input. -/
theorem ensure_js_markers (x : Str) :
    strL "switchTab" <:+: ensureNavigationAndScripts x
    ∧ strL "buildTOC" <:+: ensureNavigationAndScripts x := by
  have hbd : isSub (strL "</body>") (lowerStr x) = true
      → strL "</body>"
        <:+: lowerStr (navPass (lowerStr x) (viewportPass (stripDangling x))) := by
    intro hs
    exact navPass_pres (by decide) (by decide) (Or.inr rfl)
      (stale_chain x '/' (by decide) (by decide) (by decide) (by decide)
        (by decide) (infix_of_isSub hs))
  have hm := jsPass_markers (lowerStr x)
    (navPass (lowerStr x) (viewportPass (stripDangling x))) hbd
  exact ⟨closePass_pres_raw hm.1, closePass_pres_raw hm.2⟩

/-- C3 (amended): `_ensure_navigation_and_scripts` is idempotent on
every input whose repaired output is a fixed point of the dangling-tag
strip (pass 1) -- in particular on already-well-formed input.  Full
idempotence is refuted by the counterexample: pass 1 can strip only the
last of two stacked dangling open tags, so a second application strips
again.  On a second application pass 1 is then the identity by
hypothesis, pass 2 is the identity because the first application never
leaves an unbalanced tail after the viewport marker, and passes 3-5 are
the identity because the first application's output always carries the
navigation markers, the script function names and the closing tags. -/
theorem ensure_idempotent_of_strip_fixed (x : Str)
    (h : stripDangling (ensureNavigationAndScripts x) = ensureNavigationAndScripts x) :
    ensureNavigationAndScripts (ensureNavigationAndScripts x)
      = ensureNavigationAndScripts x := by
  have hb1 : isSub (strL "bottom-nav") (lowerStr (ensureNavigationAndScripts x)) = true :=
    ( isSub_iff_infix _ _).mpr (ensure_nav_markers x).1
  have hb2 : isSub (strL "nav-track") (lowerStr (ensureNavigationAndScripts x)) = true :=
    ( isSub_iff_infix _ _).mpr (ensure_nav_markers x).2
  have hj1 : isSub (strL "switchTab") (ensureNavigationAndScripts x) = true :=
    ( isSub_iff_infix _ _).mpr (ensure_js_markers x).1
  have hj2 : isSub (strL "buildTOC") (ensureNavigationAndScripts x) = true :=
    ( isSub_iff_infix _ _).mpr (ensure_js_markers x).2
  have hc1 : isSub (strL "</body>") (lowerStr (ensureNavigationAndScripts x)) = true :=
    ( isSub_iff_infix _ _).mpr (ensure_closers x).1
  have hc2 : isSub (strL "</html>") (lowerStr (ensureNavigationAndScripts x)) = true :=
    ( isSub_iff_infix _ _).mpr (ensure_closers x).2
  have hnavg : ¬ ((!isSub (strL "bottom-nav") (lowerStr (ensureNavigationAndScripts x))
      || !isSub (strL "nav-track") (lowerStr (ensureNavigationAndScripts x))) = true) := by
    rw [hb1, hb2]
    simp
  have hjsg : ¬ ((!isSub (strL "switchTab") (ensureNavigationAndScripts x)
      || !isSub (strL "buildTOC") (ensureNavigationAndScripts x)) = true) := by
    rw [hj1, hj2]
    simp
  have hclg : ¬ ((!isSub (strL "</html>") (lowerStr (ensureNavigationAndScripts x))) = true) := by
    rw [hc2]
    simp
  have hcbg : ¬ ((!isSub (strL "</body>") (lowerStr (ensureNavigationAndScripts x))) = true) := by
    rw [hc1]
    simp
  show closePass (lowerStr (ensureNavigationAndScripts x))
      (jsPass (lowerStr (ensureNavigationAndScripts x))
        (navPass (lowerStr (ensureNavigationAndScripts x))
          (viewportPass (stripDangling (ensureNavigationAndScripts x)))))
    = ensureNavigationAndScripts x
  rw [h, vp_noop (vpOK_ensure x), navPass, if_neg hnavg, jsPass, if_neg hjsg,
    closePass, if_neg hclg, closeBody, if_neg hcbg]

set_option maxRecDepth 400000 in
/-- Witness for C3's amended theorem at a well-formed input that already
carries every marker: its repaired output is a fixed point of the
dangling-tag strip, and the repair is idempotent on it. -/
theorem ensure_idempotent_of_strip_fixed_witness :
    stripDangling (ensureNavigationAndScripts
        (strL "<html><body>bottom-nav nav-track switchTab buildTOC</body></html>"))
      = ensureNavigationAndScripts
        (strL "<html><body>bottom-nav nav-track switchTab buildTOC</body></html>")
    ∧ ensureNavigationAndScripts (ensureNavigationAndScripts
        (strL "<html><body>bottom-nav nav-track switchTab buildTOC</body></html>"))
      = ensureNavigationAndScripts
        (strL "<html><body>bottom-nav nav-track switchTab buildTOC</body></html>") :=
  ⟨by decide,
   ensure_idempotent_of_strip_fixed
     (strL "<html><body>bottom-nav nav-track switchTab buildTOC</body></html>")
     (by decide)⟩

end AiConv
